import Mathlib

/-!
# daw::observable_ptr / daw::observer_ptr / daw::expected_t

A shallow embedding of `include/daw/parallel/daw_observable_ptr.h` and of the
parts of `include/daw/daw_expected.h` that `lock` uses.

Memory is explicit.  A `T *` is an `Option Nat` (`none` is `nullptr`), a
`control_block_t *` likewise; the heap maps addresses to the objects that are
alive there.  Reading or writing through a pointer whose target is not alive is
undefined behaviour and stops the execution (`Stuck.undefined_behaviour`).
`std::mutex` is a boolean (held or free): `try_lock` succeeds exactly when the
mutex is free, `lock` on a held mutex does not return (`Stuck.blocks`).
`std::atomic<int16_t>` arithmetic wraps in two's complement.
-/

namespace daw

/-- Why an operation does not return normally. -/
inductive Stuck where
  /-- the calling thread waits for `m_is_borrowed` -/
  | blocks
  /-- a dangling or null pointer is dereferenced -/
  | undefined_behaviour
deriving DecidableEq, Repr

/-- Two's complement wrap of `std::atomic<int16_t>` arithmetic. -/
def wrap16 (x : Int) : Int := (x + 32768) % 65536 - 32768

namespace impl

/-- The two closures the source stores in `locked_ptr::m_on_exit`. -/
inductive on_exit_t where
  /-- the closure `[]( ) {}` -/
  | nothing
  /-- the closure `[&]( ) { m_is_borrowed.unlock( ); }` of the control block at
  address `self` (the closure captures `this`) -/
  | unlock (self : Nat)
deriving DecidableEq, Repr

/-- `impl::locked_ptr<T>`: the guarded pointer and the exit callback. -/
structure locked_ptr where
  m_ptr : Option Nat
  m_on_exit : on_exit_t
deriving DecidableEq, Repr

/-- `locked_ptr::get`. -/
def locked_ptr.get (p : locked_ptr) : Option Nat := p.m_ptr

/-- `locked_ptr::operator bool`: `m_ptr != nullptr`. -/
def locked_ptr.to_bool (p : locked_ptr) : Bool := p.m_ptr.isSome

/-- `impl::control_block_t<T>`. `m_cb_destruct` is the `std::once_flag`
(true once `call_once` has run), `m_is_borrowed` the mutex (true when held). -/
structure control_block_t where
  m_ptr : Option Nat
  m_ptr_destruct : Bool
  m_cb_destruct : Bool
  m_is_borrowed : Bool
  m_observer_count : Int
deriving DecidableEq, Repr

namespace control_block_t

/-- Constructor `control_block_t( T *ptr )`. -/
def construct (ptr : Option Nat) : control_block_t :=
  { m_ptr := ptr, m_ptr_destruct := false, m_cb_destruct := false,
    m_is_borrowed := false, m_observer_count := 0 }

/-- `destruct_if_should( lock_guard const & )`. The second component is the
pointer handed to `delete` (`none` when nothing is deleted). -/
def destruct_if_should (cb : control_block_t) : control_block_t × Option Nat :=
  if cb.m_ptr_destruct then
    let tmp := cb.m_ptr
    ({ cb with m_ptr := none }, tmp)
  else (cb, none)

/-- `expired( )`. -/
def expired (cb : control_block_t) : Bool := cb.m_ptr_destruct

/-- `try_borrow( )`; `self` is the address of the control block (`this`). -/
def try_borrow (self : Nat) (cb : control_block_t) : locked_ptr × control_block_t :=
  if cb.m_is_borrowed then
    ({ m_ptr := none, m_on_exit := on_exit_t.nothing }, cb)
  else
    ({ m_ptr := cb.m_ptr, m_on_exit := on_exit_t.unlock self },
      { cb with m_is_borrowed := true })

/-- `borrow( )` (both overloads have the same body). -/
def borrow (self : Nat) (cb : control_block_t) :
    Except Stuck (locked_ptr × control_block_t) :=
  if cb.m_is_borrowed then Except.error Stuck.blocks
  else
    Except.ok ({ m_ptr := cb.m_ptr, m_on_exit := on_exit_t.unlock self },
      { cb with m_is_borrowed := true })

/-- `get( )`. -/
def get (cb : control_block_t) : Option Nat := cb.m_ptr

/-- `add_observer( )`. -/
def add_observer (cb : control_block_t) : Bool × control_block_t :=
  if cb.m_ptr_destruct then (false, cb)
  else (true, { cb with m_observer_count := wrap16 (cb.m_observer_count + 1) })

/-- The member `remove_observer( lock_guard & )`: the returned flag, the control
block afterwards and the pointer handed to `delete`. -/
def remove_observer_lck (cb : control_block_t) : Bool × control_block_t × Option Nat :=
  let cb1 := { cb with m_observer_count := wrap16 (cb.m_observer_count - 1) }
  let r := cb1.destruct_if_should
  (decide (r.1.m_observer_count ≤ 0), r.1, r.2)

/-- The member `remove_owner( lock_guard & )`. -/
def remove_owner_lck (cb : control_block_t) : Bool × control_block_t × Option Nat :=
  let cb1 := { cb with m_ptr_destruct := true }
  let r := cb1.destruct_if_should
  (decide (r.1.m_observer_count ≤ 0), r.1, r.2)

end control_block_t

end impl

/-- The memory the handles point into: the resources (`objs`), the control
blocks (`cbs`), and a record of every `delete tmp` of a resource (`deleted`) and
every `delete cb` of a control block (`freed`), in execution order. -/
structure Heap (T : Type) where
  objs : Nat → Option T
  cbs : Nat → Option impl.control_block_t
  deleted : List Nat
  freed : List Nat

namespace Heap

variable {T : Type}

/-- A heap with nothing allocated. -/
def empty : Heap T :=
  { objs := fun _ => none, cbs := fun _ => none, deleted := [], freed := [] }

/-- Write the control block `c` at address `a`. -/
def store (h : Heap T) (a : Nat) (c : impl.control_block_t) : Heap T :=
  { h with cbs := Function.update h.cbs a (some c) }

/-- Write the value `v` into the object at address `p`; with a fresh `p` this is
the expression `new T( v )` when the allocator returns `p`. -/
def new_obj (h : Heap T) (p : Nat) (v : T) : Heap T :=
  { h with objs := Function.update h.objs p (some v) }

/-- The statement `if( tmp ) { delete tmp; }`. -/
def delete_obj (h : Heap T) (tmp : Option Nat) : Heap T :=
  match tmp with
  | none => h
  | some p => { h with objs := Function.update h.objs p none, deleted := h.deleted ++ [p] }

/-- The statement `delete cb`. -/
def delete_cb (h : Heap T) (a : Nat) : Heap T :=
  { h with cbs := Function.update h.cbs a none, freed := h.freed ++ [a] }

end Heap

namespace impl

variable {T : Type}

namespace control_block_t

/-- The static `destruct_cb( control_block_t *cb )`. -/
def destruct_cb (cb : Option Nat) (h : Heap T) : Except Stuck (Heap T) :=
  match cb with
  | none => Except.ok h
  | some a =>
    match h.cbs a with
    | none => Except.error Stuck.undefined_behaviour
    | some c =>
      let do_destruct := !c.m_cb_destruct
      let h1 := h.store a { c with m_cb_destruct := true }
      if do_destruct then Except.ok (h1.delete_cb a) else Except.ok h1

/-- The static `remove_observer( control_block_t *cb )`. -/
def remove_observer (cb : Option Nat) (h : Heap T) : Except Stuck (Heap T) :=
  match cb with
  | none => Except.ok h
  | some a =>
    match h.cbs a with
    | none => Except.error Stuck.undefined_behaviour
    | some c =>
      if c.m_is_borrowed then Except.error Stuck.blocks
      else
        let r := remove_observer_lck { c with m_is_borrowed := true }
        let destruction := r.1
        let h1 := (h.store a { r.2.1 with m_is_borrowed := false }).delete_obj r.2.2
        if destruction then destruct_cb (some a) h1 else Except.ok h1

/-- The static `remove_owner( control_block_t *cb )`. -/
def remove_owner (cb : Option Nat) (h : Heap T) : Except Stuck (Heap T) :=
  match cb with
  | none => Except.ok h
  | some a =>
    match h.cbs a with
    | none => Except.error Stuck.undefined_behaviour
    | some c =>
      if c.m_is_borrowed then Except.error Stuck.blocks
      else
        let r := remove_owner_lck { c with m_is_borrowed := true }
        let destruction := r.1
        let h1 := (h.store a { r.2.1 with m_is_borrowed := false }).delete_obj r.2.2
        if destruction then destruct_cb (some a) h1 else Except.ok h1

end control_block_t

/-- Destructor `~locked_ptr( )`: runs the exit callback. -/
def locked_ptr.destroy (p : locked_ptr) (h : Heap T) : Except Stuck (Heap T) :=
  match p.m_on_exit with
  | on_exit_t.nothing => Except.ok h
  | on_exit_t.unlock a =>
    match h.cbs a with
    | none => Except.error Stuck.undefined_behaviour
    | some c => Except.ok (h.store a { c with m_is_borrowed := false })

/-- `locked_ptr::operator*`: the object `m_ptr` points to. -/
def locked_ptr.deref (p : locked_ptr) (h : Heap T) : Except Stuck T :=
  match p.m_ptr with
  | none => Except.error Stuck.undefined_behaviour
  | some q =>
    match h.objs q with
    | none => Except.error Stuck.undefined_behaviour
    | some v => Except.ok v

end impl

/-- `daw::observer_ptr<T>`. -/
structure observer_ptr where
  m_control_block : Option Nat
deriving DecidableEq, Repr

/-- `daw::observable_ptr<T>`. -/
structure observable_ptr where
  m_control_block : Option Nat
deriving DecidableEq, Repr

namespace observer_ptr

variable {T : Type}

/-- Constructor `observer_ptr( impl::control_block_t<T> *cb )`. -/
def construct (cb : Option Nat) : observer_ptr := { m_control_block := cb }

/-- `reset( )`: the handle afterwards and the heap. -/
def reset (o : observer_ptr) (h : Heap T) : Except Stuck (observer_ptr × Heap T) :=
  let tmp := o.m_control_block
  match tmp with
  | none => Except.ok ({ m_control_block := none }, h)
  | some a =>
    match impl.control_block_t.remove_observer (some a) h with
    | Except.error e => Except.error e
    | Except.ok h1 => Except.ok ({ m_control_block := none }, h1)

/-- Destructor `~observer_ptr( )`. -/
def destroy (o : observer_ptr) (h : Heap T) : Except Stuck (Heap T) :=
  match o.reset h with
  | Except.error e => Except.error e
  | Except.ok r => Except.ok r.2

/-- Copy constructor `observer_ptr( observer_ptr const &other )`. -/
def copy (other : observer_ptr) (h : Heap T) : Except Stuck (observer_ptr × Heap T) :=
  match other.m_control_block with
  | none => Except.error Stuck.undefined_behaviour
  | some a =>
    match h.cbs a with
    | none => Except.error Stuck.undefined_behaviour
    | some c => Except.ok ({ m_control_block := some a }, h.store a c.add_observer.2)

/-- `get( )`. -/
def get (o : observer_ptr) (h : Heap T) : Except Stuck (Option Nat) :=
  match o.m_control_block with
  | none => Except.ok none
  | some a =>
    match h.cbs a with
    | none => Except.error Stuck.undefined_behaviour
    | some c => Except.ok c.get

/-- `try_borrow( )`. -/
def try_borrow (o : observer_ptr) (h : Heap T) : Except Stuck (impl.locked_ptr × Heap T) :=
  match o.m_control_block with
  | none => Except.ok ({ m_ptr := none, m_on_exit := impl.on_exit_t.nothing }, h)
  | some a =>
    match h.cbs a with
    | none => Except.error Stuck.undefined_behaviour
    | some c => Except.ok ((c.try_borrow a).1, h.store a (c.try_borrow a).2)

/-- `borrow( )`. -/
def borrow (o : observer_ptr) (h : Heap T) : Except Stuck (impl.locked_ptr × Heap T) :=
  match o.m_control_block with
  | none => Except.ok ({ m_ptr := none, m_on_exit := impl.on_exit_t.nothing }, h)
  | some a =>
    match h.cbs a with
    | none => Except.error Stuck.undefined_behaviour
    | some c =>
      match c.borrow a with
      | Except.error e => Except.error e
      | Except.ok r => Except.ok (r.1, h.store a r.2)

/-- `operator bool( )`. -/
def to_bool (o : observer_ptr) (h : Heap T) : Except Stuck Bool :=
  match o.m_control_block with
  | none => Except.ok false
  | some a =>
    match h.cbs a with
    | none => Except.error Stuck.undefined_behaviour
    | some c => Except.ok (!c.expired)

/-- `get_observer( )`. -/
def get_observer (o : observer_ptr) : observer_ptr := construct o.m_control_block

end observer_ptr

/-- The member `std::variant<std::exception_ptr, value_type> m_value` of
`expected_t`; a `std::exception_ptr` is `none` when null and `some e` when it
holds the exception `e`. -/
inductive variant (E R : Type) where
  | exception_ptr (ptr : Option E)
  | value (v : R)
deriving DecidableEq, Repr

/-- `daw::expected_t<T>`. -/
structure expected_t (E R : Type) where
  m_value : variant E R
deriving DecidableEq, Repr

/-- What `expected_t::get` throws. -/
inductive thrown (E : Type) where
  /-- the result of `std::rethrow_exception( ptr )` -/
  | rethrown (e : E)
  /-- the result of `daw_throw<std::logic_error>( what )` -/
  | logic_error (what : String)
deriving DecidableEq, Repr

/-- A run of `variant_from_code`: the variant returned, the argument object
after the call (it is passed by reference) and the number of calls of `func`. -/
structure from_code_t (E R A : Type) where
  m_value : variant E R
  arg : A
  calls : Nat

/-- A run of `lock`: the `expected_t` returned, the number of calls of the
callable and the heap afterwards. -/
structure lock_t (E R T : Type) where
  result : expected_t E R
  calls : Nat
  heap : Heap T

namespace expected_t

variable {E R A : Type}

/-- Default constructor `expected_t( )`: `m_value = std::exception_ptr( nullptr )`. -/
def construct : expected_t E R := { m_value := variant.exception_ptr none }

/-- `variant_from_code( func, args... )`. A callable maps its argument to the
argument afterwards and to the value it returns or the exception it throws. -/
def variant_from_code (func : A → A × Except E R) (arg : A) : from_code_t E R A :=
  match func arg with
  | (arg1, Except.ok v) => { m_value := variant.value v, arg := arg1, calls := 1 }
  | (arg1, Except.error e) =>
    { m_value := variant.exception_ptr (some e), arg := arg1, calls := 1 }

/-- `from_code( func, args... )`: the `expected_t` returned, with the argument
afterwards and the number of calls of `func`. -/
def from_code (func : A → A × Except E R) (arg : A) : expected_t E R × A × Nat :=
  let result : expected_t E R := construct
  let r := variant_from_code func arg
  ({ result with m_value := r.m_value }, r.arg, r.calls)

/-- `has_value( )`. -/
def has_value (e : expected_t E R) : Bool :=
  match e.m_value with
  | variant.value _ => true
  | variant.exception_ptr _ => false

/-- `has_exception( )`. -/
def has_exception (e : expected_t E R) : Bool :=
  match e.m_value with
  | variant.value _ => false
  | variant.exception_ptr ptr => ptr.isSome

/-- `empty( )`. -/
def empty (e : expected_t E R) : Bool :=
  match e.m_value with
  | variant.value _ => false
  | variant.exception_ptr ptr => ptr.isNone

/-- `operator bool( )`. -/
def to_bool (e : expected_t E R) : Bool := !e.empty

/-- `get( )`. -/
def get (e : expected_t E R) : Except (thrown E) R :=
  match e.m_value with
  | variant.value v => Except.ok v
  | variant.exception_ptr ptr =>
    match ptr with
    | some x => Except.error (thrown.rethrown x)
    | none => Except.error (thrown.logic_error "Unexpected empty state")

end expected_t

namespace observer_ptr

variable {T E R : Type}

/-- The overload `lock( Callable &&c )` for callables taking `T &`. -/
def lock (o : observer_ptr) (c : T → T × Except E R) (h : Heap T) :
    Except Stuck (lock_t E R T) :=
  match o.borrow h with
  | Except.error e => Except.error e
  | Except.ok (lck_ptr, h1) =>
    if !lck_ptr.to_bool then
      match lck_ptr.destroy h1 with
      | Except.error e => Except.error e
      | Except.ok h2 => Except.ok { result := expected_t.construct, calls := 0, heap := h2 }
    else
      match lck_ptr.m_ptr with
      | none => Except.error Stuck.undefined_behaviour
      | some q =>
        match h1.objs q with
        | none => Except.error Stuck.undefined_behaviour
        | some r =>
          let res := expected_t.from_code c r
          match lck_ptr.destroy (h1.new_obj q res.2.1) with
          | Except.error e => Except.error e
          | Except.ok h2 => Except.ok { result := res.1, calls := res.2.2, heap := h2 }

/-- The overload `lock( Callable &&c ) const` for callables taking `T const &`. -/
def lock_const (o : observer_ptr) (c : T → Except E R) (h : Heap T) :
    Except Stuck (lock_t E R T) :=
  match o.borrow h with
  | Except.error e => Except.error e
  | Except.ok (lck_ptr, h1) =>
    if !lck_ptr.to_bool then
      match lck_ptr.destroy h1 with
      | Except.error e => Except.error e
      | Except.ok h2 => Except.ok { result := expected_t.construct, calls := 0, heap := h2 }
    else
      match lck_ptr.deref h1 with
      | Except.error e => Except.error e
      | Except.ok r =>
        let res := expected_t.from_code (fun v => (v, c v)) r
        match lck_ptr.destroy h1 with
        | Except.error e => Except.error e
        | Except.ok h2 => Except.ok { result := res.1, calls := res.2.2, heap := h2 }

end observer_ptr

namespace observable_ptr

variable {T E R : Type}

/-- Constructor `observable_ptr( T *value )`, when `new impl::control_block_t<T>`
returns address `a`. -/
def construct (value : Option Nat) (a : Nat) (h : Heap T) : observable_ptr × Heap T :=
  ({ m_control_block := some a }, h.store a (impl.control_block_t.construct value))

/-- Destructor `~observable_ptr( )`. -/
def destroy (o : observable_ptr) (h : Heap T) : Except Stuck (Heap T) :=
  let tmp := o.m_control_block
  match tmp with
  | none => Except.ok h
  | some a => impl.control_block_t.remove_owner (some a) h

/-- `get_observer( )`. -/
def get_observer (o : observable_ptr) : observer_ptr :=
  observer_ptr.construct o.m_control_block

/-- `get( )`. -/
def get (o : observable_ptr) (h : Heap T) : Except Stuck (Option Nat) :=
  match o.m_control_block with
  | none => Except.ok none
  | some a =>
    match h.cbs a with
    | none => Except.error Stuck.undefined_behaviour
    | some c => Except.ok c.get

/-- `try_borrow( )`. -/
def try_borrow (o : observable_ptr) (h : Heap T) : Except Stuck (impl.locked_ptr × Heap T) :=
  match o.m_control_block with
  | none => Except.ok ({ m_ptr := none, m_on_exit := impl.on_exit_t.nothing }, h)
  | some a =>
    match h.cbs a with
    | none => Except.error Stuck.undefined_behaviour
    | some c => Except.ok ((c.try_borrow a).1, h.store a (c.try_borrow a).2)

/-- `borrow( )`. -/
def borrow (o : observable_ptr) (h : Heap T) : Except Stuck (impl.locked_ptr × Heap T) :=
  match o.m_control_block with
  | none => Except.ok ({ m_ptr := none, m_on_exit := impl.on_exit_t.nothing }, h)
  | some a =>
    match h.cbs a with
    | none => Except.error Stuck.undefined_behaviour
    | some c =>
      match c.borrow a with
      | Except.error e => Except.error e
      | Except.ok r => Except.ok (r.1, h.store a r.2)

/-- The overload `lock( Callable &&c )` for callables taking `T &`. -/
def lock (o : observable_ptr) (c : T → T × Except E R) (h : Heap T) :
    Except Stuck (lock_t E R T) :=
  match o.borrow h with
  | Except.error e => Except.error e
  | Except.ok (lck_ptr, h1) =>
    if !lck_ptr.to_bool then
      match lck_ptr.destroy h1 with
      | Except.error e => Except.error e
      | Except.ok h2 => Except.ok { result := expected_t.construct, calls := 0, heap := h2 }
    else
      match lck_ptr.m_ptr with
      | none => Except.error Stuck.undefined_behaviour
      | some q =>
        match h1.objs q with
        | none => Except.error Stuck.undefined_behaviour
        | some r =>
          let res := expected_t.from_code c r
          match lck_ptr.destroy (h1.new_obj q res.2.1) with
          | Except.error e => Except.error e
          | Except.ok h2 => Except.ok { result := res.1, calls := res.2.2, heap := h2 }

/-- The overload `lock( Callable &&c ) const` for callables taking `T const &`. -/
def lock_const (o : observable_ptr) (c : T → Except E R) (h : Heap T) :
    Except Stuck (lock_t E R T) :=
  match o.borrow h with
  | Except.error e => Except.error e
  | Except.ok (lck_ptr, h1) =>
    if !lck_ptr.to_bool then
      match lck_ptr.destroy h1 with
      | Except.error e => Except.error e
      | Except.ok h2 => Except.ok { result := expected_t.construct, calls := 0, heap := h2 }
    else
      match lck_ptr.deref h1 with
      | Except.error e => Except.error e
      | Except.ok r =>
        let res := expected_t.from_code (fun v => (v, c v)) r
        match lck_ptr.destroy h1 with
        | Except.error e => Except.error e
        | Except.ok h2 => Except.ok { result := res.1, calls := res.2.2, heap := h2 }

/-- `operator bool( )`. -/
def to_bool (o : observable_ptr) (h : Heap T) : Except Stuck Bool :=
  match o.m_control_block with
  | none => Except.ok false
  | some a =>
    match h.cbs a with
    | none => Except.error Stuck.undefined_behaviour
    | some c => Except.ok (!c.expired)

end observable_ptr

namespace observer_ptr

variable {T : Type}

/-- Move constructor `observer_ptr( observer_ptr &&other )`: the new handle and
`other` afterwards. -/
def move (other : observer_ptr) : observer_ptr × observer_ptr :=
  ({ m_control_block := other.m_control_block }, { m_control_block := none })

/-- Copy assignment `operator=( observer_ptr const &rhs )`; `same` says whether
`this == &rhs`. The result is `*this` afterwards. -/
def copy_assign (self rhs : observer_ptr) (same : Bool) (h : Heap T) :
    Except Stuck (observer_ptr × Heap T) :=
  if same then Except.ok (self, h)
  else
    match rhs.m_control_block with
    | none => Except.error Stuck.undefined_behaviour
    | some a =>
      match h.cbs a with
      | none => Except.error Stuck.undefined_behaviour
      | some c => Except.ok ({ m_control_block := some a }, h.store a c.add_observer.2)

/-- Move assignment `operator=( observer_ptr &&rhs )`; `same` says whether
`this == &rhs`. The result is `*this` and `rhs` afterwards. -/
def move_assign (self rhs : observer_ptr) (same : Bool) : observer_ptr × observer_ptr :=
  if same then (self, rhs)
  else ({ m_control_block := rhs.m_control_block }, { m_control_block := none })

/-- `operator->( )`: returns `borrow( )`. -/
def operator_arrow (o : observer_ptr) (h : Heap T) :
    Except Stuck (impl.locked_ptr × Heap T) :=
  o.borrow h

/-- `operator*( )` (both overloads): `T &r = *borrow( ); return r;`. The
temporary Locked Handle is dereferenced and then destroyed; the result is the
address the returned reference refers to. -/
def operator_star (o : observer_ptr) (h : Heap T) : Except Stuck (Nat × Heap T) :=
  match o.borrow h with
  | Except.error e => Except.error e
  | Except.ok (lck_ptr, h1) =>
    match lck_ptr.m_ptr with
    | none => Except.error Stuck.undefined_behaviour
    | some q =>
      match lck_ptr.destroy h1 with
      | Except.error e => Except.error e
      | Except.ok h2 => Except.ok (q, h2)

end observer_ptr

namespace observable_ptr

variable {T : Type}

/-- `operator->( )`: returns `borrow( )`. -/
def operator_arrow (o : observable_ptr) (h : Heap T) :
    Except Stuck (impl.locked_ptr × Heap T) :=
  o.borrow h

/-- `operator*( )` (both overloads): `T &r = *borrow( ); return r;`. -/
def operator_star (o : observable_ptr) (h : Heap T) : Except Stuck (Nat × Heap T) :=
  match o.borrow h with
  | Except.error e => Except.error e
  | Except.ok (lck_ptr, h1) =>
    match lck_ptr.m_ptr with
    | none => Except.error Stuck.undefined_behaviour
    | some q =>
      match lck_ptr.destroy h1 with
      | Except.error e => Except.error e
      | Except.ok h2 => Except.ok (q, h2)

end observable_ptr

namespace expected_t

variable {E R : Type}

/-- Constructors `expected_t( value_type const &value )` and
`expected_t( value_type &&value )`. -/
def of_value (value : R) : expected_t E R := { m_value := variant.value value }

/-- Constructor `expected_t( std::exception_ptr ptr )`. -/
def of_exception_ptr (ptr : Option E) : expected_t E R :=
  { m_value := variant.exception_ptr ptr }

/-- `clear( )`. -/
def clear (_e : expected_t E R) : expected_t E R :=
  { m_value := variant.exception_ptr none }

/-- `set_exception( std::exception_ptr ptr )`. -/
def set_exception (_e : expected_t E R) (ptr : Option E) : expected_t E R :=
  { m_value := variant.exception_ptr ptr }

/-- `operator*( )` (both overloads): returns `get( )`. -/
def operator_star (e : expected_t E R) : Except (thrown E) R := e.get

end expected_t

namespace traits

/-- `traits::are_same_types<T, Rest...>::value`, types being compared with
`std::is_same`: the primary template (empty `Rest`), the specialisation
`<T, First>` and the specialisation `<T, First, Rest...>`. -/
def are_same_types {α : Type} [DecidableEq α] (T : α) : List α → Bool
  | [] => false
  | [First] => decide (T = First)
  | First :: Rest => decide (T = First) || are_same_types T Rest

/-- `traits::are_same_types_v<T, Rest...>`. -/
def are_same_types_v {α : Type} [DecidableEq α] (T : α) (Rest : List α) : Bool :=
  are_same_types T Rest

/-- The types used in the examples. -/
inductive cpp_type where
  | int
  | double
  | char
deriving DecidableEq, Repr

end traits

/-- One control block together with the Locked Handles that are outstanding. -/
structure System (T : Type) where
  heap : Heap T
  handles : List impl.locked_ptr

/-- The operations that act on the control block of a `System`. The boolean of
`try_borrow` and `borrow` says whether the call goes through the Owner (`true`)
or through an Observer (`false`); `release i` destroys the `i`-th outstanding
Locked Handle, and is no step at all when fewer handles are outstanding. -/
inductive Action where
  | try_borrow (owner : Bool)
  | borrow (owner : Bool)
  | release (i : Nat)
  | remove_observer
  | remove_owner
deriving DecidableEq, Repr

namespace System

variable {T : Type}

/-- The effect of one operation on the control block at address `cb`. -/
def step (cb : Nat) (s : System T) (act : Action) : Except Stuck (System T) :=
  match act with
  | Action.try_borrow owner =>
    match (if owner then observable_ptr.try_borrow { m_control_block := some cb } s.heap
           else observer_ptr.try_borrow { m_control_block := some cb } s.heap) with
    | Except.error e => Except.error e
    | Except.ok r => Except.ok { heap := r.2, handles := s.handles ++ [r.1] }
  | Action.borrow owner =>
    match (if owner then observable_ptr.borrow { m_control_block := some cb } s.heap
           else observer_ptr.borrow { m_control_block := some cb } s.heap) with
    | Except.error e => Except.error e
    | Except.ok r => Except.ok { heap := r.2, handles := s.handles ++ [r.1] }
  | Action.release i =>
    match s.handles[i]? with
    | none => Except.error Stuck.undefined_behaviour
    | some p =>
      match p.destroy s.heap with
      | Except.error e => Except.error e
      | Except.ok h => Except.ok { heap := h, handles := s.handles.eraseIdx i }
  | Action.remove_observer =>
    match impl.control_block_t.remove_observer (some cb) s.heap with
    | Except.error e => Except.error e
    | Except.ok h => Except.ok { heap := h, handles := s.handles }
  | Action.remove_owner =>
    match impl.control_block_t.remove_owner (some cb) s.heap with
    | Except.error e => Except.error e
    | Except.ok h => Except.ok { heap := h, handles := s.handles }

/-- The system right after `observable_ptr( T *value )` has built its control
block at address `cb`: no Locked Handle exists yet. -/
def initial (value : Option Nat) (cb : Nat) (h : Heap T) : System T :=
  { heap := (observable_ptr.construct value cb h).2, handles := [] }

/-- Run a sequence of operations; the run stops at the first one that does not
return. -/
def run (cb : Nat) (s : System T) : List Action → Except Stuck (System T)
  | [] => Except.ok s
  | act :: rest =>
    match s.step cb act with
    | Except.error e => Except.error e
    | Except.ok s1 => run cb s1 rest

/-- Whether the Locked Handle `p` holds the borrow lock of the control block at
`cb`: its exit callback is the one that unlocks that mutex. -/
def holds (cb : Nat) (p : impl.locked_ptr) : Bool :=
  decide (p.m_on_exit = impl.on_exit_t.unlock cb)

/-- The outstanding Locked Handles that hold the borrow lock. -/
def holders (cb : Nat) (s : System T) : List impl.locked_ptr :=
  s.handles.filter (holds cb)

/-- How many times the mutex of the control block at `cb` is held: 1 when the
control block is alive and `m_is_borrowed` is locked, 0 otherwise. -/
def lock_count (cb : Nat) (s : System T) : Nat :=
  match s.heap.cbs cb with
  | none => 0
  | some c => if c.m_is_borrowed then 1 else 0

/-- The invariant behind mutual exclusion: every outstanding Locked Handle was
made for this control block, a handle with a non-null pointer carries the
unlocking callback, and the handles that carry it are as many as the mutex is
held. -/
def lock_inv (cb : Nat) (s : System T) : Prop :=
  (∀ p ∈ s.handles,
    p.m_on_exit = impl.on_exit_t.nothing ∨ p.m_on_exit = impl.on_exit_t.unlock cb) ∧
  (∀ p ∈ s.handles, p.m_ptr.isSome = true → p.m_on_exit = impl.on_exit_t.unlock cb) ∧
  (s.holders cb).length = s.lock_count cb

/-- The invariant behind deferred deletion: while the control block is alive, a
handle that holds the lock carries the control block's resource pointer, and
that pointer, when not null, points to a live object. -/
def live_inv (cb : Nat) (s : System T) : Prop :=
  ∀ c, s.heap.cbs cb = some c →
    (∀ p ∈ s.handles, holds cb p = true → p.m_ptr = c.m_ptr) ∧
    (∀ q, c.m_ptr = some q → (s.heap.objs q).isSome = true)

end System

/-- The heap together with the handles of one control block: its Owner (`none`
once destroyed) and the Observers that exist. -/
structure World (T : Type) where
  heap : Heap T
  owner : Option observable_ptr
  observers : List observer_ptr

/-- The operations that create, assign and destroy handles; `i` and `j` index
the existing Observers. An operation on a handle that does not exist is no step
at all. -/
inductive Op where
  /-- a new Observer from `observable_ptr::get_observer` of the Owner -/
  | get_observer
  /-- a new Observer from `observer_ptr::get_observer` of Observer `i` -/
  | observer_get_observer (i : Nat)
  /-- a new Observer copy-constructed from Observer `i` -/
  | copy (i : Nat)
  /-- a new Observer move-constructed from Observer `i` -/
  | move (i : Nat)
  /-- copy assignment of Observer `j` to Observer `i` -/
  | copy_assign (i j : Nat)
  /-- move assignment of Observer `j` to Observer `i` -/
  | move_assign (i j : Nat)
  /-- destruction of Observer `i` -/
  | destroy_observer (i : Nat)
  /-- destruction of the Owner -/
  | destroy_owner
deriving DecidableEq, Repr

namespace World

variable {T : Type}

/-- The world right after `observable_ptr( T *value )` has built its control
block at address `cb`. -/
def initial (value : Option Nat) (cb : Nat) (h : Heap T) : World T :=
  { heap := (observable_ptr.construct value cb h).2,
    owner := some (observable_ptr.construct value cb h).1,
    observers := [] }

/-- The effect of one operation. -/
def step (w : World T) (op : Op) : Except Stuck (World T) :=
  match op with
  | Op.get_observer =>
    match w.owner with
    | none => Except.error Stuck.undefined_behaviour
    | some ow => Except.ok { w with observers := w.observers ++ [ow.get_observer] }
  | Op.observer_get_observer i =>
    match w.observers[i]? with
    | none => Except.error Stuck.undefined_behaviour
    | some o => Except.ok { w with observers := w.observers ++ [o.get_observer] }
  | Op.copy i =>
    match w.observers[i]? with
    | none => Except.error Stuck.undefined_behaviour
    | some o =>
      match o.copy w.heap with
      | Except.error e => Except.error e
      | Except.ok r => Except.ok { w with heap := r.2, observers := w.observers ++ [r.1] }
  | Op.move i =>
    match w.observers[i]? with
    | none => Except.error Stuck.undefined_behaviour
    | some o =>
      Except.ok { w with observers := (w.observers.set i o.move.2) ++ [o.move.1] }
  | Op.copy_assign i j =>
    match w.observers[i]?, w.observers[j]? with
    | some self, some rhs =>
      match self.copy_assign rhs (decide (i = j)) w.heap with
      | Except.error e => Except.error e
      | Except.ok r => Except.ok { w with heap := r.2, observers := w.observers.set i r.1 }
    | _, _ => Except.error Stuck.undefined_behaviour
  | Op.move_assign i j =>
    match w.observers[i]?, w.observers[j]? with
    | some self, some rhs =>
      let r := self.move_assign rhs (decide (i = j))
      Except.ok { w with observers := (w.observers.set j r.2).set i r.1 }
    | _, _ => Except.error Stuck.undefined_behaviour
  | Op.destroy_observer i =>
    match w.observers[i]? with
    | none => Except.error Stuck.undefined_behaviour
    | some o =>
      match o.destroy w.heap with
      | Except.error e => Except.error e
      | Except.ok h => Except.ok { w with heap := h, observers := w.observers.eraseIdx i }
  | Op.destroy_owner =>
    match w.owner with
    | none => Except.error Stuck.undefined_behaviour
    | some ow =>
      match ow.destroy w.heap with
      | Except.error e => Except.error e
      | Except.ok h => Except.ok { w with heap := h, owner := none }

/-- Run a sequence of operations; the run stops at the first one that does not
return. -/
def run (w : World T) : List Op → Except Stuck (World T)
  | [] => Except.ok w
  | op :: rest =>
    match w.step op with
    | Except.error e => Except.error e
    | Except.ok w1 => run w1 rest

end World

/-- The observer count stored in the control block at address `a`, if one is
alive there. -/
def Heap.observer_count {T : Type} (h : Heap T) (a : Nat) : Option Int :=
  (h.cbs a).map (fun c => c.m_observer_count)

/-- The destruction flag stored in the control block at address `a`, if one is
alive there. -/
def Heap.destruction_requested {T : Type} (h : Heap T) (a : Nat) : Option Bool :=
  (h.cbs a).map (fun c => c.m_ptr_destruct)

namespace scenario

/-- A heap in which `new int( 42 )` has returned address 0. -/
def heap42 : Heap Nat := Heap.new_obj Heap.empty 0 42

/-- The Owner `observable_ptr<int>( p )` built around that object; its control
block is at address 1. -/
def owner : observable_ptr := (observable_ptr.construct (some 0) 1 heap42).1

/-- The heap right after the Owner has been built. -/
def start : Heap Nat := (observable_ptr.construct (some 0) 1 heap42).2

/-- The Observer `owner.get_observer( )`. -/
def observer : observer_ptr := owner.get_observer

/-- The callable `[]( int &v ) { return v + 1; }`. -/
def plus_one : Nat → Nat × Except String Nat := fun v => (v, Except.ok (v + 1))

/-- The callable `[]( int const &v ) { return v + 1; }`. -/
def plus_one_const : Nat → Except String Nat := fun v => Except.ok (v + 1)

/-- A callable that sets the value to 7 and then throws. -/
def throwing : Nat → Nat × Except String Nat := fun _ => (7, Except.error "boom")

/-- A callable taking `int const &` that throws. -/
def throwing_const : Nat → Except String Nat := fun _ => Except.error "boom"

/-- The heap in which the Owner is alive and 32767 Observers are registered. -/
def full : Heap Nat :=
  start.store 1 { impl.control_block_t.construct (some 0) with m_observer_count := 32767 }

/-- A control block at address 1 whose resource has been deleted while two
Observers are registered: the destruction flag is set, the pointer is null. -/
def expired_cb : impl.control_block_t :=
  { m_ptr := none, m_ptr_destruct := true, m_cb_destruct := false,
    m_is_borrowed := false, m_observer_count := 2 }

/-- The heap holding `expired_cb` at address 1. -/
def expired : Heap Nat := (Heap.empty : Heap Nat).store 1 expired_cb

end scenario

/-- Move assignment `observable_ptr::operator=( observable_ptr &&rhs )`; `same`
says whether `this == &rhs`. The result is `*this` and `rhs` afterwards; the
heap is not touched. -/
def observable_ptr.move_assign (self rhs : observable_ptr) (same : Bool) :
    observable_ptr × observable_ptr :=
  if same then (self, rhs)
  else ({ m_control_block := rhs.m_control_block }, { m_control_block := none })

/-- The overload `expected_from_code<Result>( func, args... )`: the statement
`result.from_code( func, args... )` calls the static member and drops what it
returns. The result is paired with the argument afterwards and the number of
calls of `func`. -/
def expected_from_code {E R A : Type} (func : A → A × Except E R) (arg : A) :
    expected_t E R × A × Nat :=
  let result : expected_t E R := expected_t.construct
  let dropped := expected_t.from_code func arg
  (result, dropped.2.1, dropped.2.2)

/-- The overload `expected_from_code( func, args... )` with the result type
deduced: `return expected_t<result_t>::from_code( func, args... )`. -/
def expected_from_code_deduced {E R A : Type} (func : A → A × Except E R) (arg : A) :
    expected_t E R × A × Nat :=
  expected_t.from_code func arg

/-! ## `daw::span`, `daw::basic_static_string`

Addresses and `size_t` values are natural numbers below `2 ^ 64`. -/

/-- What the library code throws: `std::out_of_range` with its message, or
another exception. -/
inductive exception where
  | out_of_range (what : String)
  | other (what : String)
deriving DecidableEq, Repr

/-- `daw::span<T>`: `m_first` is the address of the first element. -/
structure span where
  m_first : Nat
  m_size : Nat
deriving DecidableEq, Repr

namespace span

/-- `size( )`. -/
def size (s : span) : Nat := s.m_size

/-- `operator[]( pos )` read in the memory `mem`: `m_first[pos]`. -/
def index {T : Type} (mem : Nat → T) (s : span) (pos : Nat) : T := mem (s.m_first + pos)

/-- The elements `begin( )` to `end( )` range over, in order. -/
def elements {T : Type} (mem : Nat → T) (s : span) : List T :=
  (List.range s.m_size).map (fun i => s.index mem i)

/-- `subset( pos, count )`. -/
def subset (s : span) (pos count : Nat) : Except exception span :=
  if pos > s.size then
    Except.error (exception.out_of_range "Attempt to access span past end")
  else
    let rcount := min count (s.m_size - pos)
    Except.ok { m_first := s.m_first + pos, m_size := rcount }

end span

/-- Modelled from the spec: `daw::fixed_stack_t<CharT, N>` of
`daw_fixed_stack.h`, which is not among the sources. It is taken as an array of
`N` characters (`m_stack`) of which the first `m_index` are in use; `size( )`
is `m_index` and `end( )` points at slot `m_index`. -/
structure fixed_stack_t where
  m_stack : List Nat
  m_index : Nat
deriving DecidableEq, Repr

namespace fixed_stack_t

/-- Modelled from the spec: `fixed_stack_t::size( )`, which is missing. -/
def size (d : fixed_stack_t) : Nat := d.m_index

/-- Modelled from the spec: `fixed_stack_t::push_back( c )`, which is missing:
the character is written to slot `m_index`, which then advances; a write
outside the array does not return. -/
def push_back (d : fixed_stack_t) (c : Nat) : Except Stuck fixed_stack_t :=
  if d.m_index < d.m_stack.length then
    Except.ok { m_stack := d.m_stack.set d.m_index c, m_index := d.m_index + 1 }
  else Except.error Stuck.undefined_behaviour

/-- The statement `*m_data.end( ) = 0`. -/
def set_end (d : fixed_stack_t) (c : Nat) : Except Stuck fixed_stack_t :=
  if d.m_index < d.m_stack.length then
    Except.ok { d with m_stack := d.m_stack.set d.m_index c }
  else Except.error Stuck.undefined_behaviour

/-- Modelled from the spec: `daw::container::copy( sv, daw::back_inserter( d ) )`,
which is missing: every character of `sv` is pushed back, in order. -/
def copy_back (d : fixed_stack_t) : List Nat → Except Stuck fixed_stack_t
  | [] => Except.ok d
  | c :: rest =>
    match d.push_back c with
    | Except.error e => Except.error e
    | Except.ok d1 => copy_back d1 rest

end fixed_stack_t

/-- `daw::basic_static_string<CharT, Capacity>`: `m_data` is a
`fixed_stack_t<CharT, Capacity + 1>`. -/
structure basic_static_string (Capacity : Nat) where
  m_data : fixed_stack_t
deriving DecidableEq, Repr

/-- How a call of a member of `basic_static_string` ends when it does not
return: it throws, or it runs into undefined behaviour. -/
inductive failure where
  | throws (e : exception)
  | stuck (s : Stuck)
  /-- an exception leaves a `noexcept` function: `std::terminate` -/
  | terminates
deriving DecidableEq, Repr

namespace basic_static_string

variable {Capacity : Nat}

/-- `capacity( )`. -/
def capacity (_str : basic_static_string Capacity) : Nat := Capacity

/-- `size( )`. -/
def size (str : basic_static_string Capacity) : Nat := str.m_data.size

/-- The characters of the string: the first `size( )` characters of the
array. -/
def contents (str : basic_static_string Capacity) : List Nat :=
  str.m_data.m_stack.take str.m_data.m_index

/-- The array has `Capacity + 1` slots and at most `Capacity` are in use. -/
def well_formed (str : basic_static_string Capacity) : Prop :=
  str.m_data.m_stack.length = Capacity + 1 ∧ str.m_data.m_index ≤ Capacity

/-- `append( basic_string_view sv )`, the view given by its characters.
Modelled from the spec: `daw::exception::precondition_check<E>( cond, msg )`,
which is missing, throws `E( msg )` when `cond` is false. The sum of the sizes
is computed in `size_t`. -/
def append (str : basic_static_string Capacity) (sv : List Nat) :
    Except failure (basic_static_string Capacity) :=
  if (str.m_data.size + sv.length) % 2 ^ 64 ≤ str.capacity then
    match str.m_data.copy_back sv with
    | Except.error e => Except.error (failure.stuck e)
    | Except.ok d1 =>
      match d1.set_end 0 with
      | Except.error e => Except.error (failure.stuck e)
      | Except.ok d2 => Except.ok { m_data := d2 }
  else
    Except.error (failure.throws
      (exception.out_of_range "Attempt to append basic_static_string past end"))

end basic_static_string

/-! ## `daw::fixed_lookup` -/

namespace impl.sentinals

/-- `impl::sentinals::empty`. -/
def empty : Nat := 0

/-- `impl::sentinals::removed`. -/
def removed : Nat := 1

/-- `impl::sentinals::sentinals_size`. -/
def sentinals_size : Nat := 2

end impl.sentinals

/-- `daw::fixed_lookup<Value, N>`: the arrays `m_hashes` and `m_values`. -/
structure fixed_lookup (Value : Type) (N : Nat) where
  m_hashes : List Nat
  m_values : List Value

/-- The local `lookup_result_t` of `fixed_lookup::lookup`. -/
structure lookup_result_t where
  position : Nat
  found : Bool
deriving DecidableEq, Repr

namespace fixed_lookup

variable {Value Key : Type} {N : Nat}

/-- `capacity( )`. -/
def capacity (_t : fixed_lookup Value N) : Nat := N

/-- `hash_fn( key )`; `fnv1a_hash` (of `daw_fnv1a_hash.h`, not among the
sources) is a parameter, its result a `size_t`. -/
def hash_fn (fnv1a_hash : Key → Nat) (key : Key) : Nat :=
  (fnv1a_hash key % 2 ^ 64) % (2 ^ 64 - 1 - impl.sentinals.sentinals_size)
    + impl.sentinals.sentinals_size

/-- `scale_hash( hash )`; `daw_throw_on_false` throws when its argument is
false, and the arithmetic is in `size_t`. -/
def scale_hash (t : fixed_lookup Value N) (hash : Nat) : Except exception Nat :=
  if ¬ (t.capacity > 0) then Except.error (exception.other "")
  else if ¬ (hash ≥ impl.sentinals.sentinals_size) then Except.error (exception.other "")
  else
    let prime_a := 18446744073709551557
    let prime_b := 18446744073709551533
    Except.ok (((hash * prime_a + prime_b) % 2 ^ 64) % t.capacity)

/-- The read `m_hashes[n]`. -/
def slot (m_hashes : List Nat) (n : Nat) : Nat := (m_hashes[n]?).getD 0

/-- The body shared by the two loops of `lookup`, run over the positions `n`
the loop visits: the first position whose slot holds `hash` or is empty. -/
def probe (m_hashes : List Nat) (hash : Nat) : List Nat → Option lookup_result_t
  | [] => none
  | n :: rest =>
    if hash = slot m_hashes n then some { position := n, found := true }
    else if impl.sentinals.empty = slot m_hashes n then
      some { position := n, found := false }
    else probe m_hashes hash rest

/-- `lookup( hash )`: the loop from `hash_pos` to `m_hashes.size( )`, then the
loop from 0 to `hash_pos`. The function is `noexcept`. -/
def lookup (t : fixed_lookup Value N) (hash : Nat) : Except failure lookup_result_t :=
  match t.scale_hash hash with
  | Except.error _ => Except.error failure.terminates
  | Except.ok hash_pos =>
    match probe t.m_hashes hash (List.range' hash_pos (t.m_hashes.length - hash_pos)) with
    | some r => Except.ok r
    | none =>
      match probe t.m_hashes hash (List.range hash_pos) with
      | some r => Except.ok r
      | none => Except.ok { position := t.m_hashes.length, found := false }

/-- The const `operator[]( key )`. -/
def index_const (t : fixed_lookup Value N) (fnv1a_hash : Key → Nat) (key : Key) :
    Except failure Value :=
  let hash := hash_fn fnv1a_hash key
  match t.lookup hash with
  | Except.error e => Except.error e
  | Except.ok is_found =>
    if is_found.found then
      match t.m_values[is_found.position]? with
      | some v => Except.ok v
      | none => Except.error (failure.stuck Stuck.undefined_behaviour)
    else
      Except.error (failure.throws (exception.other "Attempt to access an undefined key"))

/-- The non-const `operator[]( key )`: the position of the value slot it
returns a reference to, and the table afterwards. -/
def index (t : fixed_lookup Value N) (fnv1a_hash : Key → Nat) (key : Key) :
    Except failure (Nat × fixed_lookup Value N) :=
  let hash := hash_fn fnv1a_hash key
  match t.lookup hash with
  | Except.error e => Except.error e
  | Except.ok is_found =>
    if !is_found.found && is_found.position == t.m_hashes.length then
      Except.error (failure.throws (exception.other
        "Fixed hash table does not have enough space to allocate all entries"))
    else
      Except.ok (is_found.position,
        { t with m_hashes := t.m_hashes.set is_found.position hash })

/-- `exists( key )`. -/
def «exists» (t : fixed_lookup Value N) (fnv1a_hash : Key → Nat) (key : Key) :
    Except failure Bool :=
  let hash := hash_fn fnv1a_hash key
  match t.lookup hash with
  | Except.error e => Except.error e
  | Except.ok r => Except.ok r.found

/-- A table all of whose hash slots are empty. -/
def all_empty (values : List Value) : fixed_lookup Value N :=
  { m_hashes := List.replicate N impl.sentinals.empty, m_values := values }

/-- A sequence of calls of the non-const `operator[]`, one per key: the
positions they return and the table afterwards; it ends at the first call that
throws. -/
def index_all (fnv1a_hash : Key → Nat) :
    List Key → fixed_lookup Value N → Except failure (List Nat × fixed_lookup Value N)
  | [], t => Except.ok ([], t)
  | key :: rest, t =>
    match t.index fnv1a_hash key with
    | Except.error e => Except.error e
    | Except.ok (p, t1) =>
      match index_all fnv1a_hash rest t1 with
      | Except.error e => Except.error e
      | Except.ok (ps, t2) => Except.ok (p :: ps, t2)

/-- The position `scale_hash` computes for a table of `N` slots. -/
def hash_pos (N hash : Nat) : Nat :=
  ((hash * 18446744073709551557 + 18446744073709551533) % 2 ^ 64) % N

/-- The positions the two loops of `lookup` visit, in order, for a table of `N`
slots probed from `start`. -/
def probe_order (N start : Nat) : List Nat :=
  List.range' start (N - start) ++ List.range start

/-- The arrays have `N` slots, `N > 0`, and a stored hash is a result of
`hash_fn`, which is never a sentinel. -/
def well_formed (t : fixed_lookup Value N) : Prop :=
  0 < N ∧ t.m_hashes.length = N ∧ t.m_values.length = N ∧
  ∀ x ∈ t.m_hashes, x = impl.sentinals.empty ∨ impl.sentinals.sentinals_size ≤ x

/-- Every stored hash is found by `lookup` at the slot that holds it. -/
def probe_inv (t : fixed_lookup Value N) : Prop :=
  ∀ p, p < N → slot t.m_hashes p ≠ 0 →
    t.lookup (slot t.m_hashes p) = Except.ok { position := p, found := true }

end fixed_lookup

/-! ## `daw::cxmath` -/

/-- A `float`: an IEEE-754 binary32 datum by its three fields, the sign bit,
the biased exponent (below 256) and the fraction (below `2 ^ 23`). -/
structure float where
  sign : Bool
  exponent : Nat
  fraction : Nat
deriving DecidableEq, Repr

namespace float

/-- A NaN: exponent field all ones, fraction not zero. -/
def is_nan (x : float) : Bool := x.exponent == 255 && x.fraction != 0

/-- An infinity: exponent field all ones, fraction zero. -/
def is_inf (x : float) : Bool := x.exponent == 255 && x.fraction == 0

/-- The absolute value a datum denotes: `fraction * 2 ^ -149` for a zero or a
subnormal, `(2 ^ 23 + fraction) * 2 ^ (exponent - 150)` for a normal; an
infinity takes the value `2 ^ 128` of its fields, above every finite value. -/
def magnitude (x : float) : ℚ :=
  if x.exponent = 0 then (x.fraction : ℚ) * (2 : ℚ) ^ (-149 : ℤ)
  else ((2 ^ 23 + x.fraction : Nat) : ℚ) * (2 : ℚ) ^ ((x.exponent : ℤ) - 150)

/-- The value a datum denotes. -/
def to_rat (x : float) : ℚ := if x.sign then - x.magnitude else x.magnitude

/-- The comparison `x < y`; false when an operand is a NaN. -/
def lt (x y : float) : Bool := !x.is_nan && !y.is_nan && decide (x.to_rat < y.to_rat)

/-- The comparison `x > y`. -/
def gt (x y : float) : Bool := lt y x

/-- The comparison `x == y`; false when an operand is a NaN. -/
def eq (x y : float) : Bool := !x.is_nan && !y.is_nan && decide (x.to_rat = y.to_rat)

/-- The comparison `x != y`. -/
def ne (x y : float) : Bool := !(eq x y)

/-- Unary minus. -/
def neg (x : float) : float := { x with sign := !x.sign }

/-- The quiet NaN. -/
def nan : float := { sign := false, exponent := 255, fraction := 2 ^ 22 }

/-- The literal `0.0f`. -/
def zero : float := { sign := false, exponent := 0, fraction := 0 }

/-- The hexadecimal literal `0x1p<k>f`, for `-126 ≤ k ≤ 127`. -/
def two_pow (k : Int) : float := { sign := false, exponent := (k + 127).toNat, fraction := 0 }

/-- The value of `std::numeric_limits<float>::max( )`. -/
def numeric_limits_max : float := { sign := false, exponent := 254, fraction := 2 ^ 23 - 1 }

/-- Rounding of a non-negative rational to the nearest natural number, a tie
going to the even one. -/
def round_half_even (n : ℚ) : Nat :=
  let f := ⌊n⌋₊
  let d := n - (f : ℚ)
  if d < 1 / 2 then f
  else if 1 / 2 < d then f + 1
  else if f % 2 = 0 then f else f + 1

/-- Rounding of the non-negative rational `q` to binary32 in the default mode
(to nearest, ties to even), with the given sign: the significand is rounded at
the precision of the binade of `q` (of the subnormals below `2 ^ -126`), a
significand rounded up to `2 ^ 24` moves to the next binade, and a result
beyond the largest exponent is an infinity. -/
def round (sign : Bool) (q : ℚ) : float :=
  if q ≤ 0 then { sign := sign, exponent := 0, fraction := 0 }
  else
    let e : ℤ := max (Int.log 2 q) (-126)
    let r : Nat := round_half_even (q / (2 : ℚ) ^ (e - 23))
    if r < 2 ^ 23 then { sign := sign, exponent := 0, fraction := r }
    else
      let e1 : ℤ := if r = 2 ^ 24 then e + 1 else e
      let fr : Nat := if r = 2 ^ 24 then 0 else r - 2 ^ 23
      if 127 < e1 then { sign := sign, exponent := 255, fraction := 0 }
      else { sign := sign, exponent := (e1 + 127).toNat, fraction := fr }

/-- The product `x * y`. -/
def mul (x y : float) : float :=
  if x.is_nan || y.is_nan then nan
  else if x.is_inf || y.is_inf then
    if x.magnitude = 0 ∨ y.magnitude = 0 then nan
    else { sign := xor x.sign y.sign, exponent := 255, fraction := 0 }
  else round (xor x.sign y.sign) (x.magnitude * y.magnitude)

/-- The conversion `static_cast<uint64_t>( x )`: truncation toward zero,
undefined when the truncated value is not a `uint64_t`. -/
def to_uint64 (x : float) : Except Stuck Nat :=
  if x.is_nan || x.is_inf then Except.error Stuck.undefined_behaviour
  else if x.to_rat ≤ -1 ∨ (2 : ℚ) ^ 64 ≤ x.to_rat then
    Except.error Stuck.undefined_behaviour
  else Except.ok ⌊x.magnitude⌋₊

/-- A normal datum: exponent field neither all zeros nor all ones. -/
def is_normal (x : float) : Prop :=
  1 ≤ x.exponent ∧ x.exponent ≤ 254 ∧ x.fraction < 2 ^ 23

end float

namespace cxmath.cxmath_impl

/-- `count_leading_zeroes( v )`, on a `uint64_t`. -/
def count_leading_zeroes (v : Nat) : Nat :=
  let bit_position : List Nat := [
    0,  1,  2,  7,  3,  13, 8,  19, 4,  25, 14, 28, 9,  34, 20, 40,
    5,  17, 26, 38, 15, 46, 29, 48, 10, 31, 35, 54, 21, 50, 41, 57,
    63, 6,  12, 18, 24, 27, 33, 39, 16, 37, 45, 47, 30, 53, 49, 56,
    62, 11, 23, 32, 36, 44, 52, 55, 61, 22, 43, 51, 60, 42, 59, 58]
  let v := v ||| (v >>> 1)
  let v := v ||| (v >>> 2)
  let v := v ||| (v >>> 4)
  let v := v ||| (v >>> 8)
  let v := v ||| (v >>> 16)
  let v := v ||| (v >>> 32)
  let v := ((v >>> 1) + 1) % 2 ^ 64
  (63 + 2 ^ 32 - bit_position.getD (((v * 0x0218a392cd3d5dbf) % 2 ^ 64) >>> 58) 0) % 2 ^ 32

/-- The class `float_parts_t`. -/
structure float_parts_t where
  m_raw_value : Nat
  m_float_value : float
deriving DecidableEq, Repr

/-- `float_parts_t::raw_value( )`. -/
def float_parts_t.raw_value (self : float_parts_t) : Nat := self.m_raw_value

/-- The loop `while( abs_f < 0x1p87f )` of `bits`, with a bound on the number
of iterations; `none` when the bound is reached. -/
def bits_loop : Nat → float → Int → Option (float × Int)
  | 0, _, _ => none
  | fuel + 1, abs_f, exponent =>
    if abs_f.lt (float.two_pow 87) then
      bits_loop fuel (abs_f.mul (float.two_pow 41)) (exponent - 41)
    else some (abs_f, exponent)

/-- `bits( f )`; `fuel` bounds the iterations of the loop, and the result is
`none` when the bound is reached. A shift of a `uint64_t` by 64 or more is
undefined. -/
def bits (fuel : Nat) (f : float) : Option (Except Stuck float_parts_t) :=
  if f.eq float.zero then
    some (Except.ok { m_raw_value := 0, m_float_value := f })
  else if f.gt float.numeric_limits_max then
    some (Except.ok { m_raw_value := 0x7f800000, m_float_value := f })
  else if f.lt float.numeric_limits_max.neg then
    some (Except.ok { m_raw_value := 0xff800000, m_float_value := f })
  else if f.ne f then
    some (Except.ok { m_raw_value := 0x7fc00000, m_float_value := f })
  else
    let sign := f.lt float.zero
    let abs_f := if sign then f.neg else f
    match bits_loop fuel abs_f 254 with
    | none => none
    | some (abs_f, exponent) =>
      match (abs_f.mul (float.two_pow (-64))).to_uint64 with
      | Except.error e => some (Except.error e)
      | Except.ok a =>
        let lz : Int := (count_leading_zeroes a : Int)
        let exponent := exponent - lz
        let lz := if exponent ≤ 0 then 8 - 1 else lz
        let exponent := if exponent ≤ 0 then 0 else exponent
        if 64 ≤ lz + 1 then some (Except.error Stuck.undefined_behaviour)
        else
          let significand := (((a <<< (lz + 1).toNat) % 2 ^ 64) >>> (64 - 23)) % 2 ^ 32
          some (Except.ok
            { m_raw_value :=
                ((((if sign then 1 else 0) <<< 31) % 2 ^ 32) |||
                  (((exponent % 2 ^ 32).toNat <<< 23) % 2 ^ 32)) ||| significand,
              m_float_value := f })

/-- The IEEE-754 binary32 bit pattern of a non-zero value `q`: bit 31 the sign,
bits 30..23 the biased exponent `floor( log2 |q| ) + 127`, bits 22..0 the
fraction. -/
def binary32_pattern (q : ℚ) : Nat :=
  (if q < 0 then 1 else 0) * 2 ^ 31
    + (Int.log 2 |q| + 127).toNat * 2 ^ 23
    + ⌊(|q| / (2 : ℚ) ^ (Int.log 2 |q|) - 1) * 2 ^ 23⌋₊

end cxmath.cxmath_impl

/-! ## `daw::math::pow` -/

namespace math

namespace impl

/-- `math::impl::pow_impl( base, exponent )` for an unsigned `T` of `w` bits;
the recursion is on the iterations of the loop that remain. -/
def pow_impl (w : Nat) (base : Nat) : Nat → Nat
  | 0 => base
  | exponent + 1 => pow_impl w ((base * base) % 2 ^ w) exponent

end impl

/-- `math::pow( base, exponent )` for an unsigned `T` of `w` bits. -/
def pow (w : Nat) (base exponent : Nat) : Nat :=
  if base = 0 then 0 else if exponent > 0 then impl.pow_impl w base exponent else 1

end math

/-! ## `daw::details::search` -/

namespace details

/-- How the inner loop of `search` ends. -/
inductive inner_result where
  /-- `s_it == s_last`: `return first` -/
  | returns_first
  /-- `it == last`: `return last` -/
  | returns_last
  /-- `!( *it == *s_it )`: `break` -/
  | breaks
deriving DecidableEq, Repr

/-- The inner loop of `search`. A forward iterator is given by the elements
from it up to the end of its range: `it` by those up to `last`, `s_it` by those
up to `s_last`. -/
def search_inner {α : Type} [DecidableEq α] : List α → List α → inner_result
  | _, [] => inner_result.returns_first
  | [], _ :: _ => inner_result.returns_last
  | x :: it, y :: s_it =>
    if ¬ (x = y) then inner_result.breaks else search_inner it s_it

/-- The outer loop of `search`: `first` is the position of the iterator
`first`, the list holds the elements from `first` up to `last`, and `last` is
the position of the iterator `last`. The result is the position of the
iterator returned. -/
def search_outer {α : Type} [DecidableEq α] (s : List α) (last : Nat) :
    Nat → List α → Nat
  | first, [] =>
    match search_inner [] s with
    | inner_result.returns_first => first
    | _ => last
  | first, x :: rest =>
    match search_inner (x :: rest) s with
    | inner_result.returns_first => first
    | inner_result.returns_last => last
    | inner_result.breaks => search_outer s last (first + 1) rest

/-- `details::search( first, last, s_first, s_last )` on the haystack `h`, whose
elements are at the positions 0 to `h.length`, and the needle `s`. -/
def search {α : Type} [DecidableEq α] (h s : List α) : Nat :=
  search_outer s h.length 0 h

/-- The reference definition: the needle `s` occurs in `h` at position `i`. -/
def occurs_at {α : Type} (h s : List α) (i : Nat) : Prop :=
  i + s.length ≤ h.length ∧ ∀ j, j < s.length → h[i + j]? = s[j]?

end details

/-! ## `daw::view` -/

/-- `daw::view<BidirectionalIterator>`; an iterator is the position it points
at, and `m_size` is a `difference_type`. -/
structure view where
  m_first : Int
  m_last : Int
  m_size : Int
deriving DecidableEq, Repr

namespace view

/-- The conversion `static_cast<difference_type>( n )` of a `size_t`. -/
def to_difference_type (n : Nat) : Int :=
  if n % 2 ^ 64 < 2 ^ 63 then ((n % 2 ^ 64 : Nat) : Int) else ((n % 2 ^ 64 : Nat) : Int) - 2 ^ 64

/-- The constructor `view( first, last )`; `m_size` is
`std::distance( m_first, m_last )`. -/
def construct (first last : Int) : view :=
  { m_first := first, m_last := last, m_size := last - first }

/-- `empty( )`. -/
def empty (v : view) : Bool := decide (v.m_size ≤ 0)

/-- `size( )`. -/
def size (v : view) : Nat := if v.empty then 0 else v.m_size.toNat % 2 ^ 64

/-- `remove_prefix( n )`. -/
def remove_prefix (v : view) (n : Nat) : view :=
  { v with
    m_size := v.m_size - to_difference_type n,
    m_first := v.m_first + to_difference_type n }

/-- `remove_suffix( n )`. -/
def remove_suffix (v : view) (n : Nat) : view :=
  { v with
    m_size := v.m_size - to_difference_type n,
    m_last := v.m_last + - to_difference_type n }

/-- `pop_front( n )`: the view returned and the view afterwards. -/
def pop_front (v : view) (n : Nat) : view × view :=
  let n := if n > v.size then v.size else n
  let result := construct v.m_first (v.m_first + to_difference_type n)
  (result, v.remove_prefix n)

/-- `pop_back( n )`: the view returned and the view afterwards. -/
def pop_back (v : view) (n : Nat) : view × view :=
  let n := if n > v.size then v.size else n
  let result := construct (v.m_last - to_difference_type n) v.m_last
  (result, v.remove_suffix n)

/-- The elements from `begin( )` up to `end( )`, read in the sequence `mem`
the iterators point into. -/
def elements {T : Type} (mem : Int → T) (v : view) : List T :=
  (List.range (v.m_last - v.m_first).toNat).map (fun (i : Nat) => mem (v.m_first + (i : Int)))

/-- A view made by the constructor from a range `first ≤ last` whose length is
a `difference_type`. -/
def well_formed (v : view) : Prop :=
  v.m_first ≤ v.m_last ∧ v.m_size = v.m_last - v.m_first ∧ v.m_size < 2 ^ 63

end view

/-! ## `daw::traits::pack_index_of` -/

namespace traits

/-- A template type argument: a type that is no `pack_list`, or
`pack_list<Pack...>`. -/
inductive type_arg where
  | plain (t : cpp_type)
  | pack_list (Pack : List type_arg)

mutual
/-- `std::is_same<A, B>{}`. -/
def type_arg.is_same : type_arg → type_arg → Bool
  | type_arg.plain a, type_arg.plain b => decide (a = b)
  | type_arg.pack_list as, type_arg.pack_list bs => type_arg.is_same_pack as bs
  | _, _ => false
/-- Two packs are the same: the same types in the same order. -/
def type_arg.is_same_pack : List type_arg → List type_arg → Bool
  | [], [] => true
  | a :: as, b :: bs => type_arg.is_same a b && type_arg.is_same_pack as bs
  | _, _ => false
end

/-- `pack_index_of<A, Args...>::value`, `none` when the instantiation is
ill-formed: no template takes `A` alone; the specialisation
`<T, pack_list<Pack...>>`, the most specialised for these arguments, inherits
from `pack_index_of<T, Pack...>`; the specialisation `<A, B>` is
`std::is_same<A, B>{} - 1`; the primary template `<A, B, C...>` names
`pack_index_of<A, C...>{}` in both branches of its value. -/
def pack_index_of (A : type_arg) : List type_arg → Option Int
  | [] => none
  | [type_arg.pack_list Pack] => pack_index_of A Pack
  | [B] => some ((if A.is_same B then 1 else 0) - 1)
  | B :: C =>
    match pack_index_of A C with
    | none => none
    | some r => some (if A.is_same B then 0 else if r = -1 then -1 else 1 + r)

/-- `pack_index_of_v<T, Pack...>`. -/
def pack_index_of_v (T : type_arg) (Pack : List type_arg) : Option Int :=
  pack_index_of T Pack

/-- `pack_exits_v<T, Pack...>`. -/
def pack_exits_v (T : type_arg) (Pack : List type_arg) : Option Bool :=
  (pack_index_of_v T Pack).map (fun v => decide (v ≥ 0))

end traits

/-! ## Theorems -/

section helpers

variable {T : Type}

theorem countP_eraseIdx_get {α : Type} (q : α → Bool) :
    ∀ (l : List α) (i : Nat) (p : α), l[i]? = some p →
      (l.eraseIdx i).countP q + (if q p = true then 1 else 0) = l.countP q := by
  intro l
  induction l with
  | nil => intro i p hp; simp at hp
  | cons x xs ih =>
    intro i p hp
    cases i with
    | zero =>
      simp at hp
      subst hp
      simp [List.countP_cons]
    | succ j =>
      simp at hp
      have := ih j p (by simpa using hp)
      simp only [List.eraseIdx_cons_succ, List.countP_cons]
      omega

theorem holders_length (cb : Nat) (s : System T) :
    (s.holders cb).length = s.handles.countP (System.holds cb) := by
  simp [System.holders, List.countP_eq_length_filter]

theorem observable_try_borrow_eq (p : Option Nat) (h : Heap T) :
    observable_ptr.try_borrow { m_control_block := p } h
      = observer_ptr.try_borrow { m_control_block := p } h := rfl

theorem observable_borrow_eq (p : Option Nat) (h : Heap T) :
    observable_ptr.borrow { m_control_block := p } h
      = observer_ptr.borrow { m_control_block := p } h := rfl

/-- What a returning `try_borrow` through a handle did. -/
theorem try_borrow_ok (a : Nat) (h : Heap T) (r : impl.locked_ptr × Heap T)
    (hr : observer_ptr.try_borrow { m_control_block := some a } h = Except.ok r) :
    ∃ c, h.cbs a = some c ∧
      ((c.m_is_borrowed = true ∧ r.1 = { m_ptr := none, m_on_exit := impl.on_exit_t.nothing }
          ∧ r.2 = h.store a c) ∨
       (c.m_is_borrowed = false ∧
          r.1 = { m_ptr := c.m_ptr, m_on_exit := impl.on_exit_t.unlock a } ∧
          r.2 = h.store a { c with m_is_borrowed := true })) := by
  unfold observer_ptr.try_borrow at hr
  simp only at hr
  cases hc : h.cbs a with
  | none => simp [hc] at hr
  | some c =>
    simp only [hc, Except.ok.injEq] at hr
    refine ⟨c, rfl, ?_⟩
    subst hr
    cases hb : c.m_is_borrowed <;> simp [impl.control_block_t.try_borrow, hb]

/-- What a returning `borrow` through a handle did. -/
theorem borrow_ok (a : Nat) (h : Heap T) (r : impl.locked_ptr × Heap T)
    (hr : observer_ptr.borrow { m_control_block := some a } h = Except.ok r) :
    ∃ c, h.cbs a = some c ∧ c.m_is_borrowed = false ∧
      r.1 = { m_ptr := c.m_ptr, m_on_exit := impl.on_exit_t.unlock a } ∧
      r.2 = h.store a { c with m_is_borrowed := true } := by
  unfold observer_ptr.borrow at hr
  simp only at hr
  cases hc : h.cbs a with
  | none => simp [hc] at hr
  | some c =>
    simp only [hc] at hr
    cases hb : c.m_is_borrowed with
    | true => simp [impl.control_block_t.borrow, hb] at hr
    | false =>
      simp [impl.control_block_t.borrow, hb] at hr
      refine ⟨c, rfl, hb, ?_⟩
      subst hr
      simp

/-- What a returning static `remove_observer` or `remove_owner` did, as far as
the lock and the resource are concerned. -/
theorem remove_ok_spec (a : Nat) (h h1 : Heap T)
    (hr : impl.control_block_t.remove_observer (some a) h = Except.ok h1 ∨
          impl.control_block_t.remove_owner (some a) h = Except.ok h1) :
    ∃ c, h.cbs a = some c ∧ c.m_is_borrowed = false ∧
      ∀ c1, h1.cbs a = some c1 → c1.m_is_borrowed = false ∧
        ∀ q, c1.m_ptr = some q → c.m_ptr = some q ∧ h1.objs q = h.objs q := by
  rcases hr with hr | hr
  · unfold impl.control_block_t.remove_observer at hr
    simp only at hr
    cases hc : h.cbs a with
    | none => simp [hc] at hr
    | some c =>
      simp only [hc] at hr
      obtain ⟨p, d, o, b, n⟩ := c
      cases b with
      | true => simp at hr
      | false =>
        refine ⟨_, rfl, rfl, ?_⟩
        intro c1 hc1
        by_cases hn : wrap16 (n - 1) ≤ 0 <;> cases d <;> cases o <;> cases p <;>
          simp [hn, impl.control_block_t.remove_observer_lck,
            impl.control_block_t.destruct_if_should, impl.control_block_t.destruct_cb,
            Heap.store, Heap.delete_obj, Heap.delete_cb] at hr <;>
          subst hr <;> simp at hc1 <;> (try subst hc1) <;> simp
  · unfold impl.control_block_t.remove_owner at hr
    simp only at hr
    cases hc : h.cbs a with
    | none => simp [hc] at hr
    | some c =>
      simp only [hc] at hr
      obtain ⟨p, d, o, b, n⟩ := c
      cases b with
      | true => simp at hr
      | false =>
        refine ⟨_, rfl, rfl, ?_⟩
        intro c1 hc1
        by_cases hn : n ≤ 0 <;> cases d <;> cases o <;> cases p <;>
          simp [hn, impl.control_block_t.remove_owner_lck,
            impl.control_block_t.destruct_if_should, impl.control_block_t.destruct_cb,
            Heap.store, Heap.delete_obj, Heap.delete_cb] at hr <;>
          subst hr <;> simp at hc1 <;> (try subst hc1) <;> simp

theorem step_try_borrow_ok (cb : Nat) (s s1 : System T) (owner : Bool)
    (hs : s.step cb (Action.try_borrow owner) = Except.ok s1) :
    ∃ c, s.heap.cbs cb = some c ∧
      ((c.m_is_borrowed = true ∧ s1.heap = s.heap.store cb c ∧
          s1.handles = s.handles ++ [{ m_ptr := none, m_on_exit := impl.on_exit_t.nothing }]) ∨
       (c.m_is_borrowed = false ∧ s1.heap = s.heap.store cb { c with m_is_borrowed := true } ∧
          s1.handles = s.handles ++
            [{ m_ptr := c.m_ptr, m_on_exit := impl.on_exit_t.unlock cb }])) := by
  simp only [System.step, observable_try_borrow_eq, ite_self] at hs
  cases hr : observer_ptr.try_borrow { m_control_block := some cb } s.heap with
  | error e => simp [hr] at hs
  | ok r =>
    simp only [hr, Except.ok.injEq] at hs
    obtain ⟨c, hc, hcase⟩ := try_borrow_ok cb s.heap r hr
    refine ⟨c, hc, ?_⟩
    subst hs
    rcases hcase with ⟨hb, h1, h2⟩ | ⟨hb, h1, h2⟩
    · exact Or.inl ⟨hb, h2, by simp [h1]⟩
    · exact Or.inr ⟨hb, h2, by simp [h1]⟩

theorem step_borrow_ok (cb : Nat) (s s1 : System T) (owner : Bool)
    (hs : s.step cb (Action.borrow owner) = Except.ok s1) :
    ∃ c, s.heap.cbs cb = some c ∧ c.m_is_borrowed = false ∧
      s1.heap = s.heap.store cb { c with m_is_borrowed := true } ∧
      s1.handles = s.handles ++ [{ m_ptr := c.m_ptr, m_on_exit := impl.on_exit_t.unlock cb }] := by
  simp only [System.step, observable_borrow_eq, ite_self] at hs
  cases hr : observer_ptr.borrow { m_control_block := some cb } s.heap with
  | error e => simp [hr] at hs
  | ok r =>
    simp only [hr, Except.ok.injEq] at hs
    obtain ⟨c, hc, hb, h1, h2⟩ := borrow_ok cb s.heap r hr
    refine ⟨c, hc, hb, ?_⟩
    subst hs
    exact ⟨h2, by simp [h1]⟩

theorem step_release_ok (cb : Nat) (s s1 : System T) (i : Nat)
    (hs : s.step cb (Action.release i) = Except.ok s1) :
    ∃ p, s.handles[i]? = some p ∧ s1.handles = s.handles.eraseIdx i ∧
      ((p.m_on_exit = impl.on_exit_t.nothing ∧ s1.heap = s.heap) ∨
       (∃ a c, p.m_on_exit = impl.on_exit_t.unlock a ∧ s.heap.cbs a = some c ∧
          s1.heap = s.heap.store a { c with m_is_borrowed := false })) := by
  simp only [System.step] at hs
  cases hp : s.handles[i]? with
  | none => simp [hp] at hs
  | some p =>
    simp only [hp] at hs
    refine ⟨p, rfl, ?_⟩
    obtain ⟨ptr, ex⟩ := p
    cases ex with
    | nothing =>
      simp [impl.locked_ptr.destroy] at hs
      subst hs
      simp
    | unlock a =>
      simp only [impl.locked_ptr.destroy] at hs
      cases hc : s.heap.cbs a with
      | none => simp [hc] at hs
      | some c =>
        simp [hc] at hs
        subst hs
        exact ⟨rfl, Or.inr ⟨a, c, rfl, hc, rfl⟩⟩

theorem step_remove_ok (cb : Nat) (s s1 : System T)
    (hs : s.step cb Action.remove_observer = Except.ok s1 ∨
          s.step cb Action.remove_owner = Except.ok s1) :
    s1.handles = s.handles ∧
    (impl.control_block_t.remove_observer (some cb) s.heap = Except.ok s1.heap ∨
     impl.control_block_t.remove_owner (some cb) s.heap = Except.ok s1.heap) := by
  rcases hs with hs | hs
  · simp only [System.step] at hs
    cases hr : impl.control_block_t.remove_observer (some cb) s.heap with
    | error e => simp [hr] at hs
    | ok h1 =>
      simp [hr] at hs
      subst hs
      simp
  · simp only [System.step] at hs
    cases hr : impl.control_block_t.remove_owner (some cb) s.heap with
    | error e => simp [hr] at hs
    | ok h1 =>
      simp [hr] at hs
      subst hs
      simp

theorem lock_inv_step (cb : Nat) (s s1 : System T) (act : Action)
    (hinv : s.lock_inv cb) (hs : s.step cb act = Except.ok s1) : s1.lock_inv cb := by
  obtain ⟨h1, h2, h3⟩ := hinv
  rw [holders_length] at h3
  unfold System.lock_inv
  rw [holders_length]
  cases act with
  | try_borrow owner =>
    obtain ⟨c, hc, hcase⟩ := step_try_borrow_ok cb s s1 owner hs
    rcases hcase with ⟨hb, hh, hl⟩ | ⟨hb, hh, hl⟩
    · refine ⟨?_, ?_, ?_⟩
      · intro p hp
        rw [hl] at hp
        simp only [List.mem_append, List.mem_singleton] at hp
        rcases hp with hp | hp
        · exact h1 p hp
        · subst hp; simp
      · intro p hp
        rw [hl] at hp
        simp only [List.mem_append, List.mem_singleton] at hp
        rcases hp with hp | hp
        · exact h2 p hp
        · subst hp; simp
      · simp only [System.lock_count, hc, hb, if_true] at h3
        simp [hl, hh, System.lock_count, Heap.store, System.holds, hb, h3]
    · refine ⟨?_, ?_, ?_⟩
      · intro p hp
        rw [hl] at hp
        simp only [List.mem_append, List.mem_singleton] at hp
        rcases hp with hp | hp
        · exact h1 p hp
        · subst hp; simp
      · intro p hp
        rw [hl] at hp
        simp only [List.mem_append, List.mem_singleton] at hp
        rcases hp with hp | hp
        · exact h2 p hp
        · subst hp; simp
      · simp only [System.lock_count, hc, hb] at h3
        simp [hl, hh, System.lock_count, Heap.store, System.holds, h3]
  | borrow owner =>
    obtain ⟨c, hc, hb, hh, hl⟩ := step_borrow_ok cb s s1 owner hs
    refine ⟨?_, ?_, ?_⟩
    · intro p hp
      rw [hl] at hp
      simp only [List.mem_append, List.mem_singleton] at hp
      rcases hp with hp | hp
      · exact h1 p hp
      · subst hp; simp
    · intro p hp
      rw [hl] at hp
      simp only [List.mem_append, List.mem_singleton] at hp
      rcases hp with hp | hp
      · exact h2 p hp
      · subst hp; simp
    · simp only [System.lock_count, hc, hb] at h3
      simp [hl, hh, System.lock_count, Heap.store, System.holds, h3]
  | release i =>
    obtain ⟨p, hp, hl, hcase⟩ := step_release_ok cb s s1 i hs
    have hmem : p ∈ s.handles := List.getElem?_mem hp
    have hcount := countP_eraseIdx_get (System.holds cb) s.handles i p hp
    refine ⟨?_, ?_, ?_⟩
    · intro x hx
      rw [hl] at hx
      exact h1 x (List.mem_of_mem_eraseIdx hx)
    · intro x hx
      rw [hl] at hx
      exact h2 x (List.mem_of_mem_eraseIdx hx)
    · rcases hcase with ⟨hn, hh⟩ | ⟨a, c, hu, hc, hh⟩
      · have hnot : System.holds cb p = false := by simp [System.holds, hn]
        simp only [hnot, Bool.false_eq_true, if_false, Nat.add_zero] at hcount
        rw [hl, hcount, h3]
        simp [System.lock_count, hh]
      · have ha : a = cb := by
          rcases h1 p hmem with h | h
          · rw [hu] at h; cases h
          · rw [hu] at h; injection h
        subst ha
        have hyes : System.holds a p = true := by simp [System.holds, hu]
        simp only [hyes, if_true] at hcount
        have hle : s.lock_count a ≤ 1 := by
          simp only [System.lock_count, hc]
          split <;> omega
        rw [hl]
        have : s1.lock_count a = 0 := by simp [System.lock_count, hh, Heap.store]
        omega
  | remove_observer =>
    obtain ⟨hl, hr⟩ := step_remove_ok cb s s1 (Or.inl hs)
    obtain ⟨c, hc, hb, hpost⟩ := remove_ok_spec cb s.heap s1.heap hr
    refine ⟨by rw [hl]; exact h1, by rw [hl]; exact h2, ?_⟩
    simp only [System.lock_count, hc, hb] at h3
    rw [hl, h3]
    simp only [System.lock_count]
    cases hc1 : s1.heap.cbs cb with
    | none => simp
    | some c1 => simp [(hpost c1 hc1).1]
  | remove_owner =>
    obtain ⟨hl, hr⟩ := step_remove_ok cb s s1 (Or.inr hs)
    obtain ⟨c, hc, hb, hpost⟩ := remove_ok_spec cb s.heap s1.heap hr
    refine ⟨by rw [hl]; exact h1, by rw [hl]; exact h2, ?_⟩
    simp only [System.lock_count, hc, hb] at h3
    rw [hl, h3]
    simp only [System.lock_count]
    cases hc1 : s1.heap.cbs cb with
    | none => simp
    | some c1 => simp [(hpost c1 hc1).1]

theorem live_inv_step (cb : Nat) (s s1 : System T) (act : Action)
    (hinv : s.lock_inv cb) (hlive : s.live_inv cb)
    (hs : s.step cb act = Except.ok s1) : s1.live_inv cb := by
  obtain ⟨h1, h2, h3⟩ := hinv
  rw [holders_length] at h3
  intro c1 hc1
  cases act with
  | try_borrow owner =>
    obtain ⟨c, hc, hcase⟩ := step_try_borrow_ok cb s s1 owner hs
    obtain ⟨l1, l2⟩ := hlive c hc
    rcases hcase with ⟨hb, hh, hl⟩ | ⟨hb, hh, hl⟩
    · rw [hh] at hc1 ⊢
      simp [Heap.store] at hc1
      subst hc1
      refine ⟨?_, l2⟩
      intro p hp hholds
      rw [hl] at hp
      simp only [List.mem_append, List.mem_singleton] at hp
      rcases hp with hp | hp
      · exact l1 p hp hholds
      · subst hp; simp [System.holds] at hholds
    · rw [hh] at hc1 ⊢
      simp [Heap.store] at hc1
      subst hc1
      refine ⟨?_, l2⟩
      intro p hp hholds
      rw [hl] at hp
      simp only [List.mem_append, List.mem_singleton] at hp
      rcases hp with hp | hp
      · exact l1 p hp hholds
      · subst hp; rfl
  | borrow owner =>
    obtain ⟨c, hc, hb, hh, hl⟩ := step_borrow_ok cb s s1 owner hs
    obtain ⟨l1, l2⟩ := hlive c hc
    rw [hh] at hc1 ⊢
    simp [Heap.store] at hc1
    subst hc1
    refine ⟨?_, l2⟩
    intro p hp hholds
    rw [hl] at hp
    simp only [List.mem_append, List.mem_singleton] at hp
    rcases hp with hp | hp
    · exact l1 p hp hholds
    · subst hp; rfl
  | release i =>
    obtain ⟨p, hp, hl, hcase⟩ := step_release_ok cb s s1 i hs
    have hmem : p ∈ s.handles := List.getElem?_mem hp
    rcases hcase with ⟨hn, hh⟩ | ⟨a, c, hu, hc, hh⟩
    · rw [hh] at hc1 ⊢
      obtain ⟨l1, l2⟩ := hlive c1 hc1
      refine ⟨?_, l2⟩
      intro x hx
      rw [hl] at hx
      exact l1 x (List.mem_of_mem_eraseIdx hx)
    · have ha : a = cb := by
        rcases h1 p hmem with h | h
        · rw [hu] at h; cases h
        · rw [hu] at h; injection h
      subst ha
      obtain ⟨l1, l2⟩ := hlive c hc
      rw [hh] at hc1 ⊢
      simp [Heap.store] at hc1
      subst hc1
      refine ⟨?_, l2⟩
      intro x hx
      rw [hl] at hx
      exact l1 x (List.mem_of_mem_eraseIdx hx)
  | remove_observer =>
    obtain ⟨hl, hr⟩ := step_remove_ok cb s s1 (Or.inl hs)
    obtain ⟨c, hc, hb, hpost⟩ := remove_ok_spec cb s.heap s1.heap hr
    simp only [System.lock_count, hc, hb, Bool.false_eq_true, if_false,
      List.countP_eq_zero] at h3
    refine ⟨?_, ?_⟩
    · intro p hp hholds
      rw [hl] at hp
      exact absurd hholds (h3 p hp)
    · intro q hq
      obtain ⟨e1, e2⟩ := (hpost c1 hc1).2 q hq
      rw [e2]
      exact (hlive c hc).2 q e1
  | remove_owner =>
    obtain ⟨hl, hr⟩ := step_remove_ok cb s s1 (Or.inr hs)
    obtain ⟨c, hc, hb, hpost⟩ := remove_ok_spec cb s.heap s1.heap hr
    simp only [System.lock_count, hc, hb, Bool.false_eq_true, if_false,
      List.countP_eq_zero] at h3
    refine ⟨?_, ?_⟩
    · intro p hp hholds
      rw [hl] at hp
      exact absurd hholds (h3 p hp)
    · intro q hq
      obtain ⟨e1, e2⟩ := (hpost c1 hc1).2 q hq
      rw [e2]
      exact (hlive c hc).2 q e1

/-- An invariant of every step holds after every run. -/
theorem run_invariant (cb : Nat) (P : System T → Prop)
    (hstep : ∀ s act s1, P s → System.step cb s act = Except.ok s1 → P s1) :
    ∀ (acts : List Action) (s s1 : System T), P s →
      System.run cb s acts = Except.ok s1 → P s1 := by
  intro acts
  induction acts with
  | nil =>
    intro s s1 hP hrun
    simp [System.run] at hrun
    subst hrun
    exact hP
  | cons act rest ih =>
    intro s s1 hP hrun
    simp only [System.run] at hrun
    cases hst : System.step cb s act with
    | error e => simp [hst] at hrun
    | ok s2 =>
      simp only [hst] at hrun
      exact ih s2 s1 (hstep s act s2 hP hst) hrun

theorem inv_initial (value : Option Nat) (cb : Nat) (h0 : Heap T) :
    (System.initial value cb h0).lock_inv cb := by
  simp [System.lock_inv, System.initial, System.holders, System.lock_count,
    observable_ptr.construct, Heap.store, impl.control_block_t.construct]

theorem live_initial (value : Option Nat) (cb : Nat) (h0 : Heap T)
    (hlive : ∀ q, value = some q → (h0.objs q).isSome = true) :
    (System.initial value cb h0).live_inv cb := by
  intro c hc
  simp [System.initial, observable_ptr.construct, Heap.store,
    impl.control_block_t.construct] at hc
  subst hc
  refine ⟨by simp [System.initial], ?_⟩
  intro q hq
  simpa [System.initial, observable_ptr.construct, Heap.store] using hlive q hq

theorem reachable_inv (value : Option Nat) (cb : Nat) (h0 : Heap T)
    (acts : List Action) (s : System T)
    (hrun : System.run cb (System.initial value cb h0) acts = Except.ok s) :
    s.lock_inv cb :=
  run_invariant cb (fun s => s.lock_inv cb)
    (fun s act s1 hP hs => lock_inv_step cb s s1 act hP hs) acts _ s
    (inv_initial value cb h0) hrun

theorem reachable_live (value : Option Nat) (cb : Nat) (h0 : Heap T)
    (hlive : ∀ q, value = some q → (h0.objs q).isSome = true)
    (acts : List Action) (s : System T)
    (hrun : System.run cb (System.initial value cb h0) acts = Except.ok s) :
    s.lock_inv cb ∧ s.live_inv cb :=
  run_invariant cb (fun s => s.lock_inv cb ∧ s.live_inv cb)
    (fun s act s1 hP hs =>
      ⟨lock_inv_step cb s s1 act hP.1 hs, live_inv_step cb s s1 act hP.1 hP.2 hs⟩)
    acts _ s ⟨inv_initial value cb h0, live_initial value cb h0 hlive⟩ hrun

end helpers

/-- C1, evaluated on the code: an Owner and the one Observer it handed out by
`get_observer`. Destroying the Observer first deallocates the control block
while the Owner is alive and deletes no resource, and the Owner's destruction
then runs `remove_owner` on the deallocated control block; destroying the Owner
first deallocates the control block at once, and the Observer's destruction then
runs `remove_observer` on the deallocated control block. -/
theorem C1_destruction_reaches_freed_control_block :
    (∃ h1 : Heap Nat, scenario.observer.destroy scenario.start = Except.ok h1 ∧
      h1.cbs 1 = none ∧ h1.freed = [1] ∧ h1.deleted = [] ∧ h1.objs 0 = some 42 ∧
      scenario.owner.destroy h1 = Except.error Stuck.undefined_behaviour) ∧
    (∃ h1 : Heap Nat, scenario.owner.destroy scenario.start = Except.ok h1 ∧
      h1.cbs 1 = none ∧ h1.freed = [1] ∧ h1.deleted = [0] ∧
      scenario.observer.destroy h1 = Except.error Stuck.undefined_behaviour) := by
  refine ⟨⟨_, rfl, ?_, ?_, ?_, ?_, ?_⟩, ⟨_, rfl, ?_, ?_, ?_, ?_⟩⟩ <;> rfl

/-- C2: mutual exclusion. In every state reached from a fresh control block by
`try_borrow`, `borrow` (through the Owner or an Observer), Locked Handle
destruction, `remove_observer` and `remove_owner`, at most one outstanding
Locked Handle holds the borrow lock, and at most one has a non-null pointer; a
`borrow` that returns found the lock free and no handle holding it; and a
`try_borrow` made while the lock is held leaves the set of handles that hold
the lock as it was. -/
theorem C2_mutual_exclusion {T : Type} (value : Option Nat) (cb : Nat) (h0 : Heap T)
    (acts : List Action) (s : System T)
    (hrun : System.run cb (System.initial value cb h0) acts = Except.ok s) :
    (s.holders cb).length ≤ 1 ∧
    (s.handles.filter impl.locked_ptr.to_bool).length ≤ 1 ∧
    (∀ owner s1, s.step cb (Action.borrow owner) = Except.ok s1 →
      s.lock_count cb = 0 ∧ s.holders cb = [] ∧ (s1.holders cb).length = 1) ∧
    (∀ owner s1, s.step cb (Action.try_borrow owner) = Except.ok s1 →
      (s.lock_count cb = 1 → s1.holders cb = s.holders cb) ∧
      (s.lock_count cb = 0 → s.holders cb = [] ∧ (s1.holders cb).length = 1)) := by
  have hinv := reachable_inv value cb h0 acts s hrun
  obtain ⟨h1, h2, h3⟩ := hinv
  have hle : s.lock_count cb ≤ 1 := by
    unfold System.lock_count
    split
    · omega
    · split <;> omega
  refine ⟨by omega, ?_, ?_, ?_⟩
  · rw [← List.countP_eq_length_filter]
    have hmono : s.handles.countP impl.locked_ptr.to_bool
        ≤ s.handles.countP (System.holds cb) := by
      apply List.countP_mono_left
      intro x hx hb
      have := h2 x hx (by simpa [impl.locked_ptr.to_bool] using hb)
      simp [System.holds, this]
    rw [holders_length] at h3
    omega
  · intro owner s1 hs
    obtain ⟨c, hc, hb, hh, hl⟩ := step_borrow_ok cb s s1 owner hs
    have h0c : s.lock_count cb = 0 := by simp [System.lock_count, hc, hb]
    have hnil : s.holders cb = [] := by
      rw [h0c] at h3
      exact List.length_eq_zero.mp h3
    refine ⟨h0c, hnil, ?_⟩
    simp only [System.holders] at hnil ⊢
    simp [hl, hnil, System.holds]
  · intro owner s1 hs
    obtain ⟨c, hc, hcase⟩ := step_try_borrow_ok cb s s1 owner hs
    rcases hcase with ⟨hb, hh, hl⟩ | ⟨hb, hh, hl⟩
    · refine ⟨?_, ?_⟩
      · intro _
        simp [System.holders, hl, System.holds]
      · intro hz
        simp [System.lock_count, hc, hb] at hz
    · have h0c : s.lock_count cb = 0 := by simp [System.lock_count, hc, hb]
      have hnil : s.holders cb = [] := by
        rw [h0c] at h3
        exact List.length_eq_zero.mp h3
      refine ⟨?_, ?_⟩
      · intro h1c
        omega
      · intro _
        refine ⟨hnil, ?_⟩
        simp only [System.holders] at hnil ⊢
        simp [hl, hnil, System.holds]

/-- Witness for C2: an Observer and then the Owner call `try_borrow` on the
control block of the Owner around 42. -/
theorem C2_mutual_exclusion_witness :
    ∃ s : System Nat,
      System.run 1 (System.initial (some 0) 1 scenario.heap42)
        [Action.try_borrow false, Action.try_borrow true] = Except.ok s ∧
      s.handles.length = 2 ∧ (s.holders 1).length ≤ 1 :=
  ⟨_, rfl, rfl,
    (C2_mutual_exclusion (some 0) 1 scenario.heap42
      [Action.try_borrow false, Action.try_borrow true] _ rfl).1⟩

/-- C3, evaluated on the code: with the Owner alive (`destruction_requested`
false) and one registered Observer copy (`observer_count` 1), destroying that
copy makes `remove_observer` deallocate the control block, although
`destruction_requested` is still false after its update. -/
theorem C3_remove_observer_frees_under_live_owner :
    ∃ (o2 : observer_ptr) (h1 h2 : Heap Nat),
      scenario.observer.copy scenario.start = Except.ok (o2, h1) ∧
      h1.observer_count 1 = some 1 ∧ h1.destruction_requested 1 = some false ∧
      impl.control_block_t.remove_observer o2.m_control_block h1 = Except.ok h2 ∧
      h2.cbs 1 = none ∧ h2.freed = [1] ∧ h2.deleted = [] := by
  refine ⟨_, _, _, rfl, ?_, ?_, rfl, ?_, ?_, ?_⟩ <;> rfl

/-- C4, evaluated on the code: with a live Owner and two registered Observer
copies (`observer_count` 2), one Observer creation by
`observable_ptr::get_observer` leaves the count at 2 and the destruction of that
Observer brings it to 1, not back to 2. -/
theorem C4_get_observer_round_trip_loses_one :
    ∃ (c1 c2 : observer_ptr) (h1 h2 h3 : Heap Nat),
      scenario.observer.copy scenario.start = Except.ok (c1, h1) ∧
      scenario.observer.copy h1 = Except.ok (c2, h2) ∧
      h2.observer_count 1 = some 2 ∧ h2.destruction_requested 1 = some false ∧
      scenario.owner.get_observer.destroy h2 = Except.ok h3 ∧
      h3.observer_count 1 = some 1 := by
  refine ⟨_, _, _, _, _, rfl, rfl, ?_, ?_, rfl, ?_⟩ <;> rfl

/-- C5, evaluated on the code: an Owner and the Observer it handed out by
`get_observer`, no Locked Handle outstanding. After the Owner's destruction the
control block is deallocated, so the Observer's `operator bool` reads freed
memory instead of returning false, and so does copying the Observer. -/
theorem C5_operator_bool_after_owner_destruction :
    ∃ h1 : Heap Nat, scenario.owner.destroy scenario.start = Except.ok h1 ∧
      h1.cbs 1 = none ∧
      scenario.observer.to_bool h1 = Except.error Stuck.undefined_behaviour ∧
      scenario.observer.copy h1 = Except.error Stuck.undefined_behaviour := by
  refine ⟨_, rfl, ?_, ?_, ?_⟩ <;> rfl

/-- C6: deferred deletion. In every reachable state in which a Locked Handle
that holds the borrow lock is outstanding, no operation that returns deletes the
resource (the objects and the record of deletions stay as they are),
`remove_owner` and `remove_observer` wait at the lock acquisition, the control
block is alive with its lock held and its resource pointer equal to the
handle's, and a non-null pointer held by the handle points to a live object. -/
theorem C6_deferred_deletion {T : Type} (value : Option Nat) (cb : Nat) (h0 : Heap T)
    (hlive : ∀ q, value = some q → (h0.objs q).isSome = true)
    (acts : List Action) (s : System T)
    (hrun : System.run cb (System.initial value cb h0) acts = Except.ok s)
    (p : impl.locked_ptr) (hp : p ∈ s.handles) (hholds : System.holds cb p = true) :
    (∀ act s1, s.step cb act = Except.ok s1 →
      s1.heap.deleted = s.heap.deleted ∧ s1.heap.objs = s.heap.objs) ∧
    s.step cb Action.remove_owner = Except.error Stuck.blocks ∧
    s.step cb Action.remove_observer = Except.error Stuck.blocks ∧
    (∃ c, s.heap.cbs cb = some c ∧ c.m_is_borrowed = true ∧ p.m_ptr = c.m_ptr) ∧
    (∀ q, p.m_ptr = some q → (s.heap.objs q).isSome = true) := by
  obtain ⟨⟨h1, h2, h3⟩, hl⟩ := reachable_live value cb h0 hlive acts s hrun
  rw [holders_length] at h3
  have hpos : 0 < s.handles.countP (System.holds cb) :=
    List.countP_pos_iff.mpr ⟨p, hp, hholds⟩
  have hcell : ∃ c, s.heap.cbs cb = some c ∧ c.m_is_borrowed = true := by
    rw [h3] at hpos
    unfold System.lock_count at hpos
    cases hc : s.heap.cbs cb with
    | none => simp [hc] at hpos
    | some c =>
      cases hb : c.m_is_borrowed with
      | false => simp [hc, hb] at hpos
      | true => exact ⟨c, rfl, hb⟩
  obtain ⟨c, hc, hb⟩ := hcell
  have hown : s.step cb Action.remove_owner = Except.error Stuck.blocks := by
    simp [System.step, impl.control_block_t.remove_owner, hc, hb]
  have hobs : s.step cb Action.remove_observer = Except.error Stuck.blocks := by
    simp [System.step, impl.control_block_t.remove_observer, hc, hb]
  have hptr : p.m_ptr = c.m_ptr := (hl c hc).1 p hp hholds
  refine ⟨?_, hown, hobs, ⟨c, hc, hb, hptr⟩, ?_⟩
  · intro act s1 hs
    cases act with
    | try_borrow owner =>
      obtain ⟨c2, _, hcase⟩ := step_try_borrow_ok cb s s1 owner hs
      rcases hcase with ⟨_, hh, _⟩ | ⟨_, hh, _⟩ <;> rw [hh] <;> exact ⟨rfl, rfl⟩
    | borrow owner =>
      obtain ⟨c2, _, _, hh, _⟩ := step_borrow_ok cb s s1 owner hs
      rw [hh]
      exact ⟨rfl, rfl⟩
    | release i =>
      obtain ⟨x, _, _, hcase⟩ := step_release_ok cb s s1 i hs
      rcases hcase with ⟨_, hh⟩ | ⟨a, c2, _, _, hh⟩ <;> rw [hh] <;> exact ⟨rfl, rfl⟩
    | remove_observer => rw [hobs] at hs; cases hs
    | remove_owner => rw [hown] at hs; cases hs
  · intro q hq
    exact (hl c hc).2 q (by rw [← hptr]; exact hq)

/-- Witness for C6: an Observer borrows the value 42; while its Locked Handle is
outstanding the Owner's `remove_owner` waits and the value stays alive. -/
theorem C6_deferred_deletion_witness :
    ∃ s : System Nat,
      System.run 1 (System.initial (some 0) 1 scenario.heap42) [Action.borrow false]
        = Except.ok s ∧
      s.step 1 Action.remove_owner = Except.error Stuck.blocks ∧
      s.heap.objs 0 = some 42 :=
  ⟨_, rfl,
    (C6_deferred_deletion (some 0) 1 scenario.heap42 (by simp [scenario.heap42, Heap.new_obj])
      [Action.borrow false] _ rfl
      { m_ptr := some 0, m_on_exit := impl.on_exit_t.unlock 1 }
      (by simp [System.run, System.step, System.initial, observer_ptr.borrow,
        observable_ptr.construct, Heap.store, impl.control_block_t.construct,
        impl.control_block_t.borrow])
      rfl).2.1,
    rfl⟩

/-- C7: `try_borrow` on a control block whose lock is held returns the empty
Locked Handle (null pointer, `operator bool` false, exit callback `[]( ) {}`)
and leaves the control block as it was; with the lock free and a live resource
`q` it returns a handle whose pointer is `q`, and the lock becomes held while no
other field changes; and of two `try_borrow` calls in a row on such a control
block the first is non-empty and the second is empty. The same holds through
`observer_ptr::try_borrow`. -/
theorem C7_try_borrow {T : Type} (self : Nat) (cb : impl.control_block_t) (h : Heap T)
    (hcb : h.cbs self = some cb) :
    (cb.m_is_borrowed = true →
      (cb.try_borrow self).1.m_ptr = none ∧ (cb.try_borrow self).1.to_bool = false ∧
      (cb.try_borrow self).1.m_on_exit = impl.on_exit_t.nothing ∧
      (cb.try_borrow self).2 = cb ∧
      ∃ h1, observer_ptr.try_borrow { m_control_block := some self } h =
          Except.ok ({ m_ptr := none, m_on_exit := impl.on_exit_t.nothing }, h1) ∧
        h1.cbs self = some cb) ∧
    (cb.m_is_borrowed = false → ∀ q, cb.m_ptr = some q →
      (cb.try_borrow self).1.m_ptr = some q ∧ (cb.try_borrow self).1.to_bool = true ∧
      (cb.try_borrow self).2 = { cb with m_is_borrowed := true } ∧
      (impl.control_block_t.try_borrow self (cb.try_borrow self).2).1.to_bool = false ∧
      ∃ h1, observer_ptr.try_borrow { m_control_block := some self } h =
          Except.ok ({ m_ptr := some q, m_on_exit := impl.on_exit_t.unlock self }, h1) ∧
        h1.cbs self = some { cb with m_is_borrowed := true } ∧
        ∃ h2, observer_ptr.try_borrow { m_control_block := some self } h1 =
          Except.ok ({ m_ptr := none, m_on_exit := impl.on_exit_t.nothing }, h2) ∧
          h2.cbs self = some { cb with m_is_borrowed := true }) := by
  constructor
  · intro hb
    simp [impl.control_block_t.try_borrow, observer_ptr.try_borrow, hb, hcb,
      impl.locked_ptr.to_bool, Heap.store]
  · intro hb q hq
    simp [impl.control_block_t.try_borrow, observer_ptr.try_borrow, hb, hcb, hq,
      impl.locked_ptr.to_bool, Heap.store]

/-- Witness for C7: a control block whose lock is held, and one whose lock is
free with a live resource at address 0. -/
theorem C7_try_borrow_witness :
    ((impl.control_block_t.try_borrow 1
        { m_ptr := some 0, m_ptr_destruct := false, m_cb_destruct := false,
          m_is_borrowed := true, m_observer_count := 0 }).1.to_bool = false) ∧
    ((impl.control_block_t.try_borrow 1 (impl.control_block_t.construct (some 0))).1.m_ptr
        = some 0) :=
  ⟨((C7_try_borrow 1
        { m_ptr := some 0, m_ptr_destruct := false, m_cb_destruct := false,
          m_is_borrowed := true, m_observer_count := 0 }
        ((Heap.empty : Heap Nat).store 1
          { m_ptr := some 0, m_ptr_destruct := false, m_cb_destruct := false,
            m_is_borrowed := true, m_observer_count := 0 })
        (by simp [Heap.store])).1 rfl).2.1,
   ((C7_try_borrow 1 (impl.control_block_t.construct (some 0)) scenario.start
        (by simp [scenario.start, observable_ptr.construct, Heap.store])).2 rfl 0 rfl).1⟩

/-- C8 as stated fails at the top of the counter's range: with
`destruction_requested` false and `observer_count` 32767, `add_observer` returns
true and the `int16_t` counter wraps to -32768 instead of being one greater. -/
theorem C8_add_observer_wraps :
    (impl.control_block_t.add_observer
        { m_ptr := some 0, m_ptr_destruct := false, m_cb_destruct := false,
          m_is_borrowed := false, m_observer_count := 32767 }).1 = true ∧
    (impl.control_block_t.add_observer
        { m_ptr := some 0, m_ptr_destruct := false, m_cb_destruct := false,
          m_is_borrowed := false, m_observer_count := 32767 }).2.m_observer_count = -32768 ∧
    (impl.control_block_t.add_observer
        { m_ptr := some 0, m_ptr_destruct := false, m_cb_destruct := false,
          m_is_borrowed := false, m_observer_count := 32767 }).2.m_observer_count
      ≠ 32767 + 1 := by
  decide

/-- C8, amended: `add_observer` returns false and leaves `observer_count`
unchanged when `destruction_requested` is true; otherwise it returns true and
`observer_count` is exactly one greater than before, except that from 32767 the
`int16_t` counter wraps to -32768; in both cases the resource pointer, the
destruction flag, the once flag and the lock are unchanged. -/
theorem C8_add_observer (cb : impl.control_block_t)
    (hrange : -32768 ≤ cb.m_observer_count ∧ cb.m_observer_count ≤ 32767) :
    (cb.m_ptr_destruct = true → cb.add_observer.1 = false ∧ cb.add_observer.2 = cb) ∧
    (cb.m_ptr_destruct = false → cb.add_observer.1 = true ∧
      (cb.m_observer_count < 32767 →
        cb.add_observer.2.m_observer_count = cb.m_observer_count + 1) ∧
      (cb.m_observer_count = 32767 → cb.add_observer.2.m_observer_count = -32768)) ∧
    cb.add_observer.2.m_ptr = cb.m_ptr ∧
    cb.add_observer.2.m_ptr_destruct = cb.m_ptr_destruct ∧
    cb.add_observer.2.m_cb_destruct = cb.m_cb_destruct ∧
    cb.add_observer.2.m_is_borrowed = cb.m_is_borrowed := by
  refine ⟨?_, ?_, ?_, ?_, ?_, ?_⟩
  · intro hd
    simp [impl.control_block_t.add_observer, hd]
  · intro hd
    refine ⟨by simp [impl.control_block_t.add_observer, hd], ?_, ?_⟩
    · intro hlt
      simp only [impl.control_block_t.add_observer, hd, wrap16]
      simp only [Bool.false_eq_true, if_false]
      omega
    · intro heq
      simp [impl.control_block_t.add_observer, hd, wrap16, heq]
  all_goals
    unfold impl.control_block_t.add_observer
    split <;> rfl

/-- Witness for C8: a live control block with three registered Observers. -/
theorem C8_add_observer_witness :
    (impl.control_block_t.add_observer
        { m_ptr := some 0, m_ptr_destruct := false, m_cb_destruct := false,
          m_is_borrowed := false, m_observer_count := 3 }).2.m_observer_count = 3 + 1 :=
  ((C8_add_observer
      { m_ptr := some 0, m_ptr_destruct := false, m_cb_destruct := false,
        m_is_borrowed := false, m_observer_count := 3 }
      (by decide)).2.1 rfl).2.1 (by decide)

/-- C9: for an Owner or an Observer whose control block `cb` holds the live
resource `r` (at address `q`) with the borrow lock free, and a callable that
returns `v` on `r`, every overload of `lock` returns an `expected_t` with
`has_value( )` true whose value is `v`, the callable is called exactly once, and
the control block is afterwards exactly as before, the borrow lock free. -/
theorem C9_lock_returns_value {T E R : Type} (a q : Nat) (cb : impl.control_block_t)
    (h : Heap T) (r r1 : T) (v : R) (f : T → T × Except E R) (g : T → Except E R)
    (hcb : h.cbs a = some cb) (hq : cb.m_ptr = some q) (hr : h.objs q = some r)
    (hfree : cb.m_is_borrowed = false) (hf : f r = (r1, Except.ok v))
    (hg : g r = Except.ok v) :
    (∃ res, observable_ptr.lock { m_control_block := some a } f h = Except.ok res ∧
      res.result.has_value = true ∧ res.result.get = Except.ok v ∧ res.calls = 1 ∧
      res.heap.cbs a = some cb ∧ res.heap.objs q = some r1) ∧
    (∃ res, observer_ptr.lock { m_control_block := some a } f h = Except.ok res ∧
      res.result.has_value = true ∧ res.result.get = Except.ok v ∧ res.calls = 1 ∧
      res.heap.cbs a = some cb ∧ res.heap.objs q = some r1) ∧
    (∃ res, observable_ptr.lock_const { m_control_block := some a } g h = Except.ok res ∧
      res.result.has_value = true ∧ res.result.get = Except.ok v ∧ res.calls = 1 ∧
      res.heap.cbs a = some cb ∧ res.heap.objs q = some r) ∧
    (∃ res, observer_ptr.lock_const { m_control_block := some a } g h = Except.ok res ∧
      res.result.has_value = true ∧ res.result.get = Except.ok v ∧ res.calls = 1 ∧
      res.heap.cbs a = some cb ∧ res.heap.objs q = some r) := by
  obtain ⟨p, d, o, b, n⟩ := cb
  simp only at hq hfree
  subst hq hfree
  refine ⟨?_, ?_, ?_, ?_⟩
  · simp [observable_ptr.lock, observable_ptr.borrow, impl.control_block_t.borrow, hcb,
      hr, hf, impl.locked_ptr.to_bool, impl.locked_ptr.destroy, Heap.store,
      Heap.new_obj, expected_t.from_code, expected_t.variant_from_code,
      expected_t.has_value, expected_t.get]
  · simp [observer_ptr.lock, observer_ptr.borrow, impl.control_block_t.borrow, hcb,
      hr, hf, impl.locked_ptr.to_bool, impl.locked_ptr.destroy, Heap.store,
      Heap.new_obj, expected_t.from_code, expected_t.variant_from_code,
      expected_t.has_value, expected_t.get]
  · simp [observable_ptr.lock_const, observable_ptr.borrow, impl.control_block_t.borrow, hcb,
      hr, hg, impl.locked_ptr.to_bool, impl.locked_ptr.destroy,
      impl.locked_ptr.deref, Heap.store, expected_t.from_code,
      expected_t.variant_from_code, expected_t.has_value, expected_t.get]
  · simp [observer_ptr.lock_const, observer_ptr.borrow, impl.control_block_t.borrow, hcb,
      hr, hg, impl.locked_ptr.to_bool, impl.locked_ptr.destroy,
      impl.locked_ptr.deref, Heap.store, expected_t.from_code,
      expected_t.variant_from_code, expected_t.has_value, expected_t.get]

/-- Witness for C9: the Owner around 42 and the callable `v + 1`; the value
is 43. -/
theorem C9_lock_returns_value_witness :
    ∃ res, observable_ptr.lock { m_control_block := some 1 } scenario.plus_one
        scenario.start = Except.ok res ∧
      res.result.has_value = true ∧ res.result.get = Except.ok 43 ∧ res.calls = 1 ∧
      res.heap.cbs 1 = some (impl.control_block_t.construct (some 0)) ∧
      res.heap.objs 0 = some 42 :=
  (C9_lock_returns_value 1 0 (impl.control_block_t.construct (some 0)) scenario.start
    42 42 43 scenario.plus_one scenario.plus_one_const rfl rfl rfl rfl rfl rfl).1

/-- C10: for an Owner or an Observer whose control block `cb` holds the live
resource `r` with the borrow lock free, and a callable that throws `e` on `r`,
every overload of `lock` returns normally: the `expected_t` has
`has_exception( )` true and `has_value( )` false, `get( )` rethrows `e`, and the
control block is afterwards exactly as before, the borrow lock free. -/
theorem C10_lock_captures_exception {T E R : Type} (a q : Nat)
    (cb : impl.control_block_t) (h : Heap T) (r r1 : T) (e : E)
    (f : T → T × Except E R) (g : T → Except E R)
    (hcb : h.cbs a = some cb) (hq : cb.m_ptr = some q) (hr : h.objs q = some r)
    (hfree : cb.m_is_borrowed = false) (hf : f r = (r1, Except.error e))
    (hg : g r = Except.error e) :
    (∃ res, observable_ptr.lock { m_control_block := some a } f h = Except.ok res ∧
      res.result.has_exception = true ∧ res.result.has_value = false ∧
      res.result.empty = false ∧
      res.result.get = Except.error (thrown.rethrown e) ∧ res.heap.cbs a = some cb) ∧
    (∃ res, observer_ptr.lock { m_control_block := some a } f h = Except.ok res ∧
      res.result.has_exception = true ∧ res.result.has_value = false ∧
      res.result.empty = false ∧
      res.result.get = Except.error (thrown.rethrown e) ∧ res.heap.cbs a = some cb) ∧
    (∃ res, observable_ptr.lock_const { m_control_block := some a } g h = Except.ok res ∧
      res.result.has_exception = true ∧ res.result.has_value = false ∧
      res.result.empty = false ∧
      res.result.get = Except.error (thrown.rethrown e) ∧ res.heap.cbs a = some cb) ∧
    (∃ res, observer_ptr.lock_const { m_control_block := some a } g h = Except.ok res ∧
      res.result.has_exception = true ∧ res.result.has_value = false ∧
      res.result.empty = false ∧
      res.result.get = Except.error (thrown.rethrown e) ∧ res.heap.cbs a = some cb) := by
  obtain ⟨p, d, o, b, n⟩ := cb
  simp only at hq hfree
  subst hq hfree
  refine ⟨?_, ?_, ?_, ?_⟩
  · simp [observable_ptr.lock, observable_ptr.borrow, impl.control_block_t.borrow, hcb,
      hr, hf, impl.locked_ptr.to_bool, impl.locked_ptr.destroy, Heap.store,
      Heap.new_obj, expected_t.from_code, expected_t.variant_from_code,
      expected_t.has_value, expected_t.has_exception, expected_t.empty, expected_t.get]
  · simp [observer_ptr.lock, observer_ptr.borrow, impl.control_block_t.borrow, hcb,
      hr, hf, impl.locked_ptr.to_bool, impl.locked_ptr.destroy, Heap.store,
      Heap.new_obj, expected_t.from_code, expected_t.variant_from_code,
      expected_t.has_value, expected_t.has_exception, expected_t.empty, expected_t.get]
  · simp [observable_ptr.lock_const, observable_ptr.borrow, impl.control_block_t.borrow, hcb,
      hr, hg, impl.locked_ptr.to_bool, impl.locked_ptr.destroy,
      impl.locked_ptr.deref, Heap.store, expected_t.from_code,
      expected_t.variant_from_code, expected_t.has_value, expected_t.has_exception,
      expected_t.empty, expected_t.get]
  · simp [observer_ptr.lock_const, observer_ptr.borrow, impl.control_block_t.borrow, hcb,
      hr, hg, impl.locked_ptr.to_bool, impl.locked_ptr.destroy,
      impl.locked_ptr.deref, Heap.store, expected_t.from_code,
      expected_t.variant_from_code, expected_t.has_value, expected_t.has_exception,
      expected_t.empty, expected_t.get]

/-- Witness for C10: the Owner around 42 and a callable that throws "boom". -/
theorem C10_lock_captures_exception_witness :
    ∃ res, observable_ptr.lock { m_control_block := some 1 } scenario.throwing
        scenario.start = Except.ok res ∧
      res.result.has_exception = true ∧ res.result.has_value = false ∧
      res.result.empty = false ∧
      res.result.get = Except.error (thrown.rethrown "boom") ∧
      res.heap.cbs 1 = some (impl.control_block_t.construct (some 0)) :=
  (C10_lock_captures_exception 1 0 (impl.control_block_t.construct (some 0))
    scenario.start 42 7 "boom" scenario.throwing scenario.throwing_const
    rfl rfl rfl rfl rfl rfl).1

/-- `lock` on a handle whose control block pointer is null returns the empty
`expected_t` without calling the callable and without touching the heap; `lock`
on a handle whose control block is still allocated, with a null resource
pointer, returns the empty `expected_t` once it has the borrow lock (it waits
while the lock is held), never calls the callable, and leaves the control block
as it was. The empty `expected_t` has `empty( )` true, `has_value( )` false and
`has_exception( )` false. This holds for the four overloads. -/
theorem lock_without_resource_allocated {T E R : Type} (a : Nat) (cb : impl.control_block_t)
    (h : Heap T) (f : T → T × Except E R) (g : T → Except E R)
    (hcb : h.cbs a = some cb) (hnull : cb.m_ptr = none) :
    ((expected_t.construct : expected_t E R).empty = true ∧
      (expected_t.construct : expected_t E R).has_value = false ∧
      (expected_t.construct : expected_t E R).has_exception = false) ∧
    (observable_ptr.lock { m_control_block := none } f h
        = Except.ok { result := expected_t.construct, calls := 0, heap := h } ∧
      observer_ptr.lock { m_control_block := none } f h
        = Except.ok { result := expected_t.construct, calls := 0, heap := h } ∧
      observable_ptr.lock_const { m_control_block := none } g h
        = Except.ok { result := expected_t.construct, calls := 0, heap := h } ∧
      observer_ptr.lock_const { m_control_block := none } g h
        = Except.ok { result := expected_t.construct, calls := 0, heap := h }) ∧
    (cb.m_is_borrowed = false →
      (∃ res, observable_ptr.lock { m_control_block := some a } f h = Except.ok res ∧
        res.result = expected_t.construct ∧ res.calls = 0 ∧ res.heap.cbs a = some cb ∧
        res.heap.objs = h.objs) ∧
      (∃ res, observer_ptr.lock { m_control_block := some a } f h = Except.ok res ∧
        res.result = expected_t.construct ∧ res.calls = 0 ∧ res.heap.cbs a = some cb ∧
        res.heap.objs = h.objs) ∧
      (∃ res, observable_ptr.lock_const { m_control_block := some a } g h = Except.ok res ∧
        res.result = expected_t.construct ∧ res.calls = 0 ∧ res.heap.cbs a = some cb ∧
        res.heap.objs = h.objs) ∧
      (∃ res, observer_ptr.lock_const { m_control_block := some a } g h = Except.ok res ∧
        res.result = expected_t.construct ∧ res.calls = 0 ∧ res.heap.cbs a = some cb ∧
        res.heap.objs = h.objs)) ∧
    (cb.m_is_borrowed = true →
      observable_ptr.lock { m_control_block := some a } f h = Except.error Stuck.blocks ∧
      observer_ptr.lock { m_control_block := some a } f h = Except.error Stuck.blocks ∧
      observable_ptr.lock_const { m_control_block := some a } g h
        = Except.error Stuck.blocks ∧
      observer_ptr.lock_const { m_control_block := some a } g h
        = Except.error Stuck.blocks) := by
  obtain ⟨p, d, o, b, n⟩ := cb
  simp only at hnull
  subst hnull
  refine ⟨by simp [expected_t.construct, expected_t.empty, expected_t.has_value,
    expected_t.has_exception], ?_, ?_, ?_⟩
  · simp [observable_ptr.lock, observer_ptr.lock, observable_ptr.lock_const,
      observer_ptr.lock_const, observable_ptr.borrow, observer_ptr.borrow,
      impl.locked_ptr.to_bool, impl.locked_ptr.destroy]
  · intro hb
    simp only at hb
    subst hb
    simp [observable_ptr.lock, observer_ptr.lock, observable_ptr.lock_const,
      observer_ptr.lock_const, observable_ptr.borrow, observer_ptr.borrow,
      impl.control_block_t.borrow, hcb, impl.locked_ptr.to_bool,
      impl.locked_ptr.destroy, Heap.store]
  · intro hb
    simp only at hb
    subst hb
    simp [observable_ptr.lock, observer_ptr.lock, observable_ptr.lock_const,
      observer_ptr.lock_const, observable_ptr.borrow, observer_ptr.borrow,
      impl.control_block_t.borrow, hcb]

/-- What a returning static `remove_observer` or `remove_owner` deleted. -/
theorem remove_delete_spec {T : Type} (a : Nat) (h h1 : Heap T)
    (hr : impl.control_block_t.remove_observer (some a) h = Except.ok h1 ∨
          impl.control_block_t.remove_owner (some a) h = Except.ok h1) :
    ∃ c, h.cbs a = some c ∧
      ((h1.deleted = h.deleted ∧ ∀ c1, h1.cbs a = some c1 → c1.m_ptr = c.m_ptr) ∨
       (∃ q, c.m_ptr = some q ∧ h1.deleted = h.deleted ++ [q] ∧
          ∀ c1, h1.cbs a = some c1 → c1.m_ptr = none ∧ c1.m_ptr_destruct = true)) := by
  rcases hr with hr | hr
  · unfold impl.control_block_t.remove_observer at hr
    simp only at hr
    cases hc : h.cbs a with
    | none => simp [hc] at hr
    | some c =>
      simp only [hc] at hr
      obtain ⟨p, d, o, b, n⟩ := c
      cases b with
      | true => simp at hr
      | false =>
        refine ⟨_, rfl, ?_⟩
        by_cases hn : wrap16 (n - 1) ≤ 0 <;> cases d <;> cases o <;> cases p <;>
          simp [hn, impl.control_block_t.remove_observer_lck,
            impl.control_block_t.destruct_if_should, impl.control_block_t.destruct_cb,
            Heap.store, Heap.delete_obj, Heap.delete_cb] at hr <;>
          subst hr <;> simp
  · unfold impl.control_block_t.remove_owner at hr
    simp only at hr
    cases hc : h.cbs a with
    | none => simp [hc] at hr
    | some c =>
      simp only [hc] at hr
      obtain ⟨p, d, o, b, n⟩ := c
      cases b with
      | true => simp at hr
      | false =>
        refine ⟨_, rfl, ?_⟩
        by_cases hn : n ≤ 0 <;> cases d <;> cases o <;> cases p <;>
          simp [hn, impl.control_block_t.remove_owner_lck,
            impl.control_block_t.destruct_if_should, impl.control_block_t.destruct_cb,
            Heap.store, Heap.delete_obj, Heap.delete_cb] at hr <;>
          subst hr <;> simp

/-- Every step keeps: at most one pointer has been deleted since the start, and
once one has been, the control block's resource pointer is null. -/
theorem deleted_once_step {T : Type} (cb : Nat) (base : List Nat) (s s1 : System T)
    (act : Action)
    (hinv : ∃ d, s.heap.deleted = base ++ d ∧ d.length ≤ 1 ∧
      (d ≠ [] → ∀ c, s.heap.cbs cb = some c → c.m_ptr = none))
    (hs : s.step cb act = Except.ok s1) :
    ∃ d, s1.heap.deleted = base ++ d ∧ d.length ≤ 1 ∧
      (d ≠ [] → ∀ c, s1.heap.cbs cb = some c → c.m_ptr = none) := by
  obtain ⟨d, hd, hlen, hnull⟩ := hinv
  have keep : ∀ (c : impl.control_block_t) (c2 : impl.control_block_t),
      s.heap.cbs cb = some c → c2.m_ptr = c.m_ptr → s1.heap = s.heap.store cb c2 →
      ∃ d, s1.heap.deleted = base ++ d ∧ d.length ≤ 1 ∧
        (d ≠ [] → ∀ c, s1.heap.cbs cb = some c → c.m_ptr = none) := by
    intro c c2 hc hptr hh
    refine ⟨d, by rw [hh]; exact hd, hlen, ?_⟩
    intro hne c1 hc1
    rw [hh] at hc1
    simp [Heap.store] at hc1
    subst hc1
    rw [hptr]
    exact hnull hne c hc
  cases act with
  | try_borrow owner =>
    obtain ⟨c, hc, hcase⟩ := step_try_borrow_ok cb s s1 owner hs
    rcases hcase with ⟨_, hh, _⟩ | ⟨_, hh, _⟩
    · exact keep c c hc rfl hh
    · exact keep c { c with m_is_borrowed := true } hc rfl hh
  | borrow owner =>
    obtain ⟨c, hc, _, hh, _⟩ := step_borrow_ok cb s s1 owner hs
    exact keep c { c with m_is_borrowed := true } hc rfl hh
  | release i =>
    obtain ⟨p, _, _, hcase⟩ := step_release_ok cb s s1 i hs
    rcases hcase with ⟨_, hh⟩ | ⟨a, c, _, hc, hh⟩
    · exact ⟨d, by rw [hh]; exact hd, hlen, by rw [hh]; exact hnull⟩
    · by_cases ha : a = cb
      · subst ha
        exact keep c { c with m_is_borrowed := false } hc rfl hh
      · refine ⟨d, by rw [hh]; exact hd, hlen, ?_⟩
        intro hne c1 hc1
        rw [hh] at hc1
        have hcb : cb ≠ a := fun e => ha e.symm
        simp [Heap.store, Function.update_noteq hcb] at hc1
        exact hnull hne c1 hc1
  | remove_observer =>
    obtain ⟨_, hr⟩ := step_remove_ok cb s s1 (Or.inl hs)
    obtain ⟨c, hc, hcase⟩ := remove_delete_spec cb s.heap s1.heap hr
    rcases hcase with ⟨hdel, hptr⟩ | ⟨q, hq, hdel, hptr⟩
    · refine ⟨d, by rw [hdel]; exact hd, hlen, ?_⟩
      intro hne c1 hc1
      rw [hptr c1 hc1]
      exact hnull hne c hc
    · have hdnil : d = [] := by
        by_contra hne
        have := hnull hne c hc
        rw [hq] at this
        cases this
      subst hdnil
      refine ⟨[q], by rw [hdel, hd]; simp, by simp, ?_⟩
      intro _ c1 hc1
      exact (hptr c1 hc1).1
  | remove_owner =>
    obtain ⟨_, hr⟩ := step_remove_ok cb s s1 (Or.inr hs)
    obtain ⟨c, hc, hcase⟩ := remove_delete_spec cb s.heap s1.heap hr
    rcases hcase with ⟨hdel, hptr⟩ | ⟨q, hq, hdel, hptr⟩
    · refine ⟨d, by rw [hdel]; exact hd, hlen, ?_⟩
      intro hne c1 hc1
      rw [hptr c1 hc1]
      exact hnull hne c hc
    · have hdnil : d = [] := by
        by_contra hne
        have := hnull hne c hc
        rw [hq] at this
        cases this
      subst hdnil
      refine ⟨[q], by rw [hdel, hd]; simp, by simp, ?_⟩
      intro _ c1 hc1
      exact (hptr c1 hc1).1

/-- C12 as stated fails: with one registered Observer copy (`observer_count` 1)
the Owner's destruction deletes the resource, and the control block it leaves
behind shows `destruction_requested` true with `observer_count` 1, not `<= 0`. -/
theorem C12_deleted_while_observed :
    ∃ (o2 : observer_ptr) (h1 h2 : Heap Nat),
      scenario.observer.copy scenario.start = Except.ok (o2, h1) ∧
      h1.deleted = [] ∧
      scenario.owner.destroy h1 = Except.ok h2 ∧
      h2.deleted = [0] ∧ h2.objs 0 = none ∧
      h2.destruction_requested 1 = some true ∧ h2.observer_count 1 = some 1 := by
  refine ⟨_, _, _, rfl, ?_, rfl, ?_, ?_, ?_, ?_⟩ <;> rfl

/-- Deletion in the runs of the borrow protocol. `destruct_if_should` hands a
pointer to `delete` only when the flag is set, and the pointer is then null; in
every run from a fresh control block at most one pointer is ever deleted, a
step that deletes is a `remove_observer` or `remove_owner` that found nothing
deleted before and the resource pointer non-null, and it leaves the flag set
and the pointer null. -/
theorem system_deleted_once {T : Type} (value : Option Nat) (cb : Nat)
    (h0 : Heap T) (acts : List Action) (s : System T)
    (hrun : System.run cb (System.initial value cb h0) acts = Except.ok s) :
    (∀ (c : impl.control_block_t) (q : Nat), c.destruct_if_should.2 = some q →
      c.m_ptr_destruct = true ∧ c.m_ptr = some q ∧ c.destruct_if_should.1.m_ptr = none ∧
      c.destruct_if_should.1.destruct_if_should.2 = none) ∧
    (∃ d, s.heap.deleted = h0.deleted ++ d ∧ d.length ≤ 1) ∧
    (∀ act s1, s.step cb act = Except.ok s1 → s1.heap.deleted ≠ s.heap.deleted →
      (act = Action.remove_observer ∨ act = Action.remove_owner) ∧
      s.heap.deleted = h0.deleted ∧
      ∃ c q, s.heap.cbs cb = some c ∧ c.m_ptr = some q ∧
        s1.heap.deleted = s.heap.deleted ++ [q] ∧
        ∀ c1, s1.heap.cbs cb = some c1 → c1.m_ptr = none ∧ c1.m_ptr_destruct = true) := by
  have hinv : ∃ d, s.heap.deleted = h0.deleted ++ d ∧ d.length ≤ 1 ∧
      (d ≠ [] → ∀ c, s.heap.cbs cb = some c → c.m_ptr = none) :=
    run_invariant cb
      (fun s => ∃ d, s.heap.deleted = h0.deleted ++ d ∧ d.length ≤ 1 ∧
        (d ≠ [] → ∀ c, s.heap.cbs cb = some c → c.m_ptr = none))
      (fun s act s1 hP hs => deleted_once_step cb h0.deleted s s1 act hP hs) acts _ s
      ⟨[], by simp [System.initial, observable_ptr.construct, Heap.store], by simp,
        by simp⟩ hrun
  obtain ⟨d, hd, hlen, hnull⟩ := hinv
  refine ⟨?_, ⟨d, hd, hlen⟩, ?_⟩
  · intro c q hq
    obtain ⟨p, f, o, b, n⟩ := c
    cases f <;> simp_all [impl.control_block_t.destruct_if_should]
  · intro act s1 hs hne
    cases act with
    | try_borrow owner =>
      obtain ⟨c, _, hcase⟩ := step_try_borrow_ok cb s s1 owner hs
      rcases hcase with ⟨_, hh, _⟩ | ⟨_, hh, _⟩ <;> exact absurd (by rw [hh]; rfl) hne
    | borrow owner =>
      obtain ⟨c, _, _, hh, _⟩ := step_borrow_ok cb s s1 owner hs
      exact absurd (by rw [hh]; rfl) hne
    | release i =>
      obtain ⟨p, _, _, hcase⟩ := step_release_ok cb s s1 i hs
      rcases hcase with ⟨_, hh⟩ | ⟨a, c, _, _, hh⟩ <;>
        exact absurd (by simp [hh, Heap.store]) hne
    | remove_observer =>
      obtain ⟨_, hr⟩ := step_remove_ok cb s s1 (Or.inl hs)
      obtain ⟨c, hc, hcase⟩ := remove_delete_spec cb s.heap s1.heap hr
      rcases hcase with ⟨hdel, _⟩ | ⟨q, hq, hdel, hptr⟩
      · exact absurd hdel hne
      · have hdnil : d = [] := by
          by_contra hne2
          have := hnull hne2 c hc
          rw [hq] at this
          cases this
        subst hdnil
        exact ⟨Or.inl rfl, by simpa using hd, c, q, hc, hq, hdel, hptr⟩
    | remove_owner =>
      obtain ⟨_, hr⟩ := step_remove_ok cb s s1 (Or.inr hs)
      obtain ⟨c, hc, hcase⟩ := remove_delete_spec cb s.heap s1.heap hr
      rcases hcase with ⟨hdel, _⟩ | ⟨q, hq, hdel, hptr⟩
      · exact absurd hdel hne
      · have hdnil : d = [] := by
          by_contra hne2
          have := hnull hne2 c hc
          rw [hq] at this
          cases this
        subst hdnil
        exact ⟨Or.inr rfl, by simpa using hd, c, q, hc, hq, hdel, hptr⟩

/-- C14, evaluated on the code: the Owner is destroyed while two Observer copies
are registered, so the control block stays alive with a null resource pointer.
On an Observer bound to it `operator bool`, `get`, `try_borrow`, `borrow`,
`operator->` and `lock` return without touching the resource, but `operator*`
evaluates `*borrow( )`, which dereferences the null pointer of the Locked
Handle. -/
theorem C14_operator_star_dereferences_null :
    ∃ (c1 c2 : observer_ptr) (h1 h2 h3 : Heap Nat),
      scenario.observer.copy scenario.start = Except.ok (c1, h1) ∧
      scenario.observer.copy h1 = Except.ok (c2, h2) ∧
      scenario.owner.destroy h2 = Except.ok h3 ∧
      h3.cbs 1 = some scenario.expired_cb ∧
      scenario.observer.to_bool h3 = Except.ok false ∧
      scenario.observer.get h3 = Except.ok none ∧
      (∃ h4, scenario.observer.try_borrow h3
        = Except.ok ({ m_ptr := none, m_on_exit := impl.on_exit_t.unlock 1 }, h4)) ∧
      (∃ h4, scenario.observer.borrow h3
        = Except.ok ({ m_ptr := none, m_on_exit := impl.on_exit_t.unlock 1 }, h4)) ∧
      (∃ h4, scenario.observer.operator_arrow h3
        = Except.ok ({ m_ptr := none, m_on_exit := impl.on_exit_t.unlock 1 }, h4)) ∧
      (∃ res, scenario.observer.lock scenario.plus_one h3 = Except.ok res ∧
        res.result.empty = true ∧ res.calls = 0) ∧
      scenario.observer.operator_star h3 = Except.error Stuck.undefined_behaviour := by
  refine ⟨_, _, _, _, _, rfl, rfl, rfl, ?_, ?_, ?_, ⟨_, rfl⟩, ⟨_, rfl⟩, ⟨_, rfl⟩,
    ⟨_, rfl, ?_, ?_⟩, ?_⟩ <;> rfl

/-- C15 as stated fails: `get( )` on the Owner and on an Observer returns the
resource pointer itself while the borrow lock is free and no Locked Handle
exists. -/
theorem C15_get_returns_raw_pointer :
    scenario.owner.get scenario.start = Except.ok (some 0) ∧
    scenario.observer.get scenario.start = Except.ok (some 0) ∧
    (scenario.start.cbs 1).map (fun c => c.m_is_borrowed) = some false := by
  refine ⟨?_, ?_, ?_⟩ <;> rfl

/-- C15, amended: `try_borrow`, `borrow` and `operator->` of the Owner and of an
Observer yield the resource only inside a Locked Handle that holds the borrow
lock: whenever the handle they return has a non-null pointer, its exit callback
is the one that unlocks this control block, the lock was free before and is
held afterwards, and the pointer is the control block's resource pointer.
`get( )` returns the control block's resource pointer without taking the
lock. -/
theorem C15_borrow_results_hold_lock {T : Type} (a : Nat) (c : impl.control_block_t)
    (h : Heap T) (hc : h.cbs a = some c) :
    observable_ptr.get { m_control_block := some a } h = Except.ok c.m_ptr ∧
    observer_ptr.get { m_control_block := some a } h = Except.ok c.m_ptr ∧
    (∀ (p : impl.locked_ptr) (h1 : Heap T) (q : Nat),
      (observable_ptr.try_borrow { m_control_block := some a } h = Except.ok (p, h1) ∨
       observer_ptr.try_borrow { m_control_block := some a } h = Except.ok (p, h1) ∨
       observable_ptr.borrow { m_control_block := some a } h = Except.ok (p, h1) ∨
       observer_ptr.borrow { m_control_block := some a } h = Except.ok (p, h1) ∨
       observable_ptr.operator_arrow { m_control_block := some a } h = Except.ok (p, h1) ∨
       observer_ptr.operator_arrow { m_control_block := some a } h = Except.ok (p, h1)) →
      p.m_ptr = some q →
      p.m_on_exit = impl.on_exit_t.unlock a ∧ c.m_is_borrowed = false ∧
      c.m_ptr = some q ∧ h1.cbs a = some { c with m_is_borrowed := true }) := by
  refine ⟨by simp [observable_ptr.get, hc, impl.control_block_t.get],
    by simp [observer_ptr.get, hc, impl.control_block_t.get], ?_⟩
  intro p h1 q hcase hq
  have htry : observer_ptr.try_borrow { m_control_block := some a } h = Except.ok (p, h1) ∨
      observer_ptr.borrow { m_control_block := some a } h = Except.ok (p, h1) := by
    rcases hcase with h | h | h | h | h | h
    · exact Or.inl h
    · exact Or.inl h
    · exact Or.inr h
    · exact Or.inr h
    · exact Or.inr h
    · exact Or.inr h
  rcases htry with ht | hb
  · obtain ⟨c2, hc2, hcase2⟩ := try_borrow_ok a h (p, h1) ht
    rw [hc] at hc2
    cases hc2
    rcases hcase2 with ⟨_, hp, _⟩ | ⟨hfree, hp, hh⟩
    · simp only at hp
      subst hp
      simp at hq
    · simp only at hp hh
      subst hp hh
      simp only at hq
      exact ⟨rfl, hfree, hq, by simp [Heap.store]⟩
  · obtain ⟨c2, hc2, hfree, hp, hh⟩ := borrow_ok a h (p, h1) hb
    rw [hc] at hc2
    cases hc2
    simp only at hp hh
    subst hp hh
    simp only at hq
    exact ⟨rfl, hfree, hq, by simp [Heap.store]⟩

/-- Witness for C15: the Owner around 42 borrows. -/
theorem C15_borrow_results_hold_lock_witness :
    observable_ptr.get { m_control_block := some 1 } scenario.start = Except.ok (some 0) ∧
    ((scenario.start.store 1
        { impl.control_block_t.construct (some 0) with m_is_borrowed := true }).cbs 1
      = some { impl.control_block_t.construct (some 0) with m_is_borrowed := true }) :=
  ⟨(C15_borrow_results_hold_lock 1 (impl.control_block_t.construct (some 0))
      scenario.start rfl).1,
   ((C15_borrow_results_hold_lock 1 (impl.control_block_t.construct (some 0))
      scenario.start rfl).2.2
      { m_ptr := some 0, m_on_exit := impl.on_exit_t.unlock 1 }
      (scenario.start.store 1
        { impl.control_block_t.construct (some 0) with m_is_borrowed := true })
      0 (Or.inr (Or.inr (Or.inl rfl))) rfl).2.2.2⟩

/-- C16: with the lock free, the Locked Handle returned by `borrow` or
`try_borrow` makes the lock held, and destroying it makes the lock free again
and leaves the control block, the resources and the deletion records exactly as
they were before the borrow; with the lock held, the empty Locked Handle that
`try_borrow` returns, and the one a handle with a null control block returns,
are destroyed without any change, so the lock stays held. -/
theorem C16_locked_ptr_destruction {T : Type} (a : Nat) (c : impl.control_block_t)
    (h : Heap T) (hc : h.cbs a = some c) :
    (c.m_is_borrowed = false →
      ∀ (p : impl.locked_ptr) (h1 : Heap T),
        (observer_ptr.borrow { m_control_block := some a } h = Except.ok (p, h1) ∨
         observer_ptr.try_borrow { m_control_block := some a } h = Except.ok (p, h1) ∨
         observable_ptr.borrow { m_control_block := some a } h = Except.ok (p, h1) ∨
         observable_ptr.try_borrow { m_control_block := some a } h = Except.ok (p, h1)) →
        h1.cbs a = some { c with m_is_borrowed := true } ∧
        ∃ h2, p.destroy h1 = Except.ok h2 ∧ h2.cbs a = some c ∧
          (∀ b, b ≠ a → h2.cbs b = h.cbs b) ∧
          h2.objs = h.objs ∧ h2.deleted = h.deleted ∧ h2.freed = h.freed) ∧
    (c.m_is_borrowed = true →
      ∀ (p : impl.locked_ptr) (h1 : Heap T),
        (observer_ptr.try_borrow { m_control_block := some a } h = Except.ok (p, h1) ∨
         observable_ptr.try_borrow { m_control_block := some a } h = Except.ok (p, h1)) →
        p.to_bool = false ∧ h1.cbs a = some c ∧ p.destroy h1 = Except.ok h1) ∧
    (∀ (p : impl.locked_ptr) (h1 : Heap T),
      (observer_ptr.try_borrow { m_control_block := none } h = Except.ok (p, h1) ∨
       observer_ptr.borrow { m_control_block := none } h = Except.ok (p, h1) ∨
       observable_ptr.try_borrow { m_control_block := none } h = Except.ok (p, h1) ∨
       observable_ptr.borrow { m_control_block := none } h = Except.ok (p, h1)) →
      h1 = h ∧ p.destroy h1 = Except.ok h) := by
  refine ⟨?_, ?_, ?_⟩
  · intro hfree p h1 hcase
    have hp : p = { m_ptr := c.m_ptr, m_on_exit := impl.on_exit_t.unlock a } ∧
        h1 = h.store a { c with m_is_borrowed := true } := by
      have hcase2 : observer_ptr.borrow { m_control_block := some a } h = Except.ok (p, h1) ∨
          observer_ptr.try_borrow { m_control_block := some a } h = Except.ok (p, h1) := by
        rcases hcase with h | h | h | h
        · exact Or.inl h
        · exact Or.inr h
        · exact Or.inl h
        · exact Or.inr h
      rcases hcase2 with hb | ht
      · obtain ⟨c2, hc2, _, e1, e2⟩ := borrow_ok a h (p, h1) hb
        rw [hc] at hc2
        cases hc2
        exact ⟨e1, e2⟩
      · obtain ⟨c2, hc2, hcase3⟩ := try_borrow_ok a h (p, h1) ht
        rw [hc] at hc2
        cases hc2
        rcases hcase3 with ⟨hheld, _, _⟩ | ⟨_, e1, e2⟩
        · rw [hfree] at hheld
          cases hheld
        · exact ⟨e1, e2⟩
    obtain ⟨e1, e2⟩ := hp
    subst e1 e2
    obtain ⟨ptr, d, o, b, n⟩ := c
    simp only at hfree
    subst hfree
    refine ⟨by simp [Heap.store], ?_⟩
    simp only [impl.locked_ptr.destroy, Heap.store, Function.update_same]
    refine ⟨_, rfl, by simp, ?_, rfl, rfl, rfl⟩
    intro b hb
    simp [Function.update_noteq hb]
  · intro hheld p h1 hcase
    have ht : observer_ptr.try_borrow { m_control_block := some a } h = Except.ok (p, h1) := by
      rcases hcase with h | h
      · exact h
      · exact h
    obtain ⟨c2, hc2, hcase3⟩ := try_borrow_ok a h (p, h1) ht
    rw [hc] at hc2
    cases hc2
    rcases hcase3 with ⟨_, e1, e2⟩ | ⟨hfree, _, _⟩
    · simp only at e1 e2
      subst e1 e2
      simp [impl.locked_ptr.to_bool, impl.locked_ptr.destroy, Heap.store]
    · rw [hheld] at hfree
      cases hfree
  · intro p h1 hcase
    have hp : p = { m_ptr := none, m_on_exit := impl.on_exit_t.nothing } ∧ h1 = h := by
      rcases hcase with h | h | h | h <;>
        simp [observer_ptr.try_borrow, observer_ptr.borrow, observable_ptr.try_borrow,
          observable_ptr.borrow] at h <;> exact ⟨h.1.symm, h.2.symm⟩
    obtain ⟨e1, e2⟩ := hp
    subst e1 e2
    simp [impl.locked_ptr.destroy]

/-- Witness for C16: an Observer borrows the value 42 and destroys the Locked
Handle. -/
theorem C16_locked_ptr_destruction_witness :
    ∃ h2 : Heap Nat,
      impl.locked_ptr.destroy { m_ptr := some 0, m_on_exit := impl.on_exit_t.unlock 1 }
        (scenario.start.store 1
          { impl.control_block_t.construct (some 0) with m_is_borrowed := true })
        = Except.ok h2 ∧
      h2.cbs 1 = some (impl.control_block_t.construct (some 0)) ∧
      (∀ b, b ≠ 1 → h2.cbs b = scenario.start.cbs b) ∧
      h2.objs = scenario.start.objs ∧ h2.deleted = scenario.start.deleted ∧
      h2.freed = scenario.start.freed :=
  ((C16_locked_ptr_destruction 1 (impl.control_block_t.construct (some 0))
      scenario.start rfl).1 rfl
    { m_ptr := some 0, m_on_exit := impl.on_exit_t.unlock 1 }
    (scenario.start.store 1
      { impl.control_block_t.construct (some 0) with m_is_borrowed := true })
    (Or.inl rfl)).2

/-- C17 as stated fails at the top of the counter's range: copying an Observer
of a live control block with 32767 registered Observers leaves `observer_count`
at -32768, which is not one more than 32767. -/
theorem C17_copy_wraps_counter :
    scenario.full.observer_count 1 = some 32767 ∧
    scenario.full.destruction_requested 1 = some false ∧
    ∃ (o2 : observer_ptr) (h1 : Heap Nat),
      scenario.observer.copy scenario.full = Except.ok (o2, h1) ∧
      h1.observer_count 1 = some (-32768) ∧ h1.observer_count 1 ≠ some (32767 + 1) := by
  refine ⟨rfl, rfl, _, _, rfl, rfl, ?_⟩
  decide

/-- C17, amended: copy-constructing an Observer from an Observer whose control
block is alive binds the copy to the same control block. If the control block
is not expired, `observer_count` increases by exactly one, except that from
32767 the `int16_t` counter wraps to -32768, and nothing else in the control
block changes; if it is expired, the control block is unchanged and the copy's
`operator bool` is false. Copy assignment from a different object does the
same. -/
theorem C17_copy_construction {T : Type} (a : Nat) (c : impl.control_block_t) (h : Heap T)
    (hc : h.cbs a = some c)
    (hrange : -32768 ≤ c.m_observer_count ∧ c.m_observer_count ≤ 32767) :
    (c.expired = false →
      ∃ h1, observer_ptr.copy { m_control_block := some a } h
          = Except.ok ({ m_control_block := some a }, h1) ∧
        (∀ self, observer_ptr.copy_assign self { m_control_block := some a } false h
          = Except.ok ({ m_control_block := some a }, h1)) ∧
        (c.m_observer_count < 32767 →
          h1.cbs a = some { c with m_observer_count := c.m_observer_count + 1 }) ∧
        (c.m_observer_count = 32767 →
          h1.cbs a = some { c with m_observer_count := -32768 }) ∧
        observer_ptr.to_bool { m_control_block := some a } h1 = Except.ok true) ∧
    (c.expired = true →
      ∃ h1, observer_ptr.copy { m_control_block := some a } h
          = Except.ok ({ m_control_block := some a }, h1) ∧
        (∀ self, observer_ptr.copy_assign self { m_control_block := some a } false h
          = Except.ok ({ m_control_block := some a }, h1)) ∧
        h1.cbs a = some c ∧
        observer_ptr.to_bool { m_control_block := some a } h1 = Except.ok false) := by
  obtain ⟨p, d, o, b, n⟩ := c
  simp only at hrange
  constructor
  · intro hd
    simp only [impl.control_block_t.expired] at hd
    subst hd
    refine ⟨h.store a (impl.control_block_t.add_observer ⟨p, false, o, b, n⟩).2,
      by simp [observer_ptr.copy, hc], ?_, ?_, ?_, ?_⟩
    · intro self
      simp [observer_ptr.copy_assign, hc]
    · intro hlt
      simp only at hlt
      have : wrap16 (n + 1) = n + 1 := by
        unfold wrap16
        omega
      simp [impl.control_block_t.add_observer, Heap.store, this]
    · intro heq
      subst heq
      simp [impl.control_block_t.add_observer, Heap.store, wrap16]
    · simp [observer_ptr.to_bool, impl.control_block_t.add_observer, Heap.store,
        impl.control_block_t.expired]
  · intro hd
    simp only [impl.control_block_t.expired] at hd
    subst hd
    refine ⟨h.store a (impl.control_block_t.add_observer ⟨p, true, o, b, n⟩).2,
      by simp [observer_ptr.copy, hc], ?_, ?_, ?_⟩
    · intro self
      simp [observer_ptr.copy_assign, hc]
    · simp [impl.control_block_t.add_observer, Heap.store]
    · simp [observer_ptr.to_bool, impl.control_block_t.add_observer, Heap.store,
        impl.control_block_t.expired]

/-- Witness for C17: the Observer of the Owner around 42 is copied; the count
goes from 0 to 1. -/
theorem C17_copy_construction_witness :
    ∃ h1 : Heap Nat, observer_ptr.copy { m_control_block := some 1 } scenario.start
        = Except.ok ({ m_control_block := some 1 }, h1) ∧
      h1.cbs 1 = some { impl.control_block_t.construct (some 0) with
        m_observer_count := 0 + 1 } := by
  obtain ⟨h1, e1, _, e3, _⟩ :=
    (C17_copy_construction 1 (impl.control_block_t.construct (some 0)) scenario.start rfl
      (by decide)).1 rfl
  exact ⟨h1, e1, e3 (by decide)⟩

/-- C18: for every `expected_t` exactly one of `empty( )`, `has_value( )` and
`has_exception( )` is true, and `operator bool` is `!empty( )`. In particular
the default-constructed and the cleared one are empty, one built from a value
has a value, one built from or set to an exception pointer is empty when the
pointer is null and has an exception otherwise, and `from_code` yields one that
has a value or an exception. -/
theorem C18_expected_states {E R A : Type} (e : expected_t E R) :
    ((e.empty = true ∧ e.has_value = false ∧ e.has_exception = false) ∨
     (e.empty = false ∧ e.has_value = true ∧ e.has_exception = false) ∨
     (e.empty = false ∧ e.has_value = false ∧ e.has_exception = true)) ∧
    e.to_bool = !e.empty ∧
    (expected_t.construct : expected_t E R).empty = true ∧
    e.clear.empty = true ∧
    (∀ v : R, (expected_t.of_value v : expected_t E R).has_value = true) ∧
    (∀ x : E, (expected_t.of_exception_ptr (some x) : expected_t E R).has_exception = true ∧
      (e.set_exception (some x)).has_exception = true) ∧
    ((expected_t.of_exception_ptr none : expected_t E R).empty = true ∧
      (e.set_exception none).empty = true) ∧
    (∀ (func : A → A × Except E R) (arg : A),
      (expected_t.from_code func arg).1.empty = false) := by
  refine ⟨?_, rfl, rfl, rfl, fun _ => rfl, fun _ => ⟨rfl, rfl⟩, ⟨rfl, rfl⟩, ?_⟩
  · obtain ⟨m⟩ := e
    cases m with
    | value v => simp [expected_t.empty, expected_t.has_value, expected_t.has_exception]
    | exception_ptr ptr =>
      cases ptr <;>
        simp [expected_t.empty, expected_t.has_value, expected_t.has_exception]
  · intro func arg
    simp only [expected_t.from_code, expected_t.variant_from_code]
    rcases hfa : func arg with ⟨arg1, r⟩
    cases r <;> simp [expected_t.empty]

/-- C19: `get( )` and `operator*` return a value exactly when `has_value( )` is
true, and then it is the stored value; when `has_exception( )` is true they
rethrow exactly the captured exception; when `empty( )` is true they throw
`std::logic_error( "Unexpected empty state" )`. -/
theorem C19_expected_get {E R : Type} (e : expected_t E R) :
    e.operator_star = e.get ∧
    (e.has_value = true ↔ ∃ v, e.get = Except.ok v) ∧
    (∀ v, e.get = Except.ok v ↔ e.m_value = variant.value v) ∧
    (e.has_exception = true ↔ ∃ x, e.m_value = variant.exception_ptr (some x)) ∧
    (∀ x, e.m_value = variant.exception_ptr (some x) →
      e.get = Except.error (thrown.rethrown x)) ∧
    (e.empty = true ↔
      e.get = Except.error (thrown.logic_error "Unexpected empty state")) := by
  obtain ⟨m⟩ := e
  cases m with
  | value v =>
    simp [expected_t.operator_star, expected_t.get, expected_t.has_value,
      expected_t.has_exception, expected_t.empty]
  | exception_ptr ptr =>
    cases ptr <;>
      simp [expected_t.operator_star, expected_t.get, expected_t.has_value,
        expected_t.has_exception, expected_t.empty]

/-- C20, evaluated on the code: `are_same_types<int, int, double>::value` is
true, because the specialisation for three or more types combines with `or`;
in general the value is true exactly when some type of the pack is the same as
`T`, not when all are. -/
theorem C20_are_same_types_is_any :
    traits.are_same_types_v traits.cpp_type.int
      [traits.cpp_type.int, traits.cpp_type.double] = true ∧
    traits.are_same_types_v traits.cpp_type.int
      [traits.cpp_type.double, traits.cpp_type.char, traits.cpp_type.int] = true ∧
    (∀ (T : traits.cpp_type) (Ts : List traits.cpp_type),
      traits.are_same_types_v T Ts = true ↔ T ∈ Ts) := by
  refine ⟨by decide, by decide, ?_⟩
  intro T Ts
  unfold traits.are_same_types_v
  induction Ts with
  | nil => simp [traits.are_same_types]
  | cons x xs ih =>
    cases xs with
    | nil => simp [traits.are_same_types]
    | cons y ys =>
      simp only [traits.are_same_types, Bool.or_eq_true, decide_eq_true_eq, List.mem_cons]
      simp only [List.mem_cons] at ih
      rw [ih]

/-- What a returning copy construction did. -/
theorem copy_ok_spec {T : Type} (o : observer_ptr) (h : Heap T) (r : observer_ptr × Heap T)
    (hr : o.copy h = Except.ok r) :
    ∃ a c, o.m_control_block = some a ∧ h.cbs a = some c ∧
      r.1 = { m_control_block := some a } ∧ r.2 = h.store a c.add_observer.2 := by
  unfold observer_ptr.copy at hr
  cases ho : o.m_control_block with
  | none => simp [ho] at hr
  | some a =>
    simp only [ho] at hr
    cases hc : h.cbs a with
    | none => simp [hc] at hr
    | some c =>
      simp only [hc, Except.ok.injEq] at hr
      subst hr
      exact ⟨a, c, rfl, hc, rfl, rfl⟩

/-- What a returning copy assignment did. -/
theorem copy_assign_ok_spec {T : Type} (self rhs : observer_ptr) (same : Bool) (h : Heap T)
    (r : observer_ptr × Heap T) (hr : self.copy_assign rhs same h = Except.ok r) :
    (same = true ∧ r = (self, h)) ∨
    (same = false ∧ ∃ a c, rhs.m_control_block = some a ∧ h.cbs a = some c ∧
      r.1 = { m_control_block := some a } ∧ r.2 = h.store a c.add_observer.2) := by
  unfold observer_ptr.copy_assign at hr
  cases same with
  | true =>
    simp at hr
    exact Or.inl ⟨rfl, hr.symm⟩
  | false =>
    simp only [Bool.false_eq_true, if_false] at hr
    right
    refine ⟨rfl, ?_⟩
    cases ho : rhs.m_control_block with
    | none => simp [ho] at hr
    | some a =>
      simp only [ho] at hr
      cases hc : h.cbs a with
      | none => simp [hc] at hr
      | some c =>
        simp only [hc, Except.ok.injEq] at hr
        subst hr
        exact ⟨a, c, rfl, hc, rfl, rfl⟩

/-- What a returning Observer destruction did. -/
theorem destroy_ok_spec {T : Type} (o : observer_ptr) (h h1 : Heap T)
    (hr : o.destroy h = Except.ok h1) :
    (o.m_control_block = none ∧ h1 = h) ∨
    (∃ a, o.m_control_block = some a ∧
      impl.control_block_t.remove_observer (some a) h = Except.ok h1) := by
  unfold observer_ptr.destroy observer_ptr.reset at hr
  cases ho : o.m_control_block with
  | none =>
    simp [ho] at hr
    exact Or.inl ⟨rfl, hr.symm⟩
  | some a =>
    simp only [ho] at hr
    right
    refine ⟨a, rfl, ?_⟩
    cases hrem : impl.control_block_t.remove_observer (some a) h with
    | error e => simp [hrem] at hr
    | ok h2 =>
      simp [hrem] at hr
      rw [hr]

/-- C26: when `remove_owner` returns, the resource has been deleted whatever
`observer_count` is: a non-null resource pointer is handed to `delete`, and the
control block, if it is still allocated, has a null resource pointer and the
flag set; it stays allocated exactly when `observer_count > 0` (the once flag
being unset). When `remove_observer` returns on a control block whose flag is
set, the same holds with the decremented count. -/
theorem C26_resource_deleted_regardless_of_count {T : Type} (a : Nat)
    (c : impl.control_block_t) (h : Heap T) (hc : h.cbs a = some c)
    (hfree : c.m_is_borrowed = false) (honce : c.m_cb_destruct = false) :
    (∃ h1, impl.control_block_t.remove_owner (some a) h = Except.ok h1 ∧
      h1.deleted = h.deleted ++ c.m_ptr.toList ∧
      (∀ q, c.m_ptr = some q → h1.objs q = none) ∧
      (0 < c.m_observer_count →
        h1.cbs a = some { c with m_ptr := none, m_ptr_destruct := true } ∧ h1.freed = h.freed) ∧
      (c.m_observer_count ≤ 0 → h1.cbs a = none ∧ h1.freed = h.freed ++ [a])) ∧
    (c.m_ptr_destruct = true →
      ∃ h1, impl.control_block_t.remove_observer (some a) h = Except.ok h1 ∧
        h1.deleted = h.deleted ++ c.m_ptr.toList ∧
        (∀ q, c.m_ptr = some q → h1.objs q = none) ∧
        (0 < wrap16 (c.m_observer_count - 1) →
          h1.cbs a = some
            { m_ptr := none, m_ptr_destruct := true, m_cb_destruct := false,
              m_is_borrowed := false,
              m_observer_count := wrap16 (c.m_observer_count - 1) } ∧
          h1.freed = h.freed) ∧
        (wrap16 (c.m_observer_count - 1) ≤ 0 →
          h1.cbs a = none ∧ h1.freed = h.freed ++ [a])) := by
  obtain ⟨p, d, o, b, n⟩ := c
  simp only at hfree honce
  subst hfree honce
  constructor
  · by_cases hn : n ≤ 0 <;> cases p <;>
      simp [impl.control_block_t.remove_owner, hc, hn, impl.control_block_t.remove_owner_lck,
        impl.control_block_t.destruct_if_should, impl.control_block_t.destruct_cb,
        Heap.store, Heap.delete_obj, Heap.delete_cb]
  · intro hd
    simp only at hd
    subst hd
    by_cases hn : wrap16 (n - 1) ≤ 0 <;> cases p <;>
      simp [impl.control_block_t.remove_observer, hc, hn,
        impl.control_block_t.remove_observer_lck,
        impl.control_block_t.destruct_if_should, impl.control_block_t.destruct_cb,
        Heap.store, Heap.delete_obj, Heap.delete_cb]

/-- Witness for C26: the Owner around 42 is destroyed while one Observer copy
is registered; the value is deleted and the control block stays. -/
theorem C26_resource_deleted_regardless_of_count_witness :
    ∃ h1 : Heap Nat,
      impl.control_block_t.remove_owner (some 1)
        (scenario.start.store 1
          { impl.control_block_t.construct (some 0) with m_observer_count := 1 })
        = Except.ok h1 ∧
      h1.deleted = [0] ∧ h1.objs 0 = none ∧
      h1.cbs 1 = some
        { m_ptr := none, m_ptr_destruct := true, m_cb_destruct := false,
          m_is_borrowed := false, m_observer_count := 1 } := by
  obtain ⟨h1, e1, e2, e3, e4, _⟩ :=
    (C26_resource_deleted_regardless_of_count 1
      { impl.control_block_t.construct (some 0) with m_observer_count := 1 }
      (scenario.start.store 1
        { impl.control_block_t.construct (some 0) with m_observer_count := 1 })
      (by simp [Heap.store]) rfl rfl).1
  exact ⟨h1, e1, e2, e3 0 rfl, (e4 (by decide)).1⟩

/-- A control block other than the one `remove_observer` or `remove_owner` runs
on is left as it is. -/
theorem remove_frame {T : Type} (a : Nat) (h h1 : Heap T)
    (hr : impl.control_block_t.remove_observer (some a) h = Except.ok h1 ∨
          impl.control_block_t.remove_owner (some a) h = Except.ok h1) :
    ∀ b, b ≠ a → h1.cbs b = h.cbs b := by
  intro b hb
  rcases hr with hr | hr
  · unfold impl.control_block_t.remove_observer at hr
    simp only at hr
    cases hc : h.cbs a with
    | none => simp [hc] at hr
    | some c =>
      simp only [hc] at hr
      obtain ⟨p, d, o, f, n⟩ := c
      cases f with
      | true => simp at hr
      | false =>
        by_cases hn : wrap16 (n - 1) ≤ 0 <;> cases d <;> cases o <;> cases p <;>
          simp [hn, impl.control_block_t.remove_observer_lck,
            impl.control_block_t.destruct_if_should, impl.control_block_t.destruct_cb,
            Heap.store, Heap.delete_obj, Heap.delete_cb] at hr <;>
          subst hr <;> simp [Function.update_noteq hb]
  · unfold impl.control_block_t.remove_owner at hr
    simp only at hr
    cases hc : h.cbs a with
    | none => simp [hc] at hr
    | some c =>
      simp only [hc] at hr
      obtain ⟨p, d, o, f, n⟩ := c
      cases f with
      | true => simp at hr
      | false =>
        by_cases hn : n ≤ 0 <;> cases d <;> cases o <;> cases p <;>
          simp [hn, impl.control_block_t.remove_owner_lck,
            impl.control_block_t.destruct_if_should, impl.control_block_t.destruct_cb,
            Heap.store, Heap.delete_obj, Heap.delete_cb] at hr <;>
          subst hr <;> simp [Function.update_noteq hb]

/-- The destruction flag a returning static `remove_observer` or `remove_owner`
leaves in a control block that is still alive afterwards. -/
theorem remove_flag_spec {T : Type} (a : Nat) (c : impl.control_block_t) (h h1 : Heap T)
    (hc : h.cbs a = some c) :
    (impl.control_block_t.remove_observer (some a) h = Except.ok h1 →
      ∀ c1, h1.cbs a = some c1 → c1.m_ptr_destruct = c.m_ptr_destruct) ∧
    (impl.control_block_t.remove_owner (some a) h = Except.ok h1 →
      ∀ c1, h1.cbs a = some c1 → c1.m_ptr_destruct = true) := by
  obtain ⟨p, d, o, f, n⟩ := c
  constructor
  · intro hr c1 hc1
    unfold impl.control_block_t.remove_observer at hr
    simp only [hc] at hr
    cases f with
    | true => simp at hr
    | false =>
      by_cases hn : wrap16 (n - 1) ≤ 0 <;> cases d <;> cases o <;> cases p <;>
        simp [hn, impl.control_block_t.remove_observer_lck,
          impl.control_block_t.destruct_if_should, impl.control_block_t.destruct_cb,
          Heap.store, Heap.delete_obj, Heap.delete_cb] at hr <;>
        subst hr <;> simp at hc1 <;> (try subst hc1) <;> simp
  · intro hr c1 hc1
    unfold impl.control_block_t.remove_owner at hr
    simp only [hc] at hr
    cases f with
    | true => simp at hr
    | false =>
      by_cases hn : n ≤ 0 <;> cases d <;> cases o <;> cases p <;>
        simp [hn, impl.control_block_t.remove_owner_lck,
          impl.control_block_t.destruct_if_should, impl.control_block_t.destruct_cb,
          Heap.store, Heap.delete_obj, Heap.delete_cb] at hr <;>
        subst hr <;> simp at hc1 <;> (try subst hc1) <;> simp

/-- `add_observer` leaves the destruction flag as it is. -/
theorem add_observer_flag (c : impl.control_block_t) :
    c.add_observer.2.m_ptr_destruct = c.m_ptr_destruct := by
  unfold impl.control_block_t.add_observer
  split <;> rfl

/-- The flag of the control block at `cb` after a store at address `a`. -/
theorem store_flag {T : Type} (h : Heap T) (a cb : Nat) (c c2 c1 : impl.control_block_t)
    (hc : h.cbs cb = some c) (ha : a = cb → c2.m_ptr_destruct = c.m_ptr_destruct)
    (hc1 : (h.store a c2).cbs cb = some c1) : c1.m_ptr_destruct = c.m_ptr_destruct := by
  by_cases hab : a = cb
  · subst hab
    simp [Heap.store] at hc1
    subst hc1
    exact ha rfl
  · have hne : cb ≠ a := fun e => hab e.symm
    simp [Heap.store, Function.update_noteq hne, hc] at hc1
    subst hc1
    rfl

/-- C27: `destruction_requested` is false in a freshly constructed control
block; `try_borrow`, `borrow`, `add_observer`, `destruct_if_should` and the
member `remove_observer` leave it as it is and the member `remove_owner` sets
it; and in every step of the borrow protocol and of the handle operations, the
flag of a control block that is alive before and after either keeps its value
or the step is the Owner's destruction and the flag is true afterwards. So it
never goes back from true to false. -/
theorem C27_destruction_requested_monotone {T : Type} :
    (∀ ptr, (impl.control_block_t.construct ptr).m_ptr_destruct = false) ∧
    (∀ (c : impl.control_block_t) (self : Nat),
      (c.try_borrow self).2.m_ptr_destruct = c.m_ptr_destruct ∧
      (∀ r, c.borrow self = Except.ok r → r.2.m_ptr_destruct = c.m_ptr_destruct) ∧
      c.add_observer.2.m_ptr_destruct = c.m_ptr_destruct ∧
      c.destruct_if_should.1.m_ptr_destruct = c.m_ptr_destruct ∧
      c.remove_observer_lck.2.1.m_ptr_destruct = c.m_ptr_destruct ∧
      c.remove_owner_lck.2.1.m_ptr_destruct = true) ∧
    (∀ (cb : Nat) (s s1 : System T) (act : Action) (c c1 : impl.control_block_t),
      s.step cb act = Except.ok s1 → s.heap.cbs cb = some c → s1.heap.cbs cb = some c1 →
      c1.m_ptr_destruct = c.m_ptr_destruct ∨
        (act = Action.remove_owner ∧ c1.m_ptr_destruct = true)) ∧
    (∀ (cb : Nat) (w w1 : World T) (op : Op) (c c1 : impl.control_block_t),
      w.step op = Except.ok w1 → w.heap.cbs cb = some c → w1.heap.cbs cb = some c1 →
      c1.m_ptr_destruct = c.m_ptr_destruct ∨
        (op = Op.destroy_owner ∧ c1.m_ptr_destruct = true)) := by
  refine ⟨fun _ => rfl, ?_, ?_, ?_⟩
  · intro c self
    obtain ⟨p, d, o, b, n⟩ := c
    refine ⟨?_, ?_, ?_, ?_, ?_, ?_⟩
    · cases b <;> simp [impl.control_block_t.try_borrow]
    · intro r hr
      cases b <;> simp [impl.control_block_t.borrow] at hr
      subst hr
      rfl
    · exact add_observer_flag _
    · cases d <;> simp [impl.control_block_t.destruct_if_should]
    · cases d <;>
        simp [impl.control_block_t.remove_observer_lck,
          impl.control_block_t.destruct_if_should]
    · simp [impl.control_block_t.remove_owner_lck, impl.control_block_t.destruct_if_should]
  · intro cb s s1 act c c1 hs hc hc1
    cases act with
    | try_borrow owner =>
      left
      obtain ⟨c2, hc2, hcase⟩ := step_try_borrow_ok cb s s1 owner hs
      rw [hc] at hc2
      cases hc2
      rcases hcase with ⟨_, hh, _⟩ | ⟨_, hh, _⟩
      · rw [hh] at hc1
        exact store_flag s.heap cb cb c c c1 hc (fun _ => rfl) hc1
      · rw [hh] at hc1
        exact store_flag s.heap cb cb c { c with m_is_borrowed := true } c1 hc (fun _ => rfl) hc1
    | borrow owner =>
      left
      obtain ⟨c2, hc2, _, hh, _⟩ := step_borrow_ok cb s s1 owner hs
      rw [hc] at hc2
      cases hc2
      rw [hh] at hc1
      exact store_flag s.heap cb cb c { c with m_is_borrowed := true } c1 hc (fun _ => rfl) hc1
    | release i =>
      left
      obtain ⟨p, _, _, hcase⟩ := step_release_ok cb s s1 i hs
      rcases hcase with ⟨_, hh⟩ | ⟨a, c2, _, hc2, hh⟩
      · rw [hh, hc] at hc1
        cases hc1
        rfl
      · rw [hh] at hc1
        refine store_flag s.heap a cb c _ c1 hc ?_ hc1
        intro hab
        subst hab
        rw [hc] at hc2
        cases hc2
        rfl
    | remove_observer =>
      left
      obtain ⟨_, hr⟩ := step_remove_ok cb s s1 (Or.inl hs)
      have hr2 : impl.control_block_t.remove_observer (some cb) s.heap = Except.ok s1.heap := by
        simp only [System.step] at hs
        cases hx : impl.control_block_t.remove_observer (some cb) s.heap with
        | error e => simp [hx] at hs
        | ok h2 =>
          simp [hx] at hs
          subst hs
          rfl
      exact (remove_flag_spec cb c s.heap s1.heap hc).1 hr2 c1 hc1
    | remove_owner =>
      right
      have hr2 : impl.control_block_t.remove_owner (some cb) s.heap = Except.ok s1.heap := by
        simp only [System.step] at hs
        cases hx : impl.control_block_t.remove_owner (some cb) s.heap with
        | error e => simp [hx] at hs
        | ok h2 =>
          simp [hx] at hs
          subst hs
          rfl
      exact ⟨rfl, (remove_flag_spec cb c s.heap s1.heap hc).2 hr2 c1 hc1⟩
  · intro cb w w1 op c c1 hs hc hc1
    have same : w1.heap = w.heap → c1.m_ptr_destruct = c.m_ptr_destruct := by
      intro hh
      rw [hh, hc] at hc1
      cases hc1
      rfl
    cases op with
    | get_observer =>
      left
      simp only [World.step] at hs
      cases how : w.owner with
      | none => simp [how] at hs
      | some ow =>
        simp only [how, Except.ok.injEq] at hs
        subst hs
        exact same rfl
    | observer_get_observer i =>
      left
      simp only [World.step] at hs
      cases hoi : w.observers[i]? with
      | none => simp [hoi] at hs
      | some o =>
        simp only [hoi, Except.ok.injEq] at hs
        subst hs
        exact same rfl
    | copy i =>
      left
      simp only [World.step] at hs
      cases hoi : w.observers[i]? with
      | none => simp [hoi] at hs
      | some o =>
        simp only [hoi] at hs
        cases hcp : o.copy w.heap with
        | error e => simp [hcp] at hs
        | ok r =>
          simp only [hcp, Except.ok.injEq] at hs
          subst hs
          obtain ⟨a, c2, _, hca, _, hr2⟩ := copy_ok_spec o w.heap r hcp
          simp only [hr2] at hc1
          refine store_flag w.heap a cb c _ c1 hc ?_ hc1
          intro hab
          subst hab
          rw [hc] at hca
          cases hca
          exact add_observer_flag _
    | move i =>
      left
      simp only [World.step] at hs
      cases hoi : w.observers[i]? with
      | none => simp [hoi] at hs
      | some o =>
        simp only [hoi, Except.ok.injEq] at hs
        subst hs
        exact same rfl
    | copy_assign i j =>
      left
      simp only [World.step] at hs
      cases hoi : w.observers[i]? with
      | none => simp [hoi] at hs
      | some self =>
        cases hoj : w.observers[j]? with
        | none => simp [hoi, hoj] at hs
        | some rhs =>
          simp only [hoi, hoj] at hs
          cases hcp : self.copy_assign rhs (decide (i = j)) w.heap with
          | error e => simp [hcp] at hs
          | ok r =>
            simp only [hcp, Except.ok.injEq] at hs
            subst hs
            rcases copy_assign_ok_spec self rhs _ w.heap r hcp with
              ⟨_, hr⟩ | ⟨_, a, c2, _, hca, _, hr2⟩
            · subst hr
              exact same rfl
            · simp only [hr2] at hc1
              refine store_flag w.heap a cb c _ c1 hc ?_ hc1
              intro hab
              subst hab
              rw [hc] at hca
              cases hca
              exact add_observer_flag _
    | move_assign i j =>
      left
      simp only [World.step] at hs
      cases hoi : w.observers[i]? with
      | none => simp [hoi] at hs
      | some self =>
        cases hoj : w.observers[j]? with
        | none => simp [hoi, hoj] at hs
        | some rhs =>
          simp only [hoi, hoj, Except.ok.injEq] at hs
          subst hs
          exact same rfl
    | destroy_observer i =>
      left
      simp only [World.step] at hs
      cases hoi : w.observers[i]? with
      | none => simp [hoi] at hs
      | some o =>
        simp only [hoi] at hs
        cases hd : o.destroy w.heap with
        | error e => simp [hd] at hs
        | ok h1 =>
          simp only [hd, Except.ok.injEq] at hs
          subst hs
          simp only at hc1
          rcases destroy_ok_spec o w.heap h1 hd with ⟨_, he⟩ | ⟨a, _, hrem⟩
          · subst he
            rw [hc] at hc1
            cases hc1
            rfl
          · by_cases hab : cb = a
            · subst hab
              exact (remove_flag_spec cb c w.heap h1 hc).1 hrem c1 hc1
            · rw [remove_frame a w.heap h1 (Or.inl hrem) cb hab, hc] at hc1
              cases hc1
              rfl
    | destroy_owner =>
      simp only [World.step] at hs
      cases how : w.owner with
      | none => simp [how] at hs
      | some ow =>
        simp only [how] at hs
        cases hd : ow.destroy w.heap with
        | error e => simp [hd] at hs
        | ok h1 =>
          simp only [hd, Except.ok.injEq] at hs
          subst hs
          simp only at hc1
          cases hoa : ow.m_control_block with
          | none =>
            left
            simp [observable_ptr.destroy, hoa] at hd
            subst hd
            rw [hc] at hc1
            cases hc1
            rfl
          | some a =>
            have hrem : impl.control_block_t.remove_owner (some a) w.heap = Except.ok h1 := by
              simpa [observable_ptr.destroy, hoa] using hd
            by_cases hab : cb = a
            · subst hab
              right
              exact ⟨rfl, (remove_flag_spec cb c w.heap h1 hc).2 hrem c1 hc1⟩
            · left
              rw [remove_frame a w.heap h1 (Or.inr hrem) cb hab, hc] at hc1
              cases hc1
              rfl

/-- C28: on a control block that is alive with a null resource pointer and a
free lock, `borrow` and `try_borrow` (through the Owner or an Observer) return
a Locked Handle whose `operator bool` is false but whose exit callback unlocks
this control block; the lock is held from then on and is free again once the
handle is destroyed. On any live control block, a handle these operations
return with `operator bool` true carries the unlocking callback, found the lock
free, and the control block's resource pointer is non-null. -/
theorem C28_falsy_handle_holds_lock {T : Type} (a : Nat) (c : impl.control_block_t)
    (h : Heap T) (hc : h.cbs a = some c) :
    (c.m_ptr = none → c.m_is_borrowed = false →
      ∃ h1 h2,
        observer_ptr.borrow { m_control_block := some a } h
          = Except.ok ({ m_ptr := none, m_on_exit := impl.on_exit_t.unlock a }, h1) ∧
        observer_ptr.try_borrow { m_control_block := some a } h
          = Except.ok ({ m_ptr := none, m_on_exit := impl.on_exit_t.unlock a }, h1) ∧
        observable_ptr.borrow { m_control_block := some a } h
          = Except.ok ({ m_ptr := none, m_on_exit := impl.on_exit_t.unlock a }, h1) ∧
        observable_ptr.try_borrow { m_control_block := some a } h
          = Except.ok ({ m_ptr := none, m_on_exit := impl.on_exit_t.unlock a }, h1) ∧
        impl.locked_ptr.to_bool { m_ptr := none, m_on_exit := impl.on_exit_t.unlock a }
          = false ∧
        h1.cbs a = some { c with m_is_borrowed := true } ∧
        observer_ptr.borrow { m_control_block := some a } h1 = Except.error Stuck.blocks ∧
        impl.locked_ptr.destroy { m_ptr := none, m_on_exit := impl.on_exit_t.unlock a } h1
          = Except.ok h2 ∧
        h2.cbs a = some c) ∧
    (∀ (p : impl.locked_ptr) (h1 : Heap T),
      (observer_ptr.borrow { m_control_block := some a } h = Except.ok (p, h1) ∨
       observer_ptr.try_borrow { m_control_block := some a } h = Except.ok (p, h1) ∨
       observable_ptr.borrow { m_control_block := some a } h = Except.ok (p, h1) ∨
       observable_ptr.try_borrow { m_control_block := some a } h = Except.ok (p, h1)) →
      p.to_bool = true →
      p.m_on_exit = impl.on_exit_t.unlock a ∧ c.m_is_borrowed = false ∧
      c.m_ptr ≠ none ∧ h1.cbs a = some { c with m_is_borrowed := true }) := by
  constructor
  · intro hnull hfree
    obtain ⟨p, d, o, b, n⟩ := c
    simp only at hnull hfree
    subst hnull hfree
    refine ⟨h.store a ⟨none, d, o, true, n⟩, h.store a ⟨none, d, o, false, n⟩, ?_⟩
    simp [observer_ptr.borrow, observer_ptr.try_borrow, observable_ptr.borrow,
      observable_ptr.try_borrow, impl.control_block_t.borrow,
      impl.control_block_t.try_borrow, hc, impl.locked_ptr.to_bool,
      impl.locked_ptr.destroy, Heap.store]
  · intro p h1 hcase htrue
    have hcase2 : observer_ptr.borrow { m_control_block := some a } h = Except.ok (p, h1) ∨
        observer_ptr.try_borrow { m_control_block := some a } h = Except.ok (p, h1) := by
      rcases hcase with h | h | h | h
      · exact Or.inl h
      · exact Or.inr h
      · exact Or.inl h
      · exact Or.inr h
    rcases hcase2 with hb | ht
    · obtain ⟨c2, hc2, hfree, e1, e2⟩ := borrow_ok a h (p, h1) hb
      rw [hc] at hc2
      cases hc2
      simp only at e1 e2
      subst e1 e2
      refine ⟨rfl, hfree, ?_, by simp [Heap.store]⟩
      intro hnone
      simp [impl.locked_ptr.to_bool, hnone] at htrue
    · obtain ⟨c2, hc2, hcase3⟩ := try_borrow_ok a h (p, h1) ht
      rw [hc] at hc2
      cases hc2
      rcases hcase3 with ⟨_, e1, _⟩ | ⟨hfree, e1, e2⟩
      · simp only at e1
        subst e1
        simp [impl.locked_ptr.to_bool] at htrue
      · simp only at e1 e2
        subst e1 e2
        refine ⟨rfl, hfree, ?_, by simp [Heap.store]⟩
        intro hnone
        simp [impl.locked_ptr.to_bool, hnone] at htrue

/-- Witness for C28: an Observer borrows from the control block whose resource
has been deleted. -/
theorem C28_falsy_handle_holds_lock_witness :
    ∃ h1 h2 : Heap Nat,
      observer_ptr.borrow { m_control_block := some 1 } scenario.expired
        = Except.ok ({ m_ptr := none, m_on_exit := impl.on_exit_t.unlock 1 }, h1) ∧
      h1.cbs 1 = some { scenario.expired_cb with m_is_borrowed := true } ∧
      impl.locked_ptr.destroy { m_ptr := none, m_on_exit := impl.on_exit_t.unlock 1 } h1
        = Except.ok h2 ∧
      h2.cbs 1 = some scenario.expired_cb := by
  obtain ⟨h1, h2, e1, _, _, _, _, e6, _, e8, e9⟩ :=
    (C28_falsy_handle_holds_lock 1 scenario.expired_cb scenario.expired rfl).1 rfl rfl
  exact ⟨h1, h2, e1, e6, e8, e9⟩

/-- C30, evaluated on the code: `expected_from_code<Result>` calls the static
`from_code` on its default-constructed `result` and drops what the call
returns, so for every callable, also one that returns normally, it calls the
callable once and returns the empty `expected_t`; for the callable `v + 1` on 42
it has no value, while `from_code` and the overload that deduces the result
type hold 43. -/
theorem C30_expected_from_code_is_empty :
    (∀ {E R A : Type} (func : A → A × Except E R) (arg : A),
      (expected_from_code func arg).1 = expected_t.construct ∧
      (expected_from_code func arg).1.empty = true ∧
      (expected_from_code func arg).1.has_value = false ∧
      (expected_from_code func arg).2.2 = 1) ∧
    (expected_from_code scenario.plus_one 42).1.has_value = false ∧
    (expected_from_code scenario.plus_one 42).1.get
      = Except.error (thrown.logic_error "Unexpected empty state") ∧
    (expected_t.from_code scenario.plus_one 42).1.get = Except.ok 43 ∧
    (expected_from_code_deduced scenario.plus_one 42).1.get = Except.ok 43 ∧
    (expected_from_code scenario.plus_one 42).1
      ≠ (expected_t.from_code scenario.plus_one 42).1 := by
  refine ⟨?_, rfl, rfl, rfl, rfl, by decide⟩
  intro E R A func arg
  refine ⟨rfl, rfl, rfl, ?_⟩
  simp only [expected_from_code, expected_t.from_code, expected_t.variant_from_code]
  rcases func arg with ⟨arg1, r⟩
  cases r <;> rfl

/-- C29 as stated fails when the right-hand side is bound to the same control
block: with two Observers of the Owner around 42 (`observer_count` 0), copy
assigning the second to the first runs `add_observer` on that control block and
leaves `observer_count` at 1. -/
theorem C29_copy_assign_changes_count :
    ∃ w0 w1 : World Nat,
      World.run (World.initial (some 0) 1 scenario.heap42)
        [Op.get_observer, Op.observer_get_observer 0] = Except.ok w0 ∧
      w0.observers = [{ m_control_block := some 1 }, { m_control_block := some 1 }] ∧
      w0.heap.observer_count 1 = some 0 ∧
      w0.step (Op.copy_assign 0 1) = Except.ok w1 ∧
      w1.heap.observer_count 1 = some 1 := by
  refine ⟨_, _, rfl, rfl, rfl, rfl, rfl⟩

/-- C29, amended: assignment overwrites without releasing. Move assignment to
an Owner and to an Observer only exchanges the control block pointers and does
not touch the heap. Copy assignment to an Observer, whatever it was bound to,
deletes and deallocates nothing and leaves every control block `cb` with its
resource pointer, destruction flag, once flag and lock as they were; its
`observer_count` is as it was too, unless the right-hand side is a different
object bound to `cb` itself and `cb` is not expired, in which case
`add_observer` increments it. -/
theorem C29_assignment_does_not_release {T : Type} (cb : Nat) (c : impl.control_block_t)
    (h h1 : Heap T) (self rhs r : observer_ptr) (same : Bool)
    (hc : h.cbs cb = some c)
    (hr : self.copy_assign rhs same h = Except.ok (r, h1)) :
    (∀ (o1 o2 : observable_ptr),
      (observable_ptr.move_assign o1 o2 false).1.m_control_block = o2.m_control_block ∧
      (observable_ptr.move_assign o1 o2 false).2.m_control_block = none ∧
      observable_ptr.move_assign o1 o2 true = (o1, o2)) ∧
    (∀ (o1 o2 : observer_ptr),
      (observer_ptr.move_assign o1 o2 false).1.m_control_block = o2.m_control_block ∧
      (observer_ptr.move_assign o1 o2 false).2.m_control_block = none ∧
      observer_ptr.move_assign o1 o2 true = (o1, o2)) ∧
    h1.objs = h.objs ∧ h1.deleted = h.deleted ∧ h1.freed = h.freed ∧
    (∃ c1, h1.cbs cb = some c1 ∧
      c1.m_ptr = c.m_ptr ∧ c1.m_ptr_destruct = c.m_ptr_destruct ∧
      c1.m_cb_destruct = c.m_cb_destruct ∧ c1.m_is_borrowed = c.m_is_borrowed ∧
      ((same = true ∨ rhs.m_control_block ≠ some cb ∨ c.m_ptr_destruct = true) → c1 = c) ∧
      (same = false → rhs.m_control_block = some cb → c.m_ptr_destruct = false →
        c1.m_observer_count = wrap16 (c.m_observer_count + 1))) := by
  refine ⟨fun _ _ => ⟨rfl, rfl, rfl⟩, fun _ _ => ⟨rfl, rfl, rfl⟩, ?_⟩
  rcases copy_assign_ok_spec self rhs same h (r, h1) hr with
    ⟨hs, he⟩ | ⟨hs, a, c2, hoa, hca, _, hr2⟩
  · cases he
    exact ⟨rfl, rfl, rfl, c, hc, rfl, rfl, rfl, rfl, fun _ => rfl,
      fun hf => by rw [hs] at hf; cases hf⟩
  · simp only at hr2
    subst hr2
    refine ⟨rfl, rfl, rfl, ?_⟩
    by_cases hab : a = cb
    · subst hab
      rw [hc] at hca
      cases hca
      obtain ⟨p, d, o, b, n⟩ := c
      refine ⟨(impl.control_block_t.add_observer ⟨p, d, o, b, n⟩).2,
        by simp [Heap.store], ?_⟩
      cases d <;> simp [impl.control_block_t.add_observer, hs, hoa]
    · have hne : cb ≠ a := fun e => hab e.symm
      refine ⟨c, by simp [Heap.store, Function.update_noteq hne, hc], rfl, rfl, rfl, rfl,
        fun _ => rfl, ?_⟩
      intro _ hrhs
      rw [hoa] at hrhs
      injection hrhs with e
      exact absurd e hab

/-- Witness for C29: the second Observer of the Owner around 42 is null and the
first, bound to the control block, is copy assigned to it. -/
theorem C29_assignment_does_not_release_witness :
    ∃ h1 : Heap Nat,
      observer_ptr.copy_assign { m_control_block := none } { m_control_block := some 1 }
        false scenario.start = Except.ok ({ m_control_block := some 1 }, h1) ∧
      h1.objs = scenario.start.objs ∧ h1.deleted = scenario.start.deleted ∧
      h1.freed = scenario.start.freed :=
  ⟨_, rfl,
    (C29_assignment_does_not_release 1 (impl.control_block_t.construct (some 0))
      scenario.start _ { m_control_block := none } { m_control_block := some 1 }
      { m_control_block := some 1 } false rfl rfl).2.2.1,
    (C29_assignment_does_not_release 1 (impl.control_block_t.construct (some 0))
      scenario.start _ { m_control_block := none } { m_control_block := some 1 }
      { m_control_block := some 1 } false rfl rfl).2.2.2.1,
    (C29_assignment_does_not_release 1 (impl.control_block_t.construct (some 0))
      scenario.start _ { m_control_block := none } { m_control_block := some 1 }
      { m_control_block := some 1 } false rfl rfl).2.2.2.2.1⟩

/-- C24: `subset( pos, count )` throws `std::out_of_range( "Attempt to access
span past end" )` exactly when `pos > size( )`; otherwise it returns the span
that starts `pos` elements further and has `min( count, size( ) - pos )`
elements, whose elements are those of the original with indices from `pos` on,
in order: its `i`-th element is the original's element `pos + i`. -/
theorem C24_span_subset (s : span) (pos count : Nat) :
    (s.subset pos count
        = Except.error (exception.out_of_range "Attempt to access span past end")
      ↔ pos > s.size) ∧
    ((∃ e, s.subset pos count = Except.error e) ↔ pos > s.size) ∧
    (pos ≤ s.size →
      ∃ r, s.subset pos count = Except.ok r ∧
        r.m_first = s.m_first + pos ∧
        r.size = min count (s.size - pos) ∧
        (∀ {T : Type} (mem : Nat → T),
          r.elements mem = ((s.elements mem).drop pos).take count ∧
          r.elements mem = ((s.elements mem).drop pos).take (min count (s.size - pos)) ∧
          ∀ i, i < r.size → r.index mem i = s.index mem (pos + i) ∧
            (r.elements mem)[i]? = (s.elements mem)[pos + i]?)) := by
  by_cases hp : pos > s.size
  · refine ⟨by simp [span.subset, hp], by simp [span.subset, hp], fun h => by omega⟩
  · have hle : pos ≤ s.size := by omega
    refine ⟨by simp [span.subset, hp], by simp [span.subset, hp], fun _ => ?_⟩
    refine ⟨{ m_first := s.m_first + pos, m_size := min count (s.m_size - pos) },
      by simp [span.subset, hp], rfl, rfl, ?_⟩
    intro T mem
    have hsize : s.m_size = s.size := rfl
    have key : ∀ n, n ≤ s.m_size - pos →
        (List.range n).map (fun i => mem (s.m_first + pos + i))
          = (((List.range s.m_size).map (fun i => mem (s.m_first + i))).drop pos).take n := by
      intro n hn
      apply List.ext_getElem?
      intro i
      simp only [List.getElem?_map, List.getElem?_take, List.getElem?_drop]
      by_cases hi : i < n
      · have h1 : pos + i < s.m_size := by omega
        simp [List.getElem?_range hi, List.getElem?_range h1, hi, Nat.add_assoc]
      · have h2 : (List.range n)[i]? = none := by
          simp [List.getElem?_eq_none_iff]
          omega
        simp [h2, hi]
    have hmin : min count (s.m_size - pos) ≤ s.m_size - pos := Nat.min_le_right _ _
    have e2 := key (min count (s.m_size - pos)) hmin
    have e1 : (((List.range s.m_size).map (fun i => mem (s.m_first + i))).drop pos).take
          (min count (s.m_size - pos))
        = (((List.range s.m_size).map (fun i => mem (s.m_first + i))).drop pos).take count := by
      have hlen : (((List.range s.m_size).map (fun i => mem (s.m_first + i))).drop pos).length
          = s.m_size - pos := by simp
      rw [← List.take_take, ← hlen, List.take_length]
    refine ⟨?_, ?_, ?_⟩
    · simp only [span.elements, span.index]
      rw [← e1, ← e2]
    · simp only [span.elements, span.index, span.size]
      rw [← e2]
    · intro i hi
      refine ⟨by simp [span.index, Nat.add_assoc], ?_⟩
      simp only [span.size] at hi
      have h1 : pos + i < s.m_size := by
        simp only [span.size] at hle
        omega
      simp [span.elements, span.index, List.getElem?_range hi, List.getElem?_range h1,
        Nat.add_assoc]

/-- Pushing back the characters of a view that fits appends them to the
characters in use. -/
theorem copy_back_spec : ∀ (sv : List Nat) (d : fixed_stack_t),
    d.m_index + sv.length ≤ d.m_stack.length →
    ∃ d1, d.copy_back sv = Except.ok d1 ∧ d1.m_index = d.m_index + sv.length ∧
      d1.m_stack.length = d.m_stack.length ∧
      d1.m_stack.take d1.m_index = d.m_stack.take d.m_index ++ sv := by
  intro sv
  induction sv with
  | nil =>
    intro d _
    exact ⟨d, rfl, rfl, rfl, by simp⟩
  | cons c rest ih =>
    intro d hd
    simp only [List.length_cons] at hd
    have hlt : d.m_index < d.m_stack.length := by omega
    obtain ⟨d1, e1, e2, e3, e4⟩ := ih
      { m_stack := d.m_stack.set d.m_index c, m_index := d.m_index + 1 }
      (by simp only [List.length_set]; omega)
    refine ⟨d1, by simp [fixed_stack_t.copy_back, fixed_stack_t.push_back, hlt, e1],
      by simp only [e2, List.length_cons]; omega, by simpa using e3, ?_⟩
    rw [e4]
    simp only
    have : (d.m_stack.set d.m_index c).take (d.m_index + 1)
        = d.m_stack.take d.m_index ++ [c] := by
      rw [List.take_succ, List.getElem?_set_self hlt, List.set_take,
        List.set_eq_of_length_le (by simp)]
      rfl
    rw [this]
    simp

/-- C25: for a string whose sizes fit in `size_t` together with the view's,
`append( sv )` throws `std::out_of_range( "Attempt to append
basic_static_string past end" )` exactly when `size( ) + sv.size( ) >
Capacity`; otherwise the new contents are the old contents followed by the
characters of `sv`, `size( )` grows by `sv.size( )`, and the character after
the last one is the terminator 0. -/
theorem C25_static_string_append {Capacity : Nat} (str : basic_static_string Capacity)
    (sv : List Nat) (hwf : str.well_formed) (hfit : str.size + sv.length < 2 ^ 64) :
    (Capacity < str.size + sv.length →
      str.append sv = Except.error (failure.throws
        (exception.out_of_range "Attempt to append basic_static_string past end"))) ∧
    (str.size + sv.length ≤ Capacity →
      ∃ r, str.append sv = Except.ok r ∧ r.contents = str.contents ++ sv ∧
        r.size = str.size + sv.length ∧ r.m_data.m_stack[r.size]? = some 0 ∧
        r.well_formed) ∧
    ((∃ e, str.append sv = Except.error e) ↔ Capacity < str.size + sv.length) := by
  obtain ⟨hlen, hidx⟩ := hwf
  have hmod : (str.m_data.size + sv.length) % 2 ^ 64 = str.m_data.size + sv.length :=
    Nat.mod_eq_of_lt hfit
  have hthrow : Capacity < str.size + sv.length →
      str.append sv = Except.error (failure.throws
        (exception.out_of_range "Attempt to append basic_static_string past end")) := by
    intro hgt
    have : ¬ str.m_data.size + sv.length ≤ Capacity := by
      simp only [basic_static_string.size] at hgt
      omega
    unfold basic_static_string.append
    rw [hmod]
    simp [basic_static_string.capacity, this]
  have hok : str.size + sv.length ≤ Capacity →
      ∃ r, str.append sv = Except.ok r ∧ r.contents = str.contents ++ sv ∧
        r.size = str.size + sv.length ∧ r.m_data.m_stack[r.size]? = some 0 ∧
        r.well_formed := by
    intro hle
    simp only [basic_static_string.size, fixed_stack_t.size] at hle
    obtain ⟨d1, e1, e2, e3, e4⟩ := copy_back_spec sv str.m_data (by omega)
    have hlt : d1.m_index < d1.m_stack.length := by omega
    refine ⟨{ m_data := { d1 with m_stack := d1.m_stack.set d1.m_index 0 } }, ?_, ?_, ?_, ?_, ?_⟩
    · have hcond : str.m_data.size + sv.length ≤ Capacity := hle
      unfold basic_static_string.append
      rw [hmod]
      simp [basic_static_string.capacity, hcond, e1, fixed_stack_t.set_end, hlt]
    · simp only [basic_static_string.contents]
      rw [← e4]
      apply List.ext_getElem?
      intro i
      by_cases hi : i < d1.m_index
      · have hne : d1.m_index ≠ i := by omega
        simp [List.getElem?_take, hi, List.getElem?_set_ne hne]
      · rw [List.getElem?_eq_none_iff.mpr (by simp; omega),
          List.getElem?_eq_none_iff.mpr (by simp; omega)]
    · simp [basic_static_string.size, fixed_stack_t.size, e2]
    · simp [basic_static_string.size, fixed_stack_t.size, hlt]
    · exact ⟨by simp only [List.length_set]; omega, by simp only; omega⟩
  refine ⟨hthrow, hok, ?_⟩
  constructor
  · rintro ⟨e, he⟩
    by_contra hnot
    obtain ⟨r, hr, _⟩ := hok (by omega)
    rw [hr] at he
    cases he
  · intro hgt
    exact ⟨_, hthrow hgt⟩

/-- Witness for C25: "ab" in a string of capacity 4 is appended "cd". -/
theorem C25_static_string_append_witness :
    ∃ r : basic_static_string 4,
      basic_static_string.append
        ({ m_data := { m_stack := [97, 98, 0, 0, 0], m_index := 2 } } : basic_static_string 4)
        [99, 100] = Except.ok r ∧
      r.contents = [97, 98] ++ [99, 100] ∧ r.size = 2 + 2 ∧
      r.m_data.m_stack[r.size]? = some 0 := by
  obtain ⟨r, e1, e2, e3, e4, _⟩ :=
    (C25_static_string_append
      ({ m_data := { m_stack := [97, 98, 0, 0, 0], m_index := 2 } } : basic_static_string 4)
      [99, 100] ⟨rfl, by decide⟩ (by decide)).2.1 (by decide)
  exact ⟨r, e1, e2, e3, e4⟩

section fixed_lookup_lemmas

variable {Value Key : Type} {N : Nat}

theorem probe_cons (m : List Nat) (h n : Nat) (rest : List Nat) :
    fixed_lookup.probe m h (n :: rest)
      = if h = fixed_lookup.slot m n then some { position := n, found := true }
        else if 0 = fixed_lookup.slot m n then some { position := n, found := false }
        else fixed_lookup.probe m h rest := rfl

theorem probe_append (m : List Nat) (h : Nat) (l1 l2 : List Nat) :
    fixed_lookup.probe m h (l1 ++ l2)
      = match fixed_lookup.probe m h l1 with
        | some r => some r
        | none => fixed_lookup.probe m h l2 := by
  induction l1 with
  | nil => rfl
  | cons n rest ih =>
    rw [List.cons_append, probe_cons, probe_cons]
    by_cases h1 : h = fixed_lookup.slot m n
    · rw [if_pos h1, if_pos h1]
    · rw [if_neg h1, if_neg h1]
      by_cases h2 : 0 = fixed_lookup.slot m n
      · rw [if_pos h2, if_pos h2]
      · rw [if_neg h2, if_neg h2]
        exact ih

theorem probe_none_iff (m : List Nat) (h : Nat) (l : List Nat) :
    fixed_lookup.probe m h l = none
      ↔ ∀ n ∈ l, fixed_lookup.slot m n ≠ h ∧ fixed_lookup.slot m n ≠ 0 := by
  induction l with
  | nil =>
    constructor
    · intro _ n hn
      cases hn
    · intro _
      rfl
  | cons n rest ih =>
    rw [probe_cons]
    by_cases h1 : h = fixed_lookup.slot m n
    · rw [if_pos h1]
      constructor
      · intro hx
        cases hx
      · intro hx
        exact absurd h1.symm (hx n (List.mem_cons_self _ _)).1
    · rw [if_neg h1]
      by_cases h2 : 0 = fixed_lookup.slot m n
      · rw [if_pos h2]
        constructor
        · intro hx
          cases hx
        · intro hx
          exact absurd h2.symm (hx n (List.mem_cons_self _ _)).2
      · rw [if_neg h2, ih]
        constructor
        · intro hx k hk
          rcases List.mem_cons.mp hk with e | e
          · subst e
            exact ⟨fun e => h1 e.symm, fun e => h2 e.symm⟩
          · exact hx k e
        · intro hx k hk
          exact hx k (List.mem_cons_of_mem _ hk)

theorem probe_some_spec (m : List Nat) (h : Nat) (l : List Nat) (r : lookup_result_t)
    (hr : fixed_lookup.probe m h l = some r) :
    r.position ∈ l ∧ (r.found = true → fixed_lookup.slot m r.position = h) ∧
    (r.found = false → fixed_lookup.slot m r.position = 0 ∧ h ≠ 0) := by
  induction l with
  | nil => cases hr
  | cons n rest ih =>
    rw [probe_cons] at hr
    by_cases h1 : h = fixed_lookup.slot m n
    · rw [if_pos h1] at hr
      cases hr
      exact ⟨List.mem_cons_self _ _, fun _ => h1.symm, fun e => Bool.noConfusion e⟩
    · rw [if_neg h1] at hr
      by_cases h2 : 0 = fixed_lookup.slot m n
      · rw [if_pos h2] at hr
        cases hr
        refine ⟨List.mem_cons_self _ _, fun e => Bool.noConfusion e, fun _ => ⟨h2.symm, ?_⟩⟩
        intro e
        exact h1 (by rw [e, h2])
      · rw [if_neg h2] at hr
        obtain ⟨i1, i2, i3⟩ := ih hr
        exact ⟨List.mem_cons_of_mem _ i1, i2, i3⟩

theorem slot_set (m : List Nat) (q n x : Nat) :
    fixed_lookup.slot (m.set q x) n
      = if q = n ∧ q < m.length then x else fixed_lookup.slot m n := by
  unfold fixed_lookup.slot
  rw [List.getElem?_set]
  by_cases hq : q = n
  · subst hq
    by_cases hl : q < m.length
    · simp [hl]
    · have hnone : m[q]? = none := List.getElem?_eq_none_iff.mpr (by omega)
      simp [hl, hnone]
  · simp [hq]

/-- Filling an empty slot does not disturb the probe that finds another hash. -/
theorem probe_set_other (m : List Nat) (h x q : Nat) (l : List Nat) (p : Nat)
    (hh : h ≠ 0) (hq : fixed_lookup.slot m q = 0)
    (hr : fixed_lookup.probe m h l = some { position := p, found := true }) :
    fixed_lookup.probe (m.set q x) h l = some { position := p, found := true } := by
  induction l with
  | nil => cases hr
  | cons n rest ih =>
    rw [probe_cons] at hr ⊢
    have hnq : fixed_lookup.slot m n ≠ 0 →
        fixed_lookup.slot (m.set q x) n = fixed_lookup.slot m n := by
      intro hne
      rw [slot_set]
      have : ¬ (q = n ∧ q < m.length) := by
        rintro ⟨e, _⟩
        subst e
        exact hne hq
      rw [if_neg this]
    by_cases h1 : h = fixed_lookup.slot m n
    · have hne : fixed_lookup.slot m n ≠ 0 := by rw [← h1]; exact hh
      rw [hnq hne, if_pos h1]
      rw [if_pos h1] at hr
      exact hr
    · rw [if_neg h1] at hr
      by_cases h2 : 0 = fixed_lookup.slot m n
      · rw [if_pos h2] at hr
        cases hr
      · have hne : fixed_lookup.slot m n ≠ 0 := fun e => h2 e.symm
        rw [hnq hne, if_neg h1, if_neg h2]
        rw [if_neg h2] at hr
        exact ih hr

/-- Filling the empty slot a probe stopped at makes the probe find the hash
there. -/
theorem probe_set_self (m : List Nat) (h q : Nat) (l : List Nat) (hq : q < m.length)
    (hr : fixed_lookup.probe m h l = some { position := q, found := false }) :
    fixed_lookup.probe (m.set q h) h l = some { position := q, found := true } := by
  induction l with
  | nil => cases hr
  | cons n rest ih =>
    rw [probe_cons] at hr ⊢
    by_cases h1 : h = fixed_lookup.slot m n
    · rw [if_pos h1] at hr
      cases hr
    · rw [if_neg h1] at hr
      by_cases h2 : 0 = fixed_lookup.slot m n
      · rw [if_pos h2] at hr
        cases hr
        simp [slot_set, hq]
      · rw [if_neg h2] at hr
        have hq0 : fixed_lookup.slot m q = 0 := ((probe_some_spec m h rest _ hr).2.2 rfl).1
        have hnq : ¬ (q = n ∧ q < m.length) := by
          rintro ⟨e, _⟩
          subst e
          exact h2 hq0.symm
        rw [slot_set, if_neg hnq, if_neg h1, if_neg h2]
        exact ih hr

theorem mem_probe_order (N hp n : Nat) (hhp : hp ≤ N) :
    n ∈ fixed_lookup.probe_order N hp ↔ n < N := by
  unfold fixed_lookup.probe_order
  rw [List.mem_append, List.mem_range'_1, List.mem_range]
  omega

theorem hash_pos_lt (N h : Nat) (hN : 0 < N) : fixed_lookup.hash_pos N h < N :=
  Nat.mod_lt _ hN

theorem hash_fn_ge (fnv : Key → Nat) (k : Key) : 2 ≤ fixed_lookup.hash_fn fnv k := by
  unfold fixed_lookup.hash_fn impl.sentinals.sentinals_size
  omega

theorem slot_of_lt (m : List Nat) (n : Nat) (hn : n < m.length) :
    m[n]? = some (fixed_lookup.slot m n) := by
  unfold fixed_lookup.slot
  rw [List.getElem?_eq_getElem hn]
  rfl

theorem mem_iff_slot (m : List Nat) (x : Nat) :
    x ∈ m ↔ ∃ n, n < m.length ∧ fixed_lookup.slot m n = x := by
  rw [List.mem_iff_getElem?]
  constructor
  · rintro ⟨n, hn⟩
    have hlt : n < m.length := by
      by_contra hge
      rw [List.getElem?_eq_none_iff.mpr (by omega)] at hn
      cases hn
    refine ⟨n, hlt, ?_⟩
    rw [slot_of_lt m n hlt] at hn
    injection hn
  · rintro ⟨n, hlt, hx⟩
    exact ⟨n, by rw [slot_of_lt m n hlt, hx]⟩

theorem set_slot_self (m : List Nat) (p : Nat) :
    m.set p (fixed_lookup.slot m p) = m := by
  apply List.ext_getElem?
  intro i
  rw [List.getElem?_set]
  by_cases hpi : p = i
  · subst hpi
    by_cases hl : p < m.length
    · simp [hl, slot_of_lt m p hl]
    · simp [hl, List.getElem?_eq_none_iff.mpr (Nat.le_of_not_lt hl)]
  · simp [hpi]

theorem scale_hash_eq (t : fixed_lookup Value N) (h : Nat) (hN : 0 < N) (hh : 2 ≤ h) :
    t.scale_hash h = Except.ok (fixed_lookup.hash_pos N h) := by
  unfold fixed_lookup.scale_hash fixed_lookup.capacity impl.sentinals.sentinals_size
    fixed_lookup.hash_pos
  have h1 : ¬ ¬ (N > 0) := fun hx => hx hN
  have h2 : ¬ ¬ (h ≥ 2) := fun hx => hx hh
  rw [if_neg h1, if_neg h2]

theorem lookup_of_scale (t : fixed_lookup Value N) (h p : Nat)
    (hs : t.scale_hash h = Except.ok p) :
    t.lookup h = Except.ok
      (match fixed_lookup.probe t.m_hashes h (List.range' p (t.m_hashes.length - p)) with
        | some r => r
        | none =>
          match fixed_lookup.probe t.m_hashes h (List.range p) with
          | some r => r
          | none => { position := t.m_hashes.length, found := false }) := by
  unfold fixed_lookup.lookup
  rw [hs]
  show (match fixed_lookup.probe t.m_hashes h (List.range' p (t.m_hashes.length - p)) with
      | some r => Except.ok r
      | none =>
        match fixed_lookup.probe t.m_hashes h (List.range p) with
        | some r => Except.ok r
        | none => Except.ok { position := t.m_hashes.length, found := false }) = _
  generalize fixed_lookup.probe t.m_hashes h (List.range' p (t.m_hashes.length - p)) = a
  generalize fixed_lookup.probe t.m_hashes h (List.range p) = b
  cases a <;> cases b <;> rfl

/-- `lookup` is one probe over the positions from `hash_pos` round to
`hash_pos`. -/
theorem lookup_eq (t : fixed_lookup Value N) (h : Nat) (hN : 0 < N)
    (hlen : t.m_hashes.length = N) (hh : 2 ≤ h) :
    t.lookup h = Except.ok
      (match fixed_lookup.probe t.m_hashes h
          (fixed_lookup.probe_order N (fixed_lookup.hash_pos N h)) with
        | some r => r
        | none => { position := N, found := false }) := by
  rw [lookup_of_scale t h _ (scale_hash_eq t h hN hh), hlen]
  have horder : fixed_lookup.probe_order N (fixed_lookup.hash_pos N h)
      = List.range' (fixed_lookup.hash_pos N h) (N - fixed_lookup.hash_pos N h)
        ++ List.range (fixed_lookup.hash_pos N h) := rfl
  rw [horder, probe_append]
  generalize fixed_lookup.hash_pos N h = p
  generalize fixed_lookup.probe t.m_hashes h (List.range' p (N - p)) = a
  generalize fixed_lookup.probe t.m_hashes h (List.range p) = b
  cases a <;> cases b <;> rfl

/-- The three ways a `lookup` can end. -/
theorem lookup_cases (t : fixed_lookup Value N) (h : Nat) (hN : 0 < N)
    (hlen : t.m_hashes.length = N) (hh : 2 ≤ h) :
    (t.lookup h = Except.ok { position := N, found := false } ∧
      ∀ n, n < N → fixed_lookup.slot t.m_hashes n ≠ h ∧ fixed_lookup.slot t.m_hashes n ≠ 0) ∨
    (∃ p, p < N ∧ t.lookup h = Except.ok { position := p, found := true } ∧
      fixed_lookup.slot t.m_hashes p = h ∧
      fixed_lookup.probe t.m_hashes h
          (fixed_lookup.probe_order N (fixed_lookup.hash_pos N h))
        = some { position := p, found := true }) ∨
    (∃ p, p < N ∧ t.lookup h = Except.ok { position := p, found := false } ∧
      fixed_lookup.slot t.m_hashes p = 0 ∧
      fixed_lookup.probe t.m_hashes h
          (fixed_lookup.probe_order N (fixed_lookup.hash_pos N h))
        = some { position := p, found := false }) := by
  have hle : fixed_lookup.hash_pos N h ≤ N := Nat.le_of_lt (hash_pos_lt N h hN)
  rw [lookup_eq t h hN hlen hh]
  cases hp : fixed_lookup.probe t.m_hashes h
      (fixed_lookup.probe_order N (fixed_lookup.hash_pos N h)) with
  | none =>
    left
    refine ⟨rfl, ?_⟩
    intro n hn
    exact (probe_none_iff _ _ _).mp hp n ((mem_probe_order N _ n hle).mpr hn)
  | some r =>
    right
    obtain ⟨i1, i2, i3⟩ := probe_some_spec _ _ _ r hp
    have hlt : r.position < N := (mem_probe_order N _ _ hle).mp i1
    obtain ⟨p, f⟩ := r
    cases f with
    | true => exact Or.inl ⟨p, hlt, rfl, i2 rfl, rfl⟩
    | false => exact Or.inr ⟨p, hlt, rfl, (i3 rfl).1, rfl⟩

/-- A `lookup` that finds a hash found it by its probe. -/
theorem probe_of_lookup_found (t : fixed_lookup Value N) (h q : Nat) (hN : 0 < N)
    (hlen : t.m_hashes.length = N) (hh : 2 ≤ h)
    (hl : t.lookup h = Except.ok { position := q, found := true }) :
    q < N ∧ fixed_lookup.slot t.m_hashes q = h ∧
    fixed_lookup.probe t.m_hashes h
        (fixed_lookup.probe_order N (fixed_lookup.hash_pos N h))
      = some { position := q, found := true } := by
  rcases lookup_cases t h hN hlen hh with ⟨e, _⟩ | ⟨p, hp, e, hs, hpr⟩ | ⟨p, _, e, _, _⟩
  · rw [hl] at e
    cases e
  · rw [hl] at e
    cases e
    exact ⟨hp, hs, hpr⟩
  · rw [hl] at e
    cases e

/-- A probe that finds a hash makes `lookup` find it. -/
theorem lookup_of_probe (t : fixed_lookup Value N) (h : Nat) (r : lookup_result_t)
    (hN : 0 < N) (hlen : t.m_hashes.length = N) (hh : 2 ≤ h)
    (hp : fixed_lookup.probe t.m_hashes h
        (fixed_lookup.probe_order N (fixed_lookup.hash_pos N h)) = some r) :
    t.lookup h = Except.ok r := by
  rw [lookup_eq t h hN hlen hh, hp]

/-- One call of the non-const `operator[]` on a table that satisfies the
invariants: it throws when no slot holds the hash or is empty, and otherwise
stores the hash at the probed slot and keeps the invariants. -/
theorem index_step (t : fixed_lookup Value N) (fnv : Key → Nat) (k : Key)
    (hwf : t.well_formed) (hinv : t.probe_inv) :
    (t.index fnv k = Except.error (failure.throws (exception.other
        "Fixed hash table does not have enough space to allocate all entries")) ∧
      ∀ n, n < N → fixed_lookup.slot t.m_hashes n ≠ fixed_lookup.hash_fn fnv k ∧
        fixed_lookup.slot t.m_hashes n ≠ 0) ∨
    (∃ p t1, t.index fnv k = Except.ok (p, t1) ∧ p < N ∧
      t1.m_hashes = t.m_hashes.set p (fixed_lookup.hash_fn fnv k) ∧
      t1.m_values = t.m_values ∧
      ((fixed_lookup.slot t.m_hashes p = fixed_lookup.hash_fn fnv k ∧ t1 = t) ∨
       (fixed_lookup.slot t.m_hashes p = 0 ∧ fixed_lookup.hash_fn fnv k ∉ t.m_hashes)) ∧
      fixed_lookup.slot t1.m_hashes p = fixed_lookup.hash_fn fnv k ∧
      t1.well_formed ∧ t1.probe_inv) := by
  obtain ⟨hN, hlen, hvlen, hmem⟩ := hwf
  have hh := hash_fn_ge fnv k
  generalize hdef : fixed_lookup.hash_fn fnv k = h at hh ⊢
  rcases lookup_cases t h hN hlen hh with ⟨e, hall⟩ | ⟨p, hp, e, hs, _⟩ | ⟨p, hp, e, hs, hpr⟩
  · left
    refine ⟨?_, hall⟩
    simp [fixed_lookup.index, hdef, e, hlen]
  · right
    have ht1 : ({ t with m_hashes := t.m_hashes.set p h } : fixed_lookup Value N) = t := by
      obtain ⟨m, v⟩ := t
      simp only at hs ⊢
      rw [← hs, set_slot_self]
    have hne : ¬ (p = t.m_hashes.length) := by omega
    refine ⟨p, { t with m_hashes := t.m_hashes.set p h }, ?_, hp, rfl, rfl,
      Or.inl ⟨hs, ht1⟩, ?_, ?_, ?_⟩
    · simp [fixed_lookup.index, hdef, e]
    · rw [ht1]
      exact hs
    · rw [ht1]
      exact ⟨hN, hlen, hvlen, hmem⟩
    · rw [ht1]
      exact hinv
  · right
    have hne : ¬ (p = t.m_hashes.length) := by omega
    have hplen : p < t.m_hashes.length := by omega
    have hnotin : h ∉ t.m_hashes := by
      intro hin
      obtain ⟨n, hn, hx⟩ := (mem_iff_slot _ _).mp hin
      have hn0 : fixed_lookup.slot t.m_hashes n ≠ 0 := by
        rw [hx]
        omega
      have := hinv n (by omega) hn0
      rw [hx, e] at this
      cases this
    have hslot1 : fixed_lookup.slot (t.m_hashes.set p h) p = h := by
      rw [slot_set, if_pos ⟨rfl, hplen⟩]
    refine ⟨p, { t with m_hashes := t.m_hashes.set p h }, ?_, hp, rfl, rfl,
      Or.inr ⟨hs, hnotin⟩, hslot1, ?_, ?_⟩
    · simp [fixed_lookup.index, hdef, e, hne]
    · refine ⟨hN, by simp [hlen], hvlen, ?_⟩
      intro x hx
      rcases List.mem_or_eq_of_mem_set hx with hx1 | hx1
      · exact hmem x hx1
      · right
        rw [hx1]
        exact hh
    · intro q hq hq0
      simp only at hq0 ⊢
      have hlen1 : (t.m_hashes.set p h).length = N := by simp [hlen]
      by_cases hpq : p = q
      · subst hpq
        rw [hslot1]
        exact lookup_of_probe _ h _ hN hlen1 hh (probe_set_self _ _ _ _ hplen hpr)
      · have hsq : fixed_lookup.slot (t.m_hashes.set p h) q = fixed_lookup.slot t.m_hashes q := by
          rw [slot_set, if_neg (fun hx => hpq hx.1)]
        rw [hsq] at hq0 ⊢
        have hx2 : 2 ≤ fixed_lookup.slot t.m_hashes q := by
          have hin : fixed_lookup.slot t.m_hashes q ∈ t.m_hashes :=
            (mem_iff_slot _ _).mpr ⟨q, by omega, rfl⟩
          rcases hmem _ hin with h0 | h2
          · exact absurd h0 hq0
          · exact h2
        obtain ⟨_, _, hprq⟩ := probe_of_lookup_found t _ q hN hlen hx2 (hinv q hq hq0)
        exact lookup_of_probe _ _ _ hN hlen1 hx2
          (probe_set_other _ _ h p _ q (by omega) hs hprq)

theorem index_all_cons (fnv : Key → Nat) (k : Key) (rest : List Key)
    (t : fixed_lookup Value N) :
    fixed_lookup.index_all fnv (k :: rest) t
      = match t.index fnv k with
        | Except.error e => Except.error e
        | Except.ok (p, t1) =>
          match fixed_lookup.index_all fnv rest t1 with
          | Except.error e => Except.error e
          | Except.ok (ps, t2) => Except.ok (p :: ps, t2) := rfl

/-- The stored hashes after a hash has been put into an empty slot or found. -/
theorem mem_set_hash (m : List Nat) (p h x : Nat) (hp : p < m.length) (hx : x ≠ 0)
    (hcase : fixed_lookup.slot m p = h ∨ fixed_lookup.slot m p = 0) :
    x ∈ m.set p h ↔ x ∈ m ∨ x = h := by
  rw [mem_iff_slot, mem_iff_slot]
  constructor
  · rintro ⟨n, hn, hs⟩
    rw [slot_set] at hs
    by_cases hpn : p = n
    · rw [if_pos ⟨hpn, hp⟩] at hs
      exact Or.inr hs.symm
    · rw [if_neg (fun hx => hpn hx.1)] at hs
      exact Or.inl ⟨n, by simpa using hn, hs⟩
  · rintro (⟨n, hn, hs⟩ | hxh)
    · refine ⟨n, by simpa using hn, ?_⟩
      rw [slot_set]
      by_cases hpn : p = n
      · subst hpn
        rw [if_pos ⟨rfl, hp⟩]
        rcases hcase with hc | hc
        · rw [← hc, hs]
        · rw [hs] at hc
          exact absurd hc hx
      · rw [if_neg (fun hx => hpn hx.1)]
        exact hs
    · refine ⟨p, by simpa using hp, ?_⟩
      rw [slot_set, if_pos ⟨rfl, hp⟩, hxh]

/-- A sequence of successful calls of the non-const `operator[]` keeps the
invariants, stores exactly the hashes of its keys, never overwrites a stored
hash, and every key is found afterwards at the position its call returned. -/
theorem index_all_spec (fnv : Key → Nat) :
    ∀ (ks : List Key) (t t2 : fixed_lookup Value N) (ps : List Nat),
      t.well_formed → t.probe_inv →
      fixed_lookup.index_all fnv ks t = Except.ok (ps, t2) →
      t2.well_formed ∧ t2.probe_inv ∧ t2.m_values = t.m_values ∧
      ps.length = ks.length ∧
      (∀ x, x ≠ 0 → (x ∈ t2.m_hashes ↔
        x ∈ t.m_hashes ∨ x ∈ ks.map (fixed_lookup.hash_fn fnv))) ∧
      (∀ n, fixed_lookup.slot t.m_hashes n ≠ 0 →
        fixed_lookup.slot t2.m_hashes n = fixed_lookup.slot t.m_hashes n) ∧
      (∀ (i : Nat) (k : Key) (p : Nat), ks[i]? = some k → ps[i]? = some p →
        t2.lookup (fixed_lookup.hash_fn fnv k)
          = Except.ok { position := p, found := true }) := by
  intro ks
  induction ks with
  | nil =>
    intro t t2 ps hwf hinv hrun
    simp only [fixed_lookup.index_all, Except.ok.injEq, Prod.mk.injEq] at hrun
    obtain ⟨e1, e2⟩ := hrun
    subst e1 e2
    refine ⟨hwf, hinv, rfl, rfl, ?_, fun _ _ => rfl, ?_⟩
    · intro x _
      simp
    · intro i k p hk
      simp at hk
  | cons k rest ih =>
    intro t t2 ps hwf hinv hrun
    rw [index_all_cons] at hrun
    rcases index_step t fnv k hwf hinv with ⟨herr, _⟩ | ⟨p, t1, hok, hp, hm, hv, hcase, hs1, hwf1, hinv1⟩
    · rw [herr] at hrun
      cases hrun
    · rw [hok] at hrun
      simp only at hrun
      cases hrest : fixed_lookup.index_all fnv rest t1 with
      | error e =>
        rw [hrest] at hrun
        cases hrun
      | ok r =>
        obtain ⟨ps1, t3⟩ := r
        rw [hrest] at hrun
        simp only [Except.ok.injEq, Prod.mk.injEq] at hrun
        obtain ⟨e1, e2⟩ := hrun
        subst e1 e2
        obtain ⟨i1, i2, i3, i4, i5, i6, i7⟩ := ih t1 t3 ps1 hwf1 hinv1 hrest
        have hplen : p < t.m_hashes.length := by
          rw [hwf.2.1]
          exact hp
        have hh2 := hash_fn_ge fnv k
        have hcase2 : fixed_lookup.slot t.m_hashes p = fixed_lookup.hash_fn fnv k ∨
            fixed_lookup.slot t.m_hashes p = 0 := by
          rcases hcase with ⟨hc, _⟩ | ⟨hc, _⟩
          · exact Or.inl hc
          · exact Or.inr hc
        have hstab1 : ∀ n, fixed_lookup.slot t.m_hashes n ≠ 0 →
            fixed_lookup.slot t1.m_hashes n = fixed_lookup.slot t.m_hashes n := by
          intro n hn
          rw [hm, slot_set]
          by_cases hpn : p = n
          · subst hpn
            rw [if_pos ⟨rfl, hplen⟩]
            rcases hcase2 with hc | hc
            · exact hc.symm
            · exact absurd hc hn
          · rw [if_neg (fun hx => hpn hx.1)]
        refine ⟨i1, i2, by rw [i3, hv], by simp [i4], ?_, ?_, ?_⟩
        · intro x hx
          rw [i5 x hx, hm, mem_set_hash _ _ _ _ hplen hx hcase2]
          simp only [List.map_cons, List.mem_cons]
          constructor
          · rintro ((h1 | h1) | h1)
            · exact Or.inl h1
            · exact Or.inr (Or.inl h1)
            · exact Or.inr (Or.inr h1)
          · rintro (h1 | h1 | h1)
            · exact Or.inl (Or.inl h1)
            · exact Or.inl (Or.inr h1)
            · exact Or.inr h1
        · intro n hn
          rw [i6 n (by rw [hstab1 n hn]; exact hn), hstab1 n hn]
        · intro i k2 p2 hk hp2
          cases i with
          | zero =>
            simp only [List.getElem?_cons_zero, Option.some.injEq] at hk hp2
            subst hk hp2
            have hne : fixed_lookup.slot t1.m_hashes p ≠ 0 := by
              rw [hs1]
              omega
            have hs3 := i6 p hne
            rw [hs1] at hs3
            have := i2 p hp (by rw [hs3]; omega)
            rw [hs3] at this
            exact this
          | succ j =>
            simp only [List.getElem?_cons_succ] at hk hp2
            exact i7 j k2 p2 hk hp2

/-- On a table that satisfies the invariants `lookup` always returns, and it
finds a hash exactly when the hash is stored. -/
theorem lookup_found_iff (t : fixed_lookup Value N) (h : Nat) (hwf : t.well_formed)
    (hinv : t.probe_inv) (hh : 2 ≤ h) :
    ∃ r, t.lookup h = Except.ok r ∧ (r.found = true ↔ h ∈ t.m_hashes) ∧
      (r.found = true → r.position < N ∧ fixed_lookup.slot t.m_hashes r.position = h) := by
  obtain ⟨hN, hlen, _, _⟩ := hwf
  have hfound : ∀ p, t.lookup h = Except.ok { position := p, found := false } →
      h ∉ t.m_hashes := by
    intro p e hin
    obtain ⟨n, hn, hx⟩ := (mem_iff_slot _ _).mp hin
    have hn0 : fixed_lookup.slot t.m_hashes n ≠ 0 := by
      rw [hx]
      omega
    have := hinv n (by omega) hn0
    rw [hx, e] at this
    cases this
  rcases lookup_cases t h hN hlen hh with ⟨e, _⟩ | ⟨p, hp, e, hs, _⟩ | ⟨p, _, e, _, _⟩
  · refine ⟨_, e, ?_, fun hx => Bool.noConfusion hx⟩
    constructor
    · intro hx
      cases hx
    · intro hin
      exact absurd hin (hfound _ e)
  · refine ⟨_, e, ?_, fun _ => ⟨hp, hs⟩⟩
    constructor
    · intro _
      exact (mem_iff_slot _ _).mpr ⟨p, by omega, hs⟩
    · intro _
      rfl
  · refine ⟨_, e, ?_, fun hx => Bool.noConfusion hx⟩
    constructor
    · intro hx
      cases hx
    · intro hin
      exact absurd hin (hfound _ e)

theorem all_empty_invariants (values : List Value) (hN : 0 < N)
    (hv : values.length = N) :
    (fixed_lookup.all_empty values : fixed_lookup Value N).well_formed ∧
    (fixed_lookup.all_empty values : fixed_lookup Value N).probe_inv ∧
    (∀ x, x ≠ 0 → x ∉ (fixed_lookup.all_empty values : fixed_lookup Value N).m_hashes) ∧
    (fixed_lookup.all_empty values : fixed_lookup Value N).m_hashes.count 0 = N := by
  have hslot : ∀ p, fixed_lookup.slot (List.replicate N 0) p = 0 := by
    intro p
    unfold fixed_lookup.slot
    rw [List.getElem?_replicate]
    split <;> rfl
  refine ⟨⟨hN, by simp [fixed_lookup.all_empty], hv, ?_⟩, ?_, ?_, ?_⟩
  · intro x hx
    simp only [fixed_lookup.all_empty, impl.sentinals.empty, List.mem_replicate] at hx
    exact Or.inl hx.2
  · intro p _ hp
    simp only [fixed_lookup.all_empty, impl.sentinals.empty] at hp
    exact absurd (hslot p) hp
  · intro x hx hin
    simp only [fixed_lookup.all_empty, impl.sentinals.empty, List.mem_replicate] at hin
    exact hx hin.2
  · simp [fixed_lookup.all_empty, impl.sentinals.empty]

end fixed_lookup_lemmas

/-- C22: a table that starts with all hash slots empty and is modified only by
successful calls of the non-const `operator[]`, one per key of `ks`, returning
the positions `ps`. Then for every key `k`: `exists( k )` is true exactly when
some key of `ks` has the same `hash_fn` value; the const `operator[]` throws
"Attempt to access an undefined key" exactly when `exists( k )` is false; and
for every call, the key it was made with is afterwards looked up at the very
position the call returned, so that the const `operator[]` returns the value
slot at that position. -/
theorem C22_fixed_lookup_finds_inserted {Value Key : Type} {N : Nat} (fnv : Key → Nat)
    (values : List Value) (ks : List Key) (ps : List Nat) (t : fixed_lookup Value N)
    (hN : 0 < N) (hv : values.length = N)
    (hrun : fixed_lookup.index_all fnv ks (fixed_lookup.all_empty values)
      = Except.ok (ps, t)) :
    (∀ k, ∃ b, t.exists fnv k = Except.ok b ∧
      (b = true ↔ ∃ k1 ∈ ks, fixed_lookup.hash_fn fnv k1 = fixed_lookup.hash_fn fnv k)) ∧
    (∀ k, t.index_const fnv k
        = Except.error (failure.throws (exception.other "Attempt to access an undefined key"))
      ↔ t.exists fnv k = Except.ok false) ∧
    (∀ k, (∃ e, t.index_const fnv k = Except.error e) ↔ t.exists fnv k = Except.ok false) ∧
    (∀ (i : Nat) (k : Key) (p : Nat), ks[i]? = some k → ps[i]? = some p →
      t.lookup (fixed_lookup.hash_fn fnv k) = Except.ok { position := p, found := true } ∧
      ∃ v, t.m_values[p]? = some v ∧ values[p]? = some v ∧
        t.index_const fnv k = Except.ok v) := by
  obtain ⟨hwf0, hinv0, hnone0, _⟩ := all_empty_invariants values hN hv
  obtain ⟨hwf, hinv, hvals, _, hmem, _, hpos⟩ :=
    index_all_spec fnv ks _ t ps hwf0 hinv0 hrun
  have hvlen : t.m_values.length = N := hwf.2.2.1
  have hex : ∀ k, ∃ r, t.lookup (fixed_lookup.hash_fn fnv k) = Except.ok r ∧
      (r.found = true ↔ ∃ k1 ∈ ks, fixed_lookup.hash_fn fnv k1 = fixed_lookup.hash_fn fnv k) ∧
      (r.found = true → r.position < N) := by
    intro k
    have hh := hash_fn_ge fnv k
    obtain ⟨r, e, hiff, hposn⟩ := lookup_found_iff t _ hwf hinv hh
    refine ⟨r, e, ?_, fun hx => (hposn hx).1⟩
    rw [hiff, hmem _ (by omega)]
    constructor
    · rintro (hx | hx)
      · exact absurd hx (hnone0 _ (by omega))
      · obtain ⟨k1, hk1, e1⟩ := List.mem_map.mp hx
        exact ⟨k1, hk1, e1⟩
    · rintro ⟨k1, hk1, e1⟩
      exact Or.inr (List.mem_map.mpr ⟨k1, hk1, e1⟩)
  have hconst : ∀ k, (t.exists fnv k = Except.ok false →
        t.index_const fnv k = Except.error
          (failure.throws (exception.other "Attempt to access an undefined key"))) ∧
      (t.exists fnv k = Except.ok true → ∃ v, t.index_const fnv k = Except.ok v) := by
    intro k
    obtain ⟨r, e, _, hlt⟩ := hex k
    obtain ⟨p, f⟩ := r
    cases f with
    | false =>
      refine ⟨fun _ => by simp [fixed_lookup.index_const, e], fun hx => ?_⟩
      simp [fixed_lookup.exists, e] at hx
    | true =>
      refine ⟨fun hx => by simp [fixed_lookup.exists, e] at hx, fun _ => ?_⟩
      have hp : p < t.m_values.length := by
        rw [hvlen]
        exact hlt rfl
      exact ⟨t.m_values[p], by simp [fixed_lookup.index_const, e, List.getElem?_eq_getElem hp]⟩
  have hexb : ∀ k, t.exists fnv k = Except.ok true ∨ t.exists fnv k = Except.ok false := by
    intro k
    obtain ⟨r, e, _, _⟩ := hex k
    obtain ⟨p, f⟩ := r
    cases f
    · exact Or.inr (by simp [fixed_lookup.exists, e])
    · exact Or.inl (by simp [fixed_lookup.exists, e])
  refine ⟨?_, ?_, ?_, ?_⟩
  · intro k
    obtain ⟨r, e, hiff, _⟩ := hex k
    exact ⟨r.found, by simp [fixed_lookup.exists, e], hiff⟩
  · intro k
    constructor
    · intro herr
      rcases hexb k with hb | hb
      · obtain ⟨v, hvv⟩ := (hconst k).2 hb
        rw [hvv] at herr
        cases herr
      · exact hb
    · exact (hconst k).1
  · intro k
    constructor
    · rintro ⟨e, herr⟩
      rcases hexb k with hb | hb
      · obtain ⟨v, hvv⟩ := (hconst k).2 hb
        rw [hvv] at herr
        cases herr
      · exact hb
    · intro hb
      exact ⟨_, (hconst k).1 hb⟩
  · intro i k p hk hp
    have hl := hpos i k p hk hp
    refine ⟨hl, ?_⟩
    obtain ⟨r, e, _, hlt⟩ := hex k
    rw [hl] at e
    cases e
    have hp2 : p < t.m_values.length := by
      rw [hvlen]
      exact hlt rfl
    refine ⟨t.m_values[p], List.getElem?_eq_getElem hp2, ?_, ?_⟩
    · rw [← List.getElem?_eq_getElem hp2, hvals]
      rfl
    · simp [fixed_lookup.index_const, hl, List.getElem?_eq_getElem hp2]

theorem C22_fixed_lookup_finds_inserted_witness :
    (0 < 2) ∧
    fixed_lookup.index_all (fun k : Nat => k) [0, 2]
        (fixed_lookup.all_empty [10, 20] : fixed_lookup Nat 2)
      = Except.ok ([1, 0], { m_hashes := [4, 2], m_values := [10, 20] }) ∧
    (∀ k : Nat,
      ({ m_hashes := [4, 2], m_values := [10, 20] } : fixed_lookup Nat 2).index_const
          (fun k : Nat => k) k
        = Except.error (failure.throws (exception.other "Attempt to access an undefined key"))
      ↔ ({ m_hashes := [4, 2], m_values := [10, 20] } : fixed_lookup Nat 2).exists
          (fun k : Nat => k) k = Except.ok false) ∧
    ({ m_hashes := [4, 2], m_values := [10, 20] } : fixed_lookup Nat 2).lookup
        (fixed_lookup.hash_fn (fun k : Nat => k) 2)
      = Except.ok { position := 0, found := true } := by
  have hrun : fixed_lookup.index_all (fun k : Nat => k) [0, 2]
        (fixed_lookup.all_empty [10, 20] : fixed_lookup Nat 2)
      = Except.ok ([1, 0], { m_hashes := [4, 2], m_values := [10, 20] }) := by
    rfl
  exact ⟨by decide, hrun,
    (@C22_fixed_lookup_finds_inserted Nat Nat 2 (fun k : Nat => k) [10, 20] [0, 2] [1, 0]
      { m_hashes := [4, 2], m_values := [10, 20] } (by decide) rfl hrun).2.1,
    ((@C22_fixed_lookup_finds_inserted Nat Nat 2 (fun k : Nat => k) [10, 20] [0, 2] [1, 0]
      { m_hashes := [4, 2], m_values := [10, 20] } (by decide) rfl hrun).2.2.2
        1 2 0 rfl rfl).1⟩

section fixed_lookup_capacity

variable {Value Key : Type} {N : Nat}

theorem slot_cons_succ (x : Nat) (xs : List Nat) (n : Nat) :
    fixed_lookup.slot (x :: xs) (n + 1) = fixed_lookup.slot xs n := by
  unfold fixed_lookup.slot
  rw [List.getElem?_cons_succ]

theorem count_set_zero : ∀ (m : List Nat) (p h : Nat), p < m.length →
    fixed_lookup.slot m p = 0 → h ≠ 0 → (m.set p h).count 0 + 1 = m.count 0 := by
  intro m
  induction m with
  | nil =>
    intro p h hp
    cases hp
  | cons x xs ih =>
    intro p h hp hs hh
    cases p with
    | zero =>
      have hx : x = 0 := by
        unfold fixed_lookup.slot at hs
        simpa using hs
      subst hx
      rw [List.set_cons_zero, List.count_cons, List.count_cons]
      simp [hh]
    | succ q =>
      rw [slot_cons_succ] at hs
      have hq : q < xs.length := by
        simp only [List.length_cons] at hp
        omega
      have := ih q h hq hs hh
      rw [List.set_cons_succ, List.count_cons, List.count_cons]
      omega

theorem zero_mem_iff_slot (m : List Nat) :
    (∀ x ∈ m, x ≠ 0) ↔ ∀ n, n < m.length → fixed_lookup.slot m n ≠ 0 := by
  constructor
  · intro h n hn
    exact h _ ((mem_iff_slot m _).mpr ⟨n, hn, rfl⟩)
  · intro h x hx
    obtain ⟨n, hn, e⟩ := (mem_iff_slot m x).mp hx
    rw [← e]
    exact h n hn

/-- Keys whose hashes are pairwise distinct and not yet stored are all inserted
as long as there are empty slots, each taking one empty slot. -/
theorem index_all_nodup (fnv : Key → Nat) :
    ∀ (ks : List Key) (t : fixed_lookup Value N), t.well_formed → t.probe_inv →
      (ks.map (fixed_lookup.hash_fn fnv)).Nodup →
      (∀ k ∈ ks, fixed_lookup.hash_fn fnv k ∉ t.m_hashes) →
      ks.length ≤ t.m_hashes.count 0 →
      ∃ ps t2, fixed_lookup.index_all fnv ks t = Except.ok (ps, t2) ∧
        t2.m_hashes.count 0 + ks.length = t.m_hashes.count 0 := by
  intro ks
  induction ks with
  | nil =>
    intro t _ _ _ _ _
    exact ⟨[], t, rfl, rfl⟩
  | cons k rest ih =>
    intro t hwf hinv hnd hnot hcount
    have hlen : t.m_hashes.length = N := hwf.2.1
    have hk : fixed_lookup.hash_fn fnv k ∉ t.m_hashes := hnot k (List.mem_cons_self _ _)
    have hge := hash_fn_ge fnv k
    rw [List.map_cons, List.nodup_cons] at hnd
    rcases index_step t fnv k hwf hinv with ⟨_, hfull⟩ |
      ⟨p, t1, e, hp, hset, _, hcase, _, hwf1, hinv1⟩
    · exfalso
      have hpos : 0 < t.m_hashes.count 0 := by
        simp only [List.length_cons] at hcount
        omega
      obtain ⟨n, hn, hs⟩ := (mem_iff_slot _ _).mp (List.count_pos_iff.mp hpos)
      exact (hfull n (by omega)).2 hs
    · rcases hcase with ⟨hs, _⟩ | ⟨hs, _⟩
      · exact absurd ((mem_iff_slot _ _).mpr ⟨p, by omega, hs⟩) hk
      · have hc := count_set_zero t.m_hashes p (fixed_lookup.hash_fn fnv k)
          (by omega) hs (by omega)
        rw [← hset] at hc
        have hnot1 : ∀ k1 ∈ rest, fixed_lookup.hash_fn fnv k1 ∉ t1.m_hashes := by
          intro k1 hk1 hin
          have hge1 := hash_fn_ge fnv k1
          rw [hset, mem_set_hash _ _ _ _ (by omega) (by omega) (Or.inr hs)] at hin
          rcases hin with hin | hin
          · exact hnot k1 (List.mem_cons_of_mem _ hk1) hin
          · exact hnd.1 (List.mem_map.mpr ⟨k1, hk1, hin⟩)
        obtain ⟨ps, t2, e2, hc2⟩ := ih t1 hwf1 hinv1 hnd.2 hnot1 (by
          simp only [List.length_cons] at hcount
          omega)
        refine ⟨p :: ps, t2, ?_, ?_⟩
        · rw [index_all_cons, e]
          simp only [e2]
        · simp only [List.length_cons]
          omega

/-- The two outcomes of the non-const `operator[]` on any table of `N > 0`
slots. -/
theorem index_cases (t : fixed_lookup Value N) (fnv : Key → Nat) (k : Key) (hN : 0 < N)
    (hlen : t.m_hashes.length = N) :
    (t.index fnv k = Except.error (failure.throws (exception.other
        "Fixed hash table does not have enough space to allocate all entries")) ∧
      fixed_lookup.hash_fn fnv k ∉ t.m_hashes ∧ ∀ x ∈ t.m_hashes, x ≠ 0) ∨
    (∃ p, p < N ∧
      t.index fnv k = Except.ok (p,
        { m_hashes := t.m_hashes.set p (fixed_lookup.hash_fn fnv k),
          m_values := t.m_values }) ∧
      (fixed_lookup.slot t.m_hashes p = fixed_lookup.hash_fn fnv k ∨
        fixed_lookup.slot t.m_hashes p = 0)) := by
  have hh := hash_fn_ge fnv k
  rcases lookup_cases t _ hN hlen hh with ⟨e, hall⟩ | ⟨p, hp, e, hs, _⟩ | ⟨p, hp, e, hs, _⟩
  · left
    refine ⟨by simp [fixed_lookup.index, e, hlen], ?_, ?_⟩
    · intro hin
      obtain ⟨n, hn, hx⟩ := (mem_iff_slot _ _).mp hin
      exact (hall n (by omega)).1 hx
    · rw [zero_mem_iff_slot]
      intro n hn
      exact (hall n (by omega)).2
  · right
    exact ⟨p, hp, by simp [fixed_lookup.index, e], Or.inl hs⟩
  · right
    refine ⟨p, hp, ?_, Or.inr hs⟩
    have hne : ¬ p = t.m_hashes.length := by omega
    simp [fixed_lookup.index, e, hne]

end fixed_lookup_capacity

/-- C23: on a table of `N > 0` hash slots the non-const `operator[]` throws
"Fixed hash table does not have enough space to allocate all entries" exactly
when the hash of the key is not stored and no hash slot is empty, and it fails
in no other way; the throw precedes the write, so the table is as before. In
every other case it returns a position `p < N` whose slot held the hash or was
empty, and the table afterwards differs from the one before in the hash slot
`p` only, which now holds the hash. Consequently, starting from the table with
all slots empty, keys with pairwise distinct hashes, at most `N` of them, are
all inserted, and once `N` of them are in, a key with a further hash is
rejected. -/
theorem C23_index_throws_iff_full {Value Key : Type} {N : Nat} (fnv : Key → Nat)
    (hN : 0 < N) :
    (∀ (t : fixed_lookup Value N) (k : Key), t.m_hashes.length = N →
      (t.index fnv k = Except.error (failure.throws (exception.other
          "Fixed hash table does not have enough space to allocate all entries"))
        ↔ fixed_lookup.hash_fn fnv k ∉ t.m_hashes ∧
          ∀ x ∈ t.m_hashes, x ≠ impl.sentinals.empty) ∧
      (∀ e, t.index fnv k = Except.error e → e = failure.throws (exception.other
          "Fixed hash table does not have enough space to allocate all entries")) ∧
      ((fixed_lookup.hash_fn fnv k ∈ t.m_hashes ∨ impl.sentinals.empty ∈ t.m_hashes) →
        ∃ p t1, t.index fnv k = Except.ok (p, t1)) ∧
      (∀ p t1, t.index fnv k = Except.ok (p, t1) →
        p < N ∧
        (fixed_lookup.slot t.m_hashes p = fixed_lookup.hash_fn fnv k ∨
          fixed_lookup.slot t.m_hashes p = impl.sentinals.empty) ∧
        t1.m_hashes = t.m_hashes.set p (fixed_lookup.hash_fn fnv k) ∧
        t1.m_values = t.m_values ∧
        fixed_lookup.slot t1.m_hashes p = fixed_lookup.hash_fn fnv k ∧
        ∀ n, n ≠ p → fixed_lookup.slot t1.m_hashes n = fixed_lookup.slot t.m_hashes n)) ∧
    (∀ (values : List Value) (ks : List Key), values.length = N →
      (ks.map (fixed_lookup.hash_fn fnv)).Nodup → ks.length ≤ N →
      ∃ ps t2, fixed_lookup.index_all fnv ks (fixed_lookup.all_empty values : fixed_lookup Value N)
          = Except.ok (ps, t2) ∧
        (ks.length = N → ∀ k, fixed_lookup.hash_fn fnv k ∉ ks.map (fixed_lookup.hash_fn fnv) →
          t2.index fnv k = Except.error (failure.throws (exception.other
            "Fixed hash table does not have enough space to allocate all entries")))) := by
  have hparts : ∀ (t : fixed_lookup Value N) (k : Key), t.m_hashes.length = N →
      (t.index fnv k = Except.error (failure.throws (exception.other
          "Fixed hash table does not have enough space to allocate all entries"))
        ↔ fixed_lookup.hash_fn fnv k ∉ t.m_hashes ∧
          ∀ x ∈ t.m_hashes, x ≠ impl.sentinals.empty) := by
    intro t k hlen
    rcases index_cases t fnv k hN hlen with ⟨e, h1, h2⟩ | ⟨p, hp, e, hcase⟩
    · exact ⟨fun _ => ⟨h1, h2⟩, fun _ => e⟩
    · constructor
      · intro herr
        rw [e] at herr
        cases herr
      · rintro ⟨h1, h2⟩
        exfalso
        rcases hcase with hs | hs
        · exact h1 ((mem_iff_slot _ _).mpr ⟨p, by omega, hs⟩)
        · exact h2 _ ((mem_iff_slot _ _).mpr ⟨p, by omega, hs⟩) rfl
  refine ⟨?_, ?_⟩
  · intro t k hlen
    refine ⟨hparts t k hlen, ?_, ?_, ?_⟩
    · intro e he
      rcases index_cases t fnv k hN hlen with ⟨e1, _, _⟩ | ⟨p, _, e1, _⟩
      · rw [e1] at he
        cases he
        rfl
      · rw [e1] at he
        cases he
    · intro hor
      rcases index_cases t fnv k hN hlen with ⟨_, h1, h2⟩ | ⟨p, _, e1, _⟩
      · exfalso
        rcases hor with hin | hin
        · exact h1 hin
        · exact h2 _ hin rfl
      · exact ⟨_, _, e1⟩
    · intro p t1 he
      rcases index_cases t fnv k hN hlen with ⟨e1, _, _⟩ | ⟨q, hq, e1, hcase⟩
      · rw [e1] at he
        cases he
      · rw [e1] at he
        cases he
        refine ⟨hq, hcase, rfl, rfl, ?_, ?_⟩
        · simp [slot_set, hlen, hq]
        · intro n hn
          rw [slot_set, if_neg]
          intro hx
          exact hn hx.1.symm
  · intro values ks hv hnd hle
    obtain ⟨hwf0, hinv0, hnone0, hc0⟩ := all_empty_invariants values hN hv
    obtain ⟨ps, t2, e, hc⟩ := index_all_nodup fnv ks
      (fixed_lookup.all_empty values : fixed_lookup Value N) hwf0 hinv0 hnd
      (fun k _ => hnone0 _ (by have := hash_fn_ge fnv k; omega)) (by omega)
    refine ⟨ps, t2, e, ?_⟩
    intro hfull k hk
    obtain ⟨hwf2, _, _, _, hmem, _, _⟩ := index_all_spec fnv ks _ t2 ps hwf0 hinv0 e
    have hge := hash_fn_ge fnv k
    rw [hparts t2 k hwf2.2.1]
    constructor
    · intro hin
      rw [hmem _ (by omega)] at hin
      rcases hin with hin | hin
      · exact hnone0 _ (by omega) hin
      · exact hk hin
    · intro x hx hx0
      have hz : t2.m_hashes.count 0 = 0 := by omega
      rw [List.count_eq_zero] at hz
      have h0 : x = 0 := hx0
      subst h0
      exact hz hx

theorem C23_index_throws_iff_full_witness :
    (0 < 2) ∧
    ((({ m_hashes := [4, 2], m_values := [10, 20] } : fixed_lookup Nat 2).index
        (fun k : Nat => k) 5
      = Except.error (failure.throws (exception.other
          "Fixed hash table does not have enough space to allocate all entries")))
      ↔ fixed_lookup.hash_fn (fun k : Nat => k) 5 ∉ [4, 2] ∧
        ∀ x ∈ [4, 2], x ≠ impl.sentinals.empty) ∧
    (({ m_hashes := [4, 2], m_values := [10, 20] } : fixed_lookup Nat 2).index
        (fun k : Nat => k) 5
      = Except.error (failure.throws (exception.other
          "Fixed hash table does not have enough space to allocate all entries"))) ∧
    (({ m_hashes := [0, 2], m_values := [10, 20] } : fixed_lookup Nat 2).index
        (fun k : Nat => k) 2
      = Except.ok (0, { m_hashes := [4, 2], m_values := [10, 20] })) :=
  ⟨by decide,
    ((@C23_index_throws_iff_full Nat Nat 2 (fun k : Nat => k) (by decide)).1
      { m_hashes := [4, 2], m_values := [10, 20] } 5 rfl).1,
    rfl, rfl⟩

section cxmath_lemmas

open cxmath.cxmath_impl

theorem smear_step (v w c : Nat)
    (h : ∀ i, w.testBit i = true ↔ ∃ d, d < c ∧ v.testBit (i + d) = true) :
    ∀ i, (w ||| (w >>> c)).testBit i = true ↔ ∃ d, d < 2 * c ∧ v.testBit (i + d) = true := by
  intro i
  rw [Nat.testBit_or, Nat.testBit_shiftRight, Bool.or_eq_true, h, h]
  constructor
  · rintro (⟨d, hd, hv⟩ | ⟨d, hd, hv⟩)
    · exact ⟨d, by omega, hv⟩
    · refine ⟨c + d, by omega, ?_⟩
      rw [← hv]
      congr 1
      omega
  · rintro ⟨d, hd, hv⟩
    by_cases hdc : d < c
    · exact Or.inl ⟨d, hdc, hv⟩
    · refine Or.inr ⟨d - c, by omega, ?_⟩
      rw [← hv]
      congr 1
      omega

theorem testBit_top (v j : Nat) (h1 : 2 ^ j ≤ v) (h2 : v < 2 ^ (j + 1)) :
    v.testBit j = true := by
  rw [Nat.testBit_to_div_mod]
  have hd : v / 2 ^ j = 1 := by
    apply Nat.div_eq_of_lt_le
    · simpa using h1
    · rw [pow_succ] at h2
      omega
  simp [hd]

/-- The six shift-and-or steps set every bit below the highest set bit. -/
theorem smear_spec (v j : Nat) (hj : j < 64) (h1 : 2 ^ j ≤ v) (h2 : v < 2 ^ (j + 1))
    (w : Nat) (hw : ∀ i, w.testBit i = true ↔ ∃ d, d < 64 ∧ v.testBit (i + d) = true) :
    w = 2 ^ (j + 1) - 1 := by
  apply Nat.eq_of_testBit_eq
  intro i
  rw [Nat.testBit_two_pow_sub_one]
  by_cases hi : i < j + 1
  · rw [decide_eq_true hi, hw]
    refine ⟨j - i, by omega, ?_⟩
    have : i + (j - i) = j := by omega
    rw [this]
    exact testBit_top v j h1 h2
  · rw [decide_eq_false hi]
    cases hb : w.testBit i with
    | false => rfl
    | true =>
      obtain ⟨d, _, hv⟩ := (hw i).mp hb
      have hlt : v < 2 ^ (i + d) :=
        lt_of_lt_of_le h2 (Nat.pow_le_pow_right (by decide) (by omega))
      rw [Nat.testBit_lt_two_pow hlt] at hv
      cases hv

theorem bit_position_spec : ∀ j < 64, ([
    0,  1,  2,  7,  3,  13, 8,  19, 4,  25, 14, 28, 9,  34, 20, 40,
    5,  17, 26, 38, 15, 46, 29, 48, 10, 31, 35, 54, 21, 50, 41, 57,
    63, 6,  12, 18, 24, 27, 33, 39, 16, 37, 45, 47, 30, 53, 49, 56,
    62, 11, 23, 32, 36, 44, 52, 55, 61, 22, 43, 51, 60, 42, 59, 58] : List Nat).getD
      (((2 ^ j * 0x0218a392cd3d5dbf) % 2 ^ 64) >>> 58) 0 = j := by decide

/-- `count_leading_zeroes` counts the zero bits above the highest set bit of a
non-zero `uint64_t`. -/
theorem count_leading_zeroes_spec (v j : Nat) (hj : j < 64) (h1 : 2 ^ j ≤ v)
    (h2 : v < 2 ^ (j + 1)) : count_leading_zeroes v = 63 - j := by
  have s0 : ∀ i, v.testBit i = true ↔ ∃ d, d < 1 ∧ v.testBit (i + d) = true := by
    intro i
    constructor
    · intro h
      exact ⟨0, by omega, h⟩
    · rintro ⟨d, hd, h⟩
      have : d = 0 := by omega
      subst this
      exact h
  have s1 := smear_step v _ 1 s0
  have s2 := smear_step v _ 2 s1
  have s3 := smear_step v _ 4 s2
  have s4 := smear_step v _ 8 s3
  have s5 := smear_step v _ 16 s4
  have s6 := smear_step v _ 32 s5
  have hw := smear_spec v j hj h1 h2 _ s6
  have hpow : 1 ≤ 2 ^ j := Nat.one_le_two_pow
  have hhalf : (2 ^ (j + 1) - 1) >>> 1 + 1 = 2 ^ j := by
    rw [Nat.shiftRight_eq_div_pow, pow_succ]
    omega
  have hlt : 2 ^ j < 2 ^ 64 := Nat.pow_lt_pow_right (by decide) hj
  unfold count_leading_zeroes
  simp only []
  rw [hw, hhalf, Nat.mod_eq_of_lt hlt, bit_position_spec j hj]
  omega

theorem two_zpow_pos (k : ℤ) : (0 : ℚ) < (2 : ℚ) ^ k := zpow_pos (by norm_num) k

theorem magnitude_normal (s : Bool) (e fr : Nat) (he : 1 ≤ e) :
    float.magnitude { sign := s, exponent := e, fraction := fr }
      = ((2 ^ 23 + fr : Nat) : ℚ) * (2 : ℚ) ^ ((e : ℤ) - 150) := by
  unfold float.magnitude
  rw [if_neg (by simp only []; omega)]

theorem magnitude_two_pow (k : ℤ) (hk : -126 ≤ k) :
    (float.two_pow k).magnitude = (2 : ℚ) ^ k := by
  unfold float.two_pow
  rw [magnitude_normal _ _ _ (by omega)]
  have h1 : (((k + 127).toNat : ℕ) : ℤ) = k + 127 := Int.toNat_of_nonneg (by omega)
  rw [h1]
  have h2 : ((2 ^ 23 + 0 : ℕ) : ℚ) = (2 : ℚ) ^ (23 : ℤ) := by norm_num
  rw [h2, ← zpow_add₀ (by norm_num)]
  congr 1
  omega

/-- The binade of `m * 2 ^ (E - 23)` for a 24-bit significand `m`. -/
theorem log_significand (m : Nat) (E : ℤ) (hm1 : 2 ^ 23 ≤ m) (hm2 : m < 2 ^ 24) :
    Int.log 2 ((m : ℚ) * (2 : ℚ) ^ (E - 23)) = E := by
  have hpos : (0 : ℚ) < (m : ℚ) * (2 : ℚ) ^ (E - 23) :=
    mul_pos (by exact_mod_cast (by omega : 0 < m)) (two_zpow_pos _)
  have hlow : ((2 : ℕ) : ℚ) ^ E ≤ (m : ℚ) * (2 : ℚ) ^ (E - 23) := by
    have : ((2 : ℕ) : ℚ) ^ E = (2 : ℚ) ^ (23 : ℤ) * (2 : ℚ) ^ (E - 23) := by
      rw [← zpow_add₀ (by norm_num), Nat.cast_ofNat]
      congr 1
      omega
    rw [this]
    apply mul_le_mul_of_nonneg_right _ (le_of_lt (two_zpow_pos _))
    have h8 : 8388608 ≤ m := by omega
    have h : (8388608 : ℚ) ≤ (m : ℚ) := by exact_mod_cast h8
    have e : (2 : ℚ) ^ (23 : ℤ) = 8388608 := by norm_num
    rw [e]
    exact h
  have hhigh : (m : ℚ) * (2 : ℚ) ^ (E - 23) < ((2 : ℕ) : ℚ) ^ (E + 1) := by
    have : ((2 : ℕ) : ℚ) ^ (E + 1) = (2 : ℚ) ^ (24 : ℤ) * (2 : ℚ) ^ (E - 23) := by
      rw [← zpow_add₀ (by norm_num), Nat.cast_ofNat]
      congr 1
      omega
    rw [this]
    apply mul_lt_mul_of_pos_right _ (two_zpow_pos _)
    have h8 : m < 16777216 := by omega
    have h : (m : ℚ) < (16777216 : ℚ) := by exact_mod_cast h8
    have e : (2 : ℚ) ^ (24 : ℤ) = 16777216 := by norm_num
    rw [e]
    exact h
  have h1 := (Int.zpow_le_iff_le_log (by norm_num) hpos).mp hlow
  have h2 := (Int.lt_zpow_iff_log_lt (by norm_num) hpos).mp hhigh
  omega

theorem round_half_even_natCast (m : Nat) : float.round_half_even (m : ℚ) = m := by
  unfold float.round_half_even
  simp

/-- A value that is a binary32 normal datum rounds to that datum. -/
theorem round_exact (s : Bool) (m : Nat) (E : ℤ) (hm1 : 2 ^ 23 ≤ m) (hm2 : m < 2 ^ 24)
    (hE1 : -126 ≤ E) (hE2 : E ≤ 127) :
    float.round s ((m : ℚ) * (2 : ℚ) ^ (E - 23))
      = { sign := s, exponent := (E + 127).toNat, fraction := m - 2 ^ 23 } := by
  have hpos : (0 : ℚ) < (m : ℚ) * (2 : ℚ) ^ (E - 23) :=
    mul_pos (by exact_mod_cast (by omega : 0 < m)) (two_zpow_pos _)
  unfold float.round
  rw [if_neg (not_le.mpr hpos)]
  simp only []
  rw [log_significand m E hm1 hm2, max_eq_left hE1,
    mul_div_cancel_right₀ _ (ne_of_gt (two_zpow_pos _)), round_half_even_natCast]
  rw [if_neg (by omega), if_neg (by omega), if_neg (by omega), if_neg (by omega)]

theorem two_pow_fields (k : ℤ) (hk2 : k ≤ 127) :
    (float.two_pow k).is_nan = false ∧ (float.two_pow k).is_inf = false := by
  have h : ¬ (k + 127).toNat = 255 := by omega
  simp [float.two_pow, float.is_nan, float.is_inf, h]

theorem finite_fields (s : Bool) (e fr : Nat) (he : e ≤ 254) :
    float.is_nan { sign := s, exponent := e, fraction := fr } = false ∧
    float.is_inf { sign := s, exponent := e, fraction := fr } = false := by
  have h : ¬ e = 255 := by omega
  simp [float.is_nan, float.is_inf, h]

/-- The product of a normal datum and a power of two that stays among the
normal data is exact: the exponent field moves, the fraction stays. -/
theorem mul_two_pow (s : Bool) (e fr : Nat) (k : ℤ) (he1 : 1 ≤ e) (he2 : e ≤ 254)
    (hfr : fr < 2 ^ 23) (hk1 : -126 ≤ k) (hk2 : k ≤ 127) (h1 : 1 ≤ (e : ℤ) + k)
    (h2 : (e : ℤ) + k ≤ 254) :
    float.mul { sign := s, exponent := e, fraction := fr } (float.two_pow k)
      = { sign := s, exponent := ((e : ℤ) + k).toNat, fraction := fr } := by
  unfold float.mul
  rw [(finite_fields s e fr he2).1, (finite_fields s e fr he2).2,
    (two_pow_fields k hk2).1, (two_pow_fields k hk2).2]
  simp only [Bool.or_self, Bool.false_eq_true, if_false]
  rw [magnitude_normal _ _ _ he1, magnitude_two_pow k hk1]
  have hprod : ((2 ^ 23 + fr : ℕ) : ℚ) * (2 : ℚ) ^ ((e : ℤ) - 150) * (2 : ℚ) ^ k
      = ((2 ^ 23 + fr : ℕ) : ℚ) * (2 : ℚ) ^ (((e : ℤ) + k - 127) - 23) := by
    rw [mul_assoc, ← zpow_add₀ (by norm_num)]
    congr 2
    omega
  rw [hprod, round_exact _ (2 ^ 23 + fr) ((e : ℤ) + k - 127) (by omega) (by omega)
    (by omega) (by omega)]
  have hs : xor s (float.two_pow k).sign = s := by simp [float.two_pow]
  have hexp : ((e : ℤ) + k - 127 + 127) = (e : ℤ) + k := by omega
  have hfrac : 2 ^ 23 + fr - 2 ^ 23 = fr := by omega
  rw [hs, hexp, hfrac]

theorem to_rat_pos (e fr : Nat) :
    float.to_rat { sign := false, exponent := e, fraction := fr }
      = float.magnitude { sign := false, exponent := e, fraction := fr } := by
  simp [float.to_rat]

/-- The test `abs_f < 0x1p87f` on a positive normal datum. -/
theorem lt_two_pow_87 (e fr : Nat) (he1 : 1 ≤ e) (he2 : e ≤ 254) (hfr : fr < 2 ^ 23) :
    float.lt { sign := false, exponent := e, fraction := fr } (float.two_pow 87)
      = decide (e < 214) := by
  unfold float.lt
  rw [(finite_fields false e fr he2).1, (two_pow_fields 87 (by decide)).1, to_rat_pos,
    magnitude_normal _ _ _ he1]
  have h87 : (float.two_pow 87).to_rat = (2 : ℚ) ^ (87 : ℤ) := by
    have : (float.two_pow 87).to_rat = (float.two_pow 87).magnitude := by
      simp [float.to_rat, float.two_pow]
    rw [this, magnitude_two_pow 87 (by decide)]
  rw [h87]
  have hval : ((2 ^ 23 + fr : ℕ) : ℚ) * (2 : ℚ) ^ ((e : ℤ) - 150)
      = ((2 ^ 23 + fr : ℕ) : ℚ) * (2 : ℚ) ^ (((e : ℤ) - 127) - 23) := by
    congr 2
    omega
  rw [hval]
  have hpos : (0 : ℚ) < ((2 ^ 23 + fr : ℕ) : ℚ) * (2 : ℚ) ^ (((e : ℤ) - 127) - 23) :=
    mul_pos (by exact_mod_cast (by omega : 0 < 2 ^ 23 + fr)) (two_zpow_pos _)
  have hlog := log_significand (2 ^ 23 + fr) ((e : ℤ) - 127) (by omega) (by omega)
  have hiff := Int.lt_zpow_iff_log_lt (b := 2) (by norm_num) (x := 87) hpos
  rw [hlog, Nat.cast_ofNat] at hiff
  simp only [Bool.not_false, Bool.true_and]
  by_cases h : e < 214
  · rw [decide_eq_true h, decide_eq_true (hiff.mpr (by omega))]
  · rw [decide_eq_false h, decide_eq_false (fun hx => h (by have := hiff.mp hx; omega))]

/-- The conversion to `uint64_t` of a positive datum that is an integer below
`2 ^ 64`. -/
theorem to_uint64_integer (e fr : Nat) (he1 : 150 ≤ e) (he2 : e ≤ 190) (hfr : fr < 2 ^ 23) :
    float.to_uint64 { sign := false, exponent := e, fraction := fr }
      = Except.ok ((2 ^ 23 + fr) * 2 ^ (e - 150)) := by
  have hmag : float.magnitude { sign := false, exponent := e, fraction := fr }
      = (((2 ^ 23 + fr) * 2 ^ (e - 150) : ℕ) : ℚ) := by
    rw [magnitude_normal _ _ _ (by omega)]
    have : ((e : ℤ) - 150) = ((e - 150 : ℕ) : ℤ) := by omega
    rw [this, zpow_natCast]
    push_cast
    rfl
  have hbound : (2 ^ 23 + fr) * 2 ^ (e - 150) < 2 ^ 64 := by
    have hp : 2 ^ (e - 150) ≤ 2 ^ 40 := Nat.pow_le_pow_right (by decide) (by omega)
    calc (2 ^ 23 + fr) * 2 ^ (e - 150) ≤ (2 ^ 24 - 1) * 2 ^ 40 :=
          Nat.mul_le_mul (by omega) hp
      _ < 2 ^ 64 := by decide
  unfold float.to_uint64
  rw [(finite_fields false e fr (by omega)).1, (finite_fields false e fr (by omega)).2,
    to_rat_pos, hmag]
  simp only [Bool.or_self, Bool.false_eq_true, if_false]
  rw [if_neg, Nat.floor_natCast]
  rintro (h | h)
  · have h0 : (0 : ℚ) ≤ (((2 ^ 23 + fr) * 2 ^ (e - 150) : ℕ) : ℚ) := Nat.cast_nonneg _
    linarith
  · have : (((2 ^ 23 + fr) * 2 ^ (e - 150) : ℕ) : ℚ) < ((2 ^ 64 : ℕ) : ℚ) := by
      exact_mod_cast hbound
    have e64 : ((2 ^ 64 : ℕ) : ℚ) = (2 : ℚ) ^ 64 := by norm_num
    rw [e64] at this
    linarith

/-- The loop of `bits` on a positive normal datum ends within the bound, having
moved the exponent field into 214..254 by steps of 41. -/
theorem bits_loop_spec (fr : Nat) (hfr : fr < 2 ^ 23) :
    ∀ (fuel e : Nat) (exponent : ℤ), 1 ≤ e → e ≤ 254 → 254 < e + 41 * fuel →
      ∃ e1 : Nat, bits_loop fuel { sign := false, exponent := e, fraction := fr } exponent
          = some ({ sign := false, exponent := e1, fraction := fr },
              exponent + (e : ℤ) - (e1 : ℤ)) ∧
        214 ≤ e1 ∧ e1 ≤ 254 := by
  intro fuel
  induction fuel with
  | zero =>
    intro e exponent _ he2 hf
    omega
  | succ n ih =>
    intro e exponent he1 he2 hf
    unfold bits_loop
    rw [lt_two_pow_87 e fr he1 he2 hfr]
    by_cases h : e < 214
    · rw [decide_eq_true h, if_pos rfl,
        mul_two_pow false e fr 41 he1 he2 hfr (by decide) (by decide) (by omega) (by omega)]
      have hnat : ((e : ℤ) + 41).toNat = e + 41 := by omega
      rw [hnat]
      obtain ⟨e1, hrun, hlo, hhi⟩ := ih (e + 41) (exponent - 41) (by omega) (by omega)
        (by omega)
      refine ⟨e1, ?_, hlo, hhi⟩
      rw [hrun]
      congr 2
      push_cast
      omega
    · rw [decide_eq_false h, if_neg (by simp)]
      refine ⟨e, ?_, by omega, he2⟩
      congr 2
      omega

theorem magnitude_pos (s : Bool) (e fr : Nat) (he : 1 ≤ e) :
    0 < float.magnitude { sign := s, exponent := e, fraction := fr } := by
  rw [magnitude_normal _ _ _ he]
  exact mul_pos (by exact_mod_cast (by omega : 0 < 2 ^ 23 + fr)) (two_zpow_pos _)

theorem magnitude_le_max (s : Bool) (e fr : Nat) (he1 : 1 ≤ e) (he2 : e ≤ 254)
    (hfr : fr < 2 ^ 23) :
    float.magnitude { sign := s, exponent := e, fraction := fr }
      ≤ float.numeric_limits_max.magnitude := by
  have hmax : float.numeric_limits_max.magnitude = (2 ^ 24 - 1) * (2 : ℚ) ^ (104 : ℤ) := by
    unfold float.numeric_limits_max
    rw [magnitude_normal _ _ _ (by decide)]
    norm_num
  rw [hmax, magnitude_normal _ _ _ he1]
  by_cases h : e = 254
  · subst h
    have h8 : 2 ^ 23 + fr ≤ 16777215 := by omega
    have hq : ((2 ^ 23 + fr : ℕ) : ℚ) ≤ (16777215 : ℚ) := by exact_mod_cast h8
    have he : (((254 : ℕ) : ℤ) - 150) = 104 := by norm_num
    have hc : ((2 : ℚ) ^ 24 - 1) = 16777215 := by norm_num
    rw [he, hc]
    exact mul_le_mul_of_nonneg_right hq (le_of_lt (two_zpow_pos _))
  · have hval : ((2 ^ 23 + fr : ℕ) : ℚ) * (2 : ℚ) ^ ((e : ℤ) - 150)
        = ((2 ^ 23 + fr : ℕ) : ℚ) * (2 : ℚ) ^ (((e : ℤ) - 127) - 23) := by
      congr 2
      omega
    rw [hval]
    have hpos : (0 : ℚ) < ((2 ^ 23 + fr : ℕ) : ℚ) * (2 : ℚ) ^ (((e : ℤ) - 127) - 23) :=
      mul_pos (by exact_mod_cast (by omega : 0 < 2 ^ 23 + fr)) (two_zpow_pos _)
    have hlog := log_significand (2 ^ 23 + fr) ((e : ℤ) - 127) (by omega) (by omega)
    have hiff := Int.lt_zpow_iff_log_lt (b := 2) (by norm_num) (x := 127) hpos
    rw [hlog, Nat.cast_ofNat] at hiff
    have hlt := hiff.mpr (by omega)
    have h127 : (2 : ℚ) ^ (127 : ℤ) ≤ (2 ^ 24 - 1) * (2 : ℚ) ^ (104 : ℤ) := by norm_num
    linarith

theorem pack_fields (sb e fr : Nat) (hs : sb ≤ 1) (he : e ≤ 254) (hfr : fr < 2 ^ 23) :
    (((sb <<< 31) % 2 ^ 32) ||| ((e <<< 23) % 2 ^ 32)) ||| fr
      = sb * 2 ^ 31 + e * 2 ^ 23 + fr := by
  rw [Nat.shiftLeft_eq, Nat.shiftLeft_eq, Nat.mod_eq_of_lt (by omega),
    Nat.mod_eq_of_lt (by omega)]
  have h1 := Nat.mul_add_lt_is_or (by omega : e * 2 ^ 23 < 2 ^ 31) sb
  have h2 := Nat.mul_add_lt_is_or hfr (2 ^ 8 * sb + e)
  have e1 : 2 ^ 31 * sb = sb * 2 ^ 31 := Nat.mul_comm _ _
  have e2 : 2 ^ 23 * (2 ^ 8 * sb + e) = sb * 2 ^ 31 + e * 2 ^ 23 := by omega
  rw [e1] at h1
  rw [e2] at h2
  rw [← h1, ← h2]

/-- The bit pattern of the value of a normal datum is made of its fields. -/
theorem binary32_pattern_normal (s : Bool) (e fr : Nat) (he1 : 1 ≤ e) (hfr : fr < 2 ^ 23) :
    binary32_pattern (float.to_rat { sign := s, exponent := e, fraction := fr })
      = (if s then 1 else 0) * 2 ^ 31 + e * 2 ^ 23 + fr ∧
    Int.log 2 |float.to_rat { sign := s, exponent := e, fraction := fr }| + 127 = (e : ℤ) := by
  have hpos := magnitude_pos s e fr he1
  have habs : |float.to_rat { sign := s, exponent := e, fraction := fr }|
      = ((2 ^ 23 + fr : ℕ) : ℚ) * (2 : ℚ) ^ (((e : ℤ) - 127) - 23) := by
    have hval : ((2 ^ 23 + fr : ℕ) : ℚ) * (2 : ℚ) ^ ((e : ℤ) - 150)
        = ((2 ^ 23 + fr : ℕ) : ℚ) * (2 : ℚ) ^ (((e : ℤ) - 127) - 23) := by
      congr 2
      omega
    rw [← hval, ← magnitude_normal s e fr he1]
    unfold float.to_rat
    cases s
    · simp only [Bool.false_eq_true, if_false]
      exact abs_of_pos hpos
    · simp only [if_true]
      rw [abs_neg]
      exact abs_of_pos hpos
  have hneg : (float.to_rat { sign := s, exponent := e, fraction := fr } < 0) ↔ s = true := by
    unfold float.to_rat
    cases s
    · simp only [Bool.false_eq_true, if_false, iff_false, not_lt]
      exact le_of_lt hpos
    · simp only [if_true, iff_true]
      linarith
  have hlog := log_significand (2 ^ 23 + fr) ((e : ℤ) - 127) (by omega) (by omega)
  have hfrac : (((2 ^ 23 + fr : ℕ) : ℚ) * (2 : ℚ) ^ (((e : ℤ) - 127) - 23)
      / (2 : ℚ) ^ ((e : ℤ) - 127) - 1) * 2 ^ 23 = (fr : ℚ) := by
    rw [zpow_sub₀ (by norm_num)]
    have h2 : (2 : ℚ) ^ ((e : ℤ) - 127) ≠ 0 := ne_of_gt (two_zpow_pos _)
    field_simp
    ring
  refine ⟨?_, ?_⟩
  · unfold binary32_pattern
    rw [habs, hlog, hfrac, Nat.floor_natCast]
    have hE : ((e : ℤ) - 127 + 127).toNat = e := by omega
    rw [hE]
    cases s
    · rw [if_neg (fun h => Bool.noConfusion (hneg.mp h))]
      simp
    · rw [if_pos (hneg.mpr rfl)]
      simp
  · rw [habs, hlog]
    omega

/-- The four tests at the head of `bits` fail on a normal datum, and the test
`f < 0.0f` gives its sign bit. -/
theorem bits_tests_normal (s : Bool) (e fr : Nat) (he1 : 1 ≤ e) (he2 : e ≤ 254)
    (hfr : fr < 2 ^ 23) :
    float.eq { sign := s, exponent := e, fraction := fr } float.zero = false ∧
    float.gt { sign := s, exponent := e, fraction := fr } float.numeric_limits_max = false ∧
    float.lt { sign := s, exponent := e, fraction := fr } float.numeric_limits_max.neg = false ∧
    float.ne { sign := s, exponent := e, fraction := fr }
      { sign := s, exponent := e, fraction := fr } = false ∧
    float.lt { sign := s, exponent := e, fraction := fr } float.zero = s := by
  have hpos := magnitude_pos s e fr he1
  have hle := magnitude_le_max s e fr he1 he2 hfr
  have hmpos : 0 < float.numeric_limits_max.magnitude := magnitude_pos false 254 _ (by decide)
  have hz : float.zero.to_rat = 0 := by
    simp [float.zero, float.to_rat, float.magnitude]
  have hzn : float.zero.is_nan = false := by decide
  have hmn : float.numeric_limits_max.is_nan = false := by decide
  have hmn2 : float.numeric_limits_max.neg.is_nan = false := by decide
  have hmr : float.numeric_limits_max.to_rat = float.numeric_limits_max.magnitude := by
    simp [float.to_rat, float.numeric_limits_max]
  have hmr2 : float.numeric_limits_max.neg.to_rat = - float.numeric_limits_max.magnitude := by
    simp [float.to_rat, float.numeric_limits_max, float.neg, float.magnitude]
  have hfn := (finite_fields s e fr he2).1
  have hfr1 : float.to_rat { sign := s, exponent := e, fraction := fr }
      = if s then - float.magnitude { sign := s, exponent := e, fraction := fr }
        else float.magnitude { sign := s, exponent := e, fraction := fr } := rfl
  unfold float.ne float.gt float.eq float.lt
  rw [hfn, hzn, hmn, hmn2, hz, hmr, hmr2, hfr1]
  cases s
  · simp only [Bool.false_eq_true, if_false, Bool.not_false, Bool.true_and, decide_True,
      Bool.not_true]
    refine ⟨?_, ?_, ?_, trivial, ?_⟩
    · exact decide_eq_false (ne_of_gt hpos)
    · exact decide_eq_false (not_lt.mpr hle)
    · exact decide_eq_false (by linarith)
    · exact decide_eq_false (by linarith)
  · simp only [if_true, Bool.not_false, Bool.true_and, decide_True, Bool.not_true]
    refine ⟨?_, ?_, ?_, trivial, ?_⟩
    · exact decide_eq_false (by linarith)
    · exact decide_eq_false (by linarith)
    · exact decide_eq_false (by linarith)
    · exact decide_eq_true (by linarith)

/-- The significand `bits` extracts: the shift left by `lz + 1` drops the
leading one, the shift right by 41 leaves the 23 fraction bits. -/
theorem significand_spec (fr sh : Nat) (hfr : fr < 2 ^ 23) (hsh : sh ≤ 40) :
    (((((2 ^ 23 + fr) * 2 ^ sh) <<< (41 - sh)) % 2 ^ 64) >>> (64 - 23)) % 2 ^ 32 = fr := by
  have hpow : 2 ^ sh * 2 ^ (41 - sh) = 2 ^ 41 := by
    rw [← pow_add]
    congr 1
    omega
  have hmul : (2 ^ 23 + fr) * 2 ^ sh * 2 ^ (41 - sh) = 2 ^ 64 + fr * 2 ^ 41 := by
    rw [Nat.mul_assoc, hpow]
    omega
  have h41 : fr * 2 ^ 41 % 2 ^ 64 = fr * 2 ^ 41 := Nat.mod_eq_of_lt (by omega)
  rw [Nat.shiftLeft_eq, hmul, Nat.add_mod_left, h41, Nat.shiftRight_eq_div_pow]
  have hdiv : fr * 2 ^ 41 / 2 ^ (64 - 23) = fr := by
    have : (64 - 23 : Nat) = 41 := by decide
    rw [this]
    exact Nat.mul_div_cancel _ (by decide)
  rw [hdiv]
  exact Nat.mod_eq_of_lt (by omega)

theorem bits_normal (s : Bool) (e fr fuel : Nat) (he1 : 1 ≤ e) (he2 : e ≤ 254)
    (hfr : fr < 2 ^ 23) (hfuel : 7 ≤ fuel) :
    bits fuel { sign := s, exponent := e, fraction := fr }
      = some (Except.ok
          { m_raw_value := (if s then 1 else 0) * 2 ^ 31 + e * 2 ^ 23 + fr,
            m_float_value := { sign := s, exponent := e, fraction := fr } }) := by
  obtain ⟨t1, t2, t3, t4, t5⟩ := bits_tests_normal s e fr he1 he2 hfr
  obtain ⟨e1, hloop, hlo, hhi⟩ := bits_loop_spec fr hfr fuel e 254 he1 he2 (by omega)
  have habs : (if s = true then float.neg { sign := s, exponent := e, fraction := fr }
      else { sign := s, exponent := e, fraction := fr })
      = ({ sign := false, exponent := e, fraction := fr } : float) := by
    cases s <;> rfl
  have hmul := mul_two_pow false e1 fr (-64) (by omega) hhi hfr (by decide) (by decide)
    (by omega) (by omega)
  have hnat : ((e1 : ℤ) + -64).toNat = e1 - 64 := by omega
  rw [hnat] at hmul
  have hcast := to_uint64_integer (e1 - 64) fr (by omega) (by omega) hfr
  have hsh : e1 - 64 - 150 = e1 - 214 := by omega
  rw [hsh] at hcast
  have hp : 0 < 2 ^ (e1 - 214) := Nat.two_pow_pos _
  have hclz : count_leading_zeroes ((2 ^ 23 + fr) * 2 ^ (e1 - 214)) = 63 - (23 + (e1 - 214)) := by
    have e23 : 2 ^ (23 + (e1 - 214)) = 2 ^ 23 * 2 ^ (e1 - 214) := pow_add _ _ _
    have e24 : 2 ^ (23 + (e1 - 214) + 1) = 2 ^ 24 * 2 ^ (e1 - 214) := by
      have : 23 + (e1 - 214) + 1 = 24 + (e1 - 214) := by omega
      rw [this]
      exact pow_add _ _ _
    apply count_leading_zeroes_spec _ _ (by omega)
    · rw [e23]
      exact Nat.mul_le_mul_right _ (by omega)
    · rw [e24]
      exact Nat.mul_lt_mul_of_pos_right (by omega) hp
  have hexp : (254 : ℤ) + (e : ℤ) - (e1 : ℤ) - ((63 - (23 + (e1 - 214)) : ℕ) : ℤ) = (e : ℤ) := by
    omega
  unfold bits
  rw [t1, t2, t3, t4, t5]
  simp only [Bool.false_eq_true, if_false]
  rw [habs, hloop]
  simp only []
  rw [hmul, hcast]
  simp only []
  rw [hclz, hexp]
  have hne : ¬ ((e : ℤ) ≤ 0) := by omega
  rw [if_neg hne, if_neg hne]
  have hlz : (((63 - (23 + (e1 - 214)) : ℕ) : ℤ) + 1).toNat = 41 - (e1 - 214) := by omega
  rw [if_neg (by omega), hlz, significand_spec fr (e1 - 214) hfr (by omega)]
  have hme : ((e : ℤ) % 2 ^ 32).toNat = e := by omega
  rw [hme]
  have hpack := pack_fields (if s = true then 1 else 0) e fr (by split <;> omega) he2 hfr
  rw [hpack]

end cxmath_lemmas

/-- C21: with the loop of `bits` allowed seven tests or more, `bits( f )`
returns for every normal binary32 datum `f`, and `raw_value( )` of the result
is the IEEE-754 binary32 bit pattern of the value of `f`: bit 31 the sign,
bits 30..23 the biased exponent `floor( log2 |f| ) + 127`, bits 22..0 the
fraction, which are the three fields of `f`. `bits( 0.0f ).raw_value( )` is 0,
and the data of value 2, 234324.34375 and -1.99999988079071044921875 give
0x40000000, 0x4864d516 and 0xbfffffff. -/
theorem C21_bits_is_binary32_pattern (fuel : Nat) (hfuel : 7 ≤ fuel) :
    (∀ f : float, f.is_normal →
      ∃ r, cxmath.cxmath_impl.bits fuel f = some (Except.ok r) ∧
        r.raw_value = cxmath.cxmath_impl.binary32_pattern f.to_rat ∧
        r.raw_value = (if f.sign then 1 else 0) * 2 ^ 31 + f.exponent * 2 ^ 23 + f.fraction ∧
        (f.exponent : ℤ) = Int.log 2 |f.to_rat| + 127 ∧
        f.to_rat ≠ 0) ∧
    (∃ r, cxmath.cxmath_impl.bits fuel float.zero = some (Except.ok r) ∧ r.raw_value = 0) ∧
    (float.to_rat { sign := false, exponent := 128, fraction := 0 } = 2 ∧
      ∃ r, cxmath.cxmath_impl.bits fuel { sign := false, exponent := 128, fraction := 0 }
          = some (Except.ok r) ∧ r.raw_value = 0x40000000) ∧
    (float.to_rat { sign := false, exponent := 144, fraction := 6608150 } = 234324.34375 ∧
      ∃ r, cxmath.cxmath_impl.bits fuel { sign := false, exponent := 144, fraction := 6608150 }
          = some (Except.ok r) ∧ r.raw_value = 0x4864d516) ∧
    (float.to_rat { sign := true, exponent := 127, fraction := 8388607 }
        = -1.99999988079071044921875 ∧
      ∃ r, cxmath.cxmath_impl.bits fuel { sign := true, exponent := 127, fraction := 8388607 }
          = some (Except.ok r) ∧ r.raw_value = 0xbfffffff) := by
  refine ⟨?_, ?_, ⟨?_, ?_⟩, ⟨?_, ?_⟩, ⟨?_, ?_⟩⟩
  · rintro ⟨s, e, fr⟩ ⟨he1, he2, hfr⟩
    simp only [] at he1 he2 hfr
    obtain ⟨hpat, hlog⟩ := binary32_pattern_normal s e fr he1 hfr
    refine ⟨_, bits_normal s e fr fuel he1 he2 hfr hfuel, ?_, rfl, hlog.symm, ?_⟩
    · rw [hpat]
      rfl
    · have hpos := magnitude_pos s e fr he1
      unfold float.to_rat
      cases s
      · simp only [Bool.false_eq_true, if_false]
        exact ne_of_gt hpos
      · simp only [if_true]
        linarith [hpos]
  · refine ⟨{ m_raw_value := 0, m_float_value := float.zero }, ?_, rfl⟩
    have hz : float.eq float.zero float.zero = true := by
      simp [float.eq, float.zero, float.is_nan]
    unfold cxmath.cxmath_impl.bits
    rw [hz, if_pos rfl]
  · rw [to_rat_pos, magnitude_normal _ _ _ (by decide)]
    norm_num
  · exact ⟨_, bits_normal false 128 0 fuel (by decide) (by decide) (by decide) hfuel, rfl⟩
  · rw [to_rat_pos, magnitude_normal _ _ _ (by decide)]
    norm_num
  · exact ⟨_, bits_normal false 144 6608150 fuel (by decide) (by decide) (by decide) hfuel,
      rfl⟩
  · have : float.to_rat { sign := true, exponent := 127, fraction := 8388607 }
        = - float.magnitude { sign := true, exponent := 127, fraction := 8388607 } := rfl
    rw [this, magnitude_normal _ _ _ (by decide)]
    norm_num
  · exact ⟨_, bits_normal true 127 8388607 fuel (by decide) (by decide) (by decide) hfuel,
      rfl⟩

theorem C21_bits_is_binary32_pattern_witness :
    7 ≤ 7 ∧
    ∃ r, cxmath.cxmath_impl.bits 7 { sign := false, exponent := 128, fraction := 0 }
      = some (Except.ok r) ∧ r.raw_value = 0x40000000 :=
  ⟨le_refl 7, (C21_bits_is_binary32_pattern 7 (le_refl 7)).2.2.1.2⟩

section math_lemmas

theorem pow_impl_spec (w : Nat) : ∀ (exponent base : Nat),
    math.impl.pow_impl w base exponent
      = if exponent = 0 then base else base ^ (2 ^ exponent) % 2 ^ w := by
  intro exponent
  induction exponent with
  | zero =>
    intro base
    rfl
  | succ k ih =>
    intro base
    rw [if_neg (Nat.succ_ne_zero k)]
    unfold math.impl.pow_impl
    rw [ih]
    have hsq : base ^ 2 ^ (k + 1) = (base * base) ^ 2 ^ k := by
      rw [pow_succ, Nat.mul_comm (2 ^ k) 2, pow_mul, pow_two]
    by_cases hk : k = 0
    · subst hk
      simp
      rw [sq]
    · rw [if_neg hk, hsq, Nat.pow_mod (base * base)]

end math_lemmas

/-- C31, evaluated on the code: the loop of `pow_impl` squares `base` once per
iteration, so for `exponent > 0` and `base ≠ 0` the result of `pow` is
`base ^ (2 ^ exponent)` modulo `2 ^ w`, not `base ^ exponent`: `pow( 2, 3 )` is
256, and `pow( b, 1 )` is `b * b`, 9 for `b = 3`. -/
theorem C31_pow_squares_repeatedly :
    (∀ w base exponent : Nat, base ≠ 0 → 0 < exponent →
      math.pow w base exponent = base ^ (2 ^ exponent) % 2 ^ w) ∧
    math.pow 32 2 3 = 256 ∧ 2 ^ 3 % 2 ^ 32 = 8 ∧
    (∀ w b : Nat, b ≠ 0 → math.pow w b 1 = b * b % 2 ^ w) ∧
    math.pow 32 3 1 = 9 := by
  have hgen : ∀ w base exponent : Nat, base ≠ 0 → 0 < exponent →
      math.pow w base exponent = base ^ (2 ^ exponent) % 2 ^ w := by
    intro w base exponent hb he
    unfold math.pow
    rw [if_neg hb, if_pos he, pow_impl_spec, if_neg (by omega)]
  refine ⟨hgen, by decide, by decide, ?_, by decide⟩
  intro w b hb
  rw [hgen w b 1 hb (by decide)]
  congr 1
  ring

section search_lemmas

variable {α : Type} [DecidableEq α]

/-- What each way of ending the inner loop says about the two ranges. -/
theorem search_inner_spec : ∀ (it s : List α),
    (details.search_inner it s = details.inner_result.returns_first → s <+: it) ∧
    (details.search_inner it s = details.inner_result.returns_last →
      it.length < s.length) ∧
    (details.search_inner it s = details.inner_result.breaks → ¬ s <+: it) := by
  intro it
  induction it with
  | nil =>
    intro s
    cases s with
    | nil =>
      refine ⟨fun _ => List.nil_prefix, fun h => ?_, fun h => ?_⟩
      · simp [details.search_inner] at h
      · simp [details.search_inner] at h
    | cons y ys =>
      refine ⟨fun h => ?_, fun _ => by simp, fun h => ?_⟩
      · simp [details.search_inner] at h
      · simp [details.search_inner] at h
  | cons x xs ih =>
    intro s
    cases s with
    | nil =>
      refine ⟨fun _ => List.nil_prefix, fun h => ?_, fun h => ?_⟩
      · simp [details.search_inner] at h
      · simp [details.search_inner] at h
    | cons y ys =>
      obtain ⟨ih1, ih2, ih3⟩ := ih ys
      by_cases hxy : x = y
      · have e : details.search_inner (x :: xs) (y :: ys) = details.search_inner xs ys := by
          simp [details.search_inner, hxy]
        rw [e]
        refine ⟨fun h => ?_, fun h => ?_, fun h => ?_⟩
        · exact List.cons_prefix_cons.mpr ⟨hxy.symm, ih1 h⟩
        · have := ih2 h
          simp only [List.length_cons]
          omega
        · intro hp
          exact ih3 h (List.cons_prefix_cons.mp hp).2
      · have e : details.search_inner (x :: xs) (y :: ys) = details.inner_result.breaks := by
          simp [details.search_inner, hxy]
        rw [e]
        refine ⟨fun h => ?_, fun h => ?_, fun _ => ?_⟩
        · cases h
        · cases h
        · intro hp
          exact hxy (List.cons_prefix_cons.mp hp).1.symm

/-- The outer loop returns the first position from which the needle is a
prefix of the rest of the haystack, and `last` when there is none. -/
theorem search_outer_spec (s : List α) (last : Nat) : ∀ (rest : List α) (first : Nat),
    (∃ k, k ≤ rest.length ∧ details.search_outer s last first rest = first + k ∧
      s <+: rest.drop k ∧ ∀ j, j < k → ¬ s <+: rest.drop j) ∨
    (details.search_outer s last first rest = last ∧
      ∀ j, j ≤ rest.length → ¬ s <+: rest.drop j) := by
  intro rest
  induction rest with
  | nil =>
    intro first
    obtain ⟨h1, h2, h3⟩ := search_inner_spec ([] : List α) s
    unfold details.search_outer
    cases hin : details.search_inner ([] : List α) s with
    | returns_first =>
      left
      exact ⟨0, le_refl _, rfl, h1 hin, fun j hj => absurd hj (Nat.not_lt_zero j)⟩
    | returns_last =>
      right
      refine ⟨rfl, fun j _ hp => ?_⟩
      have hl := hp.length_le
      have := h2 hin
      simp only [List.drop_nil, List.length_nil] at hl
      omega
    | breaks =>
      right
      refine ⟨rfl, fun j _ hp => ?_⟩
      rw [List.drop_nil] at hp
      exact h3 hin hp
  | cons x xs ih =>
    intro first
    obtain ⟨h1, h2, h3⟩ := search_inner_spec (x :: xs) s
    unfold details.search_outer
    cases hin : details.search_inner (x :: xs) s with
    | returns_first =>
      left
      exact ⟨0, Nat.zero_le _, rfl, h1 hin, fun j hj => absurd hj (Nat.not_lt_zero j)⟩
    | returns_last =>
      right
      refine ⟨rfl, fun j _ hp => ?_⟩
      have hl := hp.length_le
      have := h2 hin
      rw [List.length_drop] at hl
      omega
    | breaks =>
      simp only []
      rcases ih (first + 1) with ⟨k, hk, hr, hp, hmin⟩ | ⟨hr, hno⟩
      · left
        refine ⟨k + 1, by simp only [List.length_cons]; omega, by rw [hr]; omega, ?_, ?_⟩
        · rw [List.drop_succ_cons]
          exact hp
        · intro j hj
          cases j with
          | zero => exact h3 hin
          | succ i =>
            rw [List.drop_succ_cons]
            exact hmin i (by omega)
      · right
        refine ⟨hr, fun j hj => ?_⟩
        cases j with
        | zero => exact h3 hin
        | succ i =>
          rw [List.drop_succ_cons]
          exact hno i (by simp only [List.length_cons] at hj; omega)

end search_lemmas

/-- The reference definition says that the needle is a prefix of the haystack
from position `i` on. -/
theorem occurs_at_iff {α : Type} (h s : List α) (i : Nat) :
    details.occurs_at h s i ↔ i ≤ h.length ∧ s <+: h.drop i := by
  unfold details.occurs_at
  rw [List.isPrefix_iff]
  constructor
  · rintro ⟨hle, hall⟩
    refine ⟨by omega, fun j hj => ?_⟩
    rw [List.getElem?_drop, hall j hj, List.getElem?_eq_getElem hj]
  · rintro ⟨hle, hall⟩
    have hlen : i + s.length ≤ h.length := by
      by_contra hc
      have hpos : 0 < s.length := by omega
      have hj : h.length - i < s.length := by omega
      have := hall (h.length - i) hj
      rw [List.getElem?_drop, List.getElem?_eq_none_iff.mpr (by omega)] at this
      cases this
    refine ⟨hlen, fun j hj => ?_⟩
    have := hall j hj
    rw [List.getElem?_drop] at this
    rw [this, List.getElem?_eq_getElem hj]

/-- C32: `details::search` returns for every haystack `h` and needle `s` (the
outer loop runs at most once per position of the haystack), and what it
returns is the least position at which `s` occurs in `h`, that is the least
`i` with `i + m ≤ n` and `h[i + j] == s[j]` for all `j < m`; it is `last`, the
position `n`, when `s` occurs nowhere, and `first`, the position 0, when `s` is
empty. -/
theorem C32_search_finds_first_occurrence {α : Type} [DecidableEq α] (h s : List α) :
    ((∃ i, details.occurs_at h s i) →
      details.occurs_at h s (details.search h s) ∧
      ∀ i, i < details.search h s → ¬ details.occurs_at h s i) ∧
    ((¬ ∃ i, details.occurs_at h s i) → details.search h s = h.length) ∧
    details.search h s ≤ h.length ∧
    (s = [] → details.search h s = 0) := by
  have hspec := search_outer_spec s h.length h 0
  have hsearch : details.search h s = details.search_outer s h.length 0 h := rfl
  rw [← hsearch] at hspec
  rcases hspec with ⟨k, hk, hr, hp, hmin⟩ | ⟨hr, hno⟩
  · have hrk : details.search h s = k := by omega
    rw [hrk]
    refine ⟨fun _ => ⟨(occurs_at_iff h s k).mpr ⟨hk, hp⟩, fun i hi ho => ?_⟩, fun hn => ?_, hk,
      fun hs => ?_⟩
    · exact hmin i hi ((occurs_at_iff h s i).mp ho).2
    · exact absurd ⟨k, (occurs_at_iff h s k).mpr ⟨hk, hp⟩⟩ hn
    · subst hs
      by_contra hk0
      exact hmin 0 (by omega) List.nil_prefix
  · have hnone : ∀ i, ¬ details.occurs_at h s i := by
      intro i ho
      obtain ⟨hi, hp⟩ := (occurs_at_iff h s i).mp ho
      exact hno i hi hp
    refine ⟨fun ⟨i, ho⟩ => absurd ho (hnone i), fun _ => hr, by omega, fun hs => ?_⟩
    subst hs
    exact absurd List.nil_prefix (hno 0 (Nat.zero_le _))

section view_lemmas

variable {T : Type}

theorem to_difference_type_small (n : Nat) (hn : n < 2 ^ 63) :
    view.to_difference_type n = (n : Int) := by
  unfold view.to_difference_type
  have h1 : n % 2 ^ 64 = n := Nat.mod_eq_of_lt (by omega)
  rw [h1, if_pos hn]

theorem view_size_eq (v : view) (hwf : v.well_formed) :
    v.size = (v.m_last - v.m_first).toNat ∧ ((v.size : Nat) : Int) = v.m_size ∧
      v.size < 2 ^ 63 := by
  obtain ⟨h1, h2, h3⟩ := hwf
  unfold view.size view.empty
  by_cases h0 : v.m_size ≤ 0
  · rw [decide_eq_true h0, if_pos rfl]
    omega
  · rw [decide_eq_false h0, if_neg (by simp)]
    have hlt : v.m_size.toNat < 2 ^ 64 := by omega
    rw [Nat.mod_eq_of_lt hlt]
    omega

theorem elements_length (mem : Int → T) (v : view) :
    (v.elements mem).length = (v.m_last - v.m_first).toNat := by
  simp [view.elements]

theorem elements_getElem? (mem : Int → T) (v : view) (i : Nat) :
    (v.elements mem)[i]?
      = if i < (v.m_last - v.m_first).toNat then some (mem (v.m_first + (i : Int))) else none := by
  unfold view.elements
  rw [List.getElem?_map]
  by_cases hi : i < (v.m_last - v.m_first).toNat
  · rw [List.getElem?_range hi, if_pos hi]
    rfl
  · rw [List.getElem?_eq_none_iff.mpr (by simpa using hi), if_neg hi]
    rfl

/-- The two views `pop_front( n )` makes from a well-formed view. -/
theorem pop_front_eq (v : view) (n : Nat) (hwf : v.well_formed) :
    v.pop_front n
      = ({ m_first := v.m_first, m_last := v.m_first + ((min n v.size : Nat) : Int),
           m_size := v.m_first + ((min n v.size : Nat) : Int) - v.m_first },
         { m_first := v.m_first + ((min n v.size : Nat) : Int), m_last := v.m_last,
           m_size := v.m_size - ((min n v.size : Nat) : Int) }) := by
  obtain ⟨_, _, hlt⟩ := view_size_eq v hwf
  have hclamp : (if n > v.size then v.size else n) = min n v.size := by
    by_cases h : n > v.size
    · rw [if_pos h]
      omega
    · rw [if_neg h]
      omega
  unfold view.pop_front view.remove_prefix view.construct
  simp only [hclamp]
  rw [to_difference_type_small _ (by omega)]

/-- The two views `pop_back( n )` makes from a well-formed view. -/
theorem pop_back_eq (v : view) (n : Nat) (hwf : v.well_formed) :
    v.pop_back n
      = ({ m_first := v.m_last - ((min n v.size : Nat) : Int), m_last := v.m_last,
           m_size := v.m_last - (v.m_last - ((min n v.size : Nat) : Int)) },
         { m_first := v.m_first, m_last := v.m_last + - ((min n v.size : Nat) : Int),
           m_size := v.m_size - ((min n v.size : Nat) : Int) }) := by
  obtain ⟨_, _, hlt⟩ := view_size_eq v hwf
  have hclamp : (if n > v.size then v.size else n) = min n v.size := by
    by_cases h : n > v.size
    · rw [if_pos h]
      omega
    · rw [if_neg h]
      omega
  unfold view.pop_back view.remove_suffix view.construct
  simp only [hclamp]
  rw [to_difference_type_small _ (by omega)]

end view_lemmas

/-- C33: for a view `v` made by the constructor over a sequence `xs` and every
`n`, with `k = min( n, |xs| )`: `pop_front( n )` returns a view over the first
`k` elements of `xs` and leaves `v` over the others, `pop_back( n )` returns a
view over the last `k` elements and leaves `v` over the others; returned and
remaining elements put together in order are `xs`, and the two `size( )` add
up to the `size( )` before. -/
theorem C33_view_pop_splits {T : Type} (mem : Int → T) (v : view) (n : Nat)
    (hwf : v.well_formed) :
    v.size = (v.elements mem).length ∧
    ((v.pop_front n).1.elements mem
        = (v.elements mem).take (min n (v.elements mem).length) ∧
      (v.pop_front n).2.elements mem
        = (v.elements mem).drop (min n (v.elements mem).length) ∧
      (v.pop_front n).1.elements mem ++ (v.pop_front n).2.elements mem = v.elements mem ∧
      (v.pop_front n).1.size = min n (v.elements mem).length ∧
      (v.pop_front n).1.size + (v.pop_front n).2.size = v.size ∧
      (v.pop_front n).1.well_formed ∧ (v.pop_front n).2.well_formed) ∧
    ((v.pop_back n).1.elements mem
        = (v.elements mem).drop ((v.elements mem).length - min n (v.elements mem).length) ∧
      (v.pop_back n).2.elements mem
        = (v.elements mem).take ((v.elements mem).length - min n (v.elements mem).length) ∧
      (v.pop_back n).2.elements mem ++ (v.pop_back n).1.elements mem = v.elements mem ∧
      (v.pop_back n).1.size = min n (v.elements mem).length ∧
      (v.pop_back n).1.size + (v.pop_back n).2.size = v.size ∧
      (v.pop_back n).1.well_formed ∧ (v.pop_back n).2.well_formed) := by
  obtain ⟨hs1, hs2, hs3⟩ := view_size_eq v hwf
  have hlen := elements_length mem v
  have hsize : v.size = (v.elements mem).length := by rw [hlen, hs1]
  obtain ⟨hw1, hw2, hw3⟩ := hwf
  rw [pop_front_eq v n ⟨hw1, hw2, hw3⟩, pop_back_eq v n ⟨hw1, hw2, hw3⟩, ← hsize]
  have hk : min n v.size ≤ v.size := Nat.min_le_right _ _
  generalize min n v.size = k at hk ⊢
  have hwfA : view.well_formed
      (view.mk v.m_first (v.m_first + (k : Int)) (v.m_first + (k : Int) - v.m_first)) :=
    ⟨by simp only []; omega, rfl, by simp only []; omega⟩
  have hwfB : view.well_formed
      (view.mk (v.m_first + (k : Int)) v.m_last (v.m_size - (k : Int))) :=
    ⟨by simp only []; omega, by simp only []; omega, by simp only []; omega⟩
  have hwfC : view.well_formed
      (view.mk (v.m_last - (k : Int)) v.m_last (v.m_last - (v.m_last - (k : Int)))) :=
    ⟨by simp only []; omega, rfl, by simp only []; omega⟩
  have hwfD : view.well_formed
      (view.mk v.m_first (v.m_last + - (k : Int)) (v.m_size - (k : Int))) :=
    ⟨by simp only []; omega, by simp only []; omega, by simp only []; omega⟩
  have hsA := (view_size_eq _ hwfA).1
  have hsB := (view_size_eq _ hwfB).1
  have hsC := (view_size_eq _ hwfC).1
  have hsD := (view_size_eq _ hwfD).1
  simp only [] at hsA hsB hsC hsD
  have hfront1 : view.elements mem
      (view.mk v.m_first (v.m_first + (k : Int)) (v.m_first + (k : Int) - v.m_first)) = (v.elements mem).take k := by
    apply List.ext_getElem?
    intro i
    rw [List.getElem?_take, elements_getElem?, elements_getElem?]
    simp only []
    by_cases hi : i < k
    · rw [if_pos hi, if_pos (by omega), if_pos (by omega)]
    · rw [if_neg hi, if_neg (by omega)]
  have hfront2 : view.elements mem
      (view.mk (v.m_first + (k : Int)) v.m_last (v.m_size - (k : Int))) = (v.elements mem).drop k := by
    apply List.ext_getElem?
    intro i
    rw [List.getElem?_drop, elements_getElem?, elements_getElem?]
    simp only []
    by_cases hi : k + i < (v.m_last - v.m_first).toNat
    · rw [if_pos hi, if_pos (by omega)]
      congr 2
      push_cast
      omega
    · rw [if_neg hi, if_neg (by omega)]
  have hback1 : view.elements mem
      (view.mk (v.m_last - (k : Int)) v.m_last (v.m_last - (v.m_last - (k : Int))))
      = (v.elements mem).drop (v.size - k) := by
    apply List.ext_getElem?
    intro i
    rw [List.getElem?_drop, elements_getElem?, elements_getElem?]
    simp only []
    by_cases hi : v.size - k + i < (v.m_last - v.m_first).toNat
    · rw [if_pos hi, if_pos (by omega)]
      congr 2
      push_cast
      omega
    · rw [if_neg hi, if_neg (by omega)]
  have hback2 : view.elements mem
      (view.mk v.m_first (v.m_last + - (k : Int)) (v.m_size - (k : Int))) = (v.elements mem).take (v.size - k) := by
    apply List.ext_getElem?
    intro i
    rw [List.getElem?_take, elements_getElem?, elements_getElem?]
    simp only []
    by_cases hi : i < v.size - k
    · rw [if_pos hi, if_pos (by omega), if_pos (by omega)]
    · rw [if_neg hi, if_neg (by omega)]
  refine ⟨rfl, ⟨hfront1, hfront2, ?_, ?_, ?_, hwfA, hwfB⟩,
    ⟨hback1, hback2, ?_, ?_, ?_, hwfC, hwfD⟩⟩
  · rw [hfront1, hfront2, List.take_append_drop]
  · simp only []
    rw [hsA]
    omega
  · simp only []
    rw [hsA, hsB]
    omega
  · rw [hback1, hback2, List.take_append_drop]
  · simp only []
    rw [hsC]
    omega
  · simp only []
    rw [hsC, hsD]
    omega

theorem C33_view_pop_splits_witness :
    (view.construct 3 10).well_formed ∧
    ((view.construct 3 10).pop_front 2).1.elements (fun i => i) = [3, 4] ∧
    ((view.construct 3 10).pop_front 2).2.elements (fun i => i) = [5, 6, 7, 8, 9] ∧
    ((view.construct 3 10).pop_front 2).1.elements (fun i => i)
        ++ ((view.construct 3 10).pop_front 2).2.elements (fun i => i)
      = (view.construct 3 10).elements (fun i => i) ∧
    ((view.construct 3 10).pop_back 20).1.elements (fun i => i) = [3, 4, 5, 6, 7, 8, 9] ∧
    ((view.construct 3 10).pop_back 20).2.elements (fun i => i) = [] :=
  ⟨⟨by decide, by decide, by decide⟩, by decide, by decide,
    (C33_view_pop_splits (fun i => i) (view.construct 3 10) 2
      ⟨by decide, by decide, by decide⟩).2.1.2.2.1,
    by decide, by decide⟩

section pack_lemmas

open traits

mutual
theorem is_same_iff : ∀ (a b : type_arg), a.is_same b = true ↔ a = b
  | type_arg.plain x, type_arg.plain y => by simp [type_arg.is_same]
  | type_arg.pack_list as, type_arg.pack_list bs => by
    have := is_same_pack_iff as bs
    simp [type_arg.is_same, this]
  | type_arg.plain _, type_arg.pack_list _ => by simp [type_arg.is_same]
  | type_arg.pack_list _, type_arg.plain _ => by simp [type_arg.is_same]
theorem is_same_pack_iff : ∀ (as bs : List type_arg),
    type_arg.is_same_pack as bs = true ↔ as = bs
  | [], [] => by simp [type_arg.is_same_pack]
  | a :: as, b :: bs => by
    have h1 := is_same_iff a b
    have h2 := is_same_pack_iff as bs
    simp [type_arg.is_same_pack, h1, h2]
  | [], _ :: _ => by simp [type_arg.is_same_pack]
  | _ :: _, [] => by simp [type_arg.is_same_pack]
end

theorem pack_index_of_pack_list (A : type_arg) (Pack : List type_arg) :
    pack_index_of A [type_arg.pack_list Pack] = pack_index_of A Pack := by
  rw [pack_index_of]

theorem pack_index_of_plain (A : type_arg) (t : cpp_type) :
    pack_index_of A [type_arg.plain t]
      = some ((if A.is_same (type_arg.plain t) then 1 else 0) - 1) := by
  rw [pack_index_of]
  intro Pack h
  cases h

theorem pack_index_of_cons (A B : type_arg) (C : List type_arg) (hC : C ≠ []) :
    pack_index_of A (B :: C)
      = match pack_index_of A C with
        | none => none
        | some r => some (if A.is_same B then 0 else if r = -1 then -1 else 1 + r) := by
  cases C with
  | nil => exact absurd rfl hC
  | cons c cs =>
    rw [pack_index_of]
    · intro Pack _ h
      cases h
    · intro h
      cases h

/-- The value of `pack_index_of` on a pack that ends in a type that is no
`pack_list`. -/
theorem pack_index_of_spec (A : type_arg) (t : cpp_type) : ∀ (init : List type_arg),
    (A ∈ init ++ [type_arg.plain t] →
      ∃ i : Nat, pack_index_of A (init ++ [type_arg.plain t]) = some (i : Int) ∧
        (init ++ [type_arg.plain t])[i]? = some A ∧
        ∀ j, j < i → (init ++ [type_arg.plain t])[j]? ≠ some A) ∧
    (A ∉ init ++ [type_arg.plain t] →
      pack_index_of A (init ++ [type_arg.plain t]) = some (-1)) := by
  intro init
  induction init with
  | nil =>
    rw [List.nil_append, pack_index_of_plain]
    by_cases h : A = type_arg.plain t
    · rw [if_pos ((is_same_iff _ _).mpr h)]
      refine ⟨fun _ => ⟨0, rfl, by simp [h], fun j hj => absurd hj (Nat.not_lt_zero j)⟩,
        fun hn => ?_⟩
      exact absurd (List.mem_singleton.mpr h) hn
    · have hs : ¬ (A.is_same (type_arg.plain t) = true) := fun hx => h ((is_same_iff _ _).mp hx)
      rw [if_neg hs]
      refine ⟨fun hin => absurd (List.mem_singleton.mp hin) h, fun _ => rfl⟩
  | cons B init1 ih =>
    obtain ⟨ih1, ih2⟩ := ih
    rw [List.cons_append, pack_index_of_cons A B _ (by simp)]
    by_cases hAB : A = B
    · have hs := (is_same_iff A B).mpr hAB
      have hres : ∃ r, pack_index_of A (init1 ++ [type_arg.plain t]) = some r := by
        by_cases hin : A ∈ init1 ++ [type_arg.plain t]
        · obtain ⟨i, hi, _⟩ := ih1 hin
          exact ⟨_, hi⟩
        · exact ⟨_, ih2 hin⟩
      obtain ⟨r, hr⟩ := hres
      rw [hr]
      simp only [hs, if_true]
      refine ⟨fun _ => ⟨0, rfl, by simp [hAB], fun j hj => absurd hj (Nat.not_lt_zero j)⟩,
        fun hn => ?_⟩
      exact absurd (List.mem_cons.mpr (Or.inl hAB)) hn
    · have hs : ¬ (A.is_same B = true) := fun hx => hAB ((is_same_iff _ _).mp hx)
      constructor
      · intro hin
        have hin1 : A ∈ init1 ++ [type_arg.plain t] := by
          rcases List.mem_cons.mp hin with h | h
          · exact absurd h hAB
          · exact h
        obtain ⟨i, hi, hget, hmin⟩ := ih1 hin1
        rw [hi]
        simp only [hs, if_false]
        have hne : ¬ ((i : Int) = -1) := by omega
        rw [if_neg hne]
        refine ⟨i + 1, by congr 1; push_cast; omega, ?_, ?_⟩
        · rw [List.getElem?_cons_succ]
          exact hget
        · intro j hj
          cases j with
          | zero =>
            rw [List.getElem?_cons_zero]
            intro hx
            exact hAB (Option.some.inj hx).symm
          | succ j1 =>
            rw [List.getElem?_cons_succ]
            exact hmin j1 (by omega)
      · intro hn
        have hn1 : A ∉ init1 ++ [type_arg.plain t] := fun hx =>
          hn (List.mem_cons.mpr (Or.inr hx))
        rw [ih2 hn1]
        simp [hs]

end pack_lemmas

/-- C34, a pack the claim does not hold for: the specialisation
`pack_index_of<T, pack_list<Pack...>>` makes `pack_index_of_v<T, pack_list<Pack...>>`
the index of `T` in `Pack`. `pack_index_of_v<int, pack_list<int>>` is 0 and
`pack_exits_v` is true although `int` is not in the list of the one type
`pack_list<int>`, and `pack_index_of_v<pack_list<int>, pack_list<int>>` is -1
although the type is in that list at index 0. -/
theorem C34_pack_list_is_searched :
    (∀ T Pack, traits.pack_index_of_v T [traits.type_arg.pack_list Pack]
      = traits.pack_index_of_v T Pack) ∧
    traits.pack_index_of_v (traits.type_arg.plain traits.cpp_type.int)
      [traits.type_arg.pack_list [traits.type_arg.plain traits.cpp_type.int]] = some 0 ∧
    traits.pack_exits_v (traits.type_arg.plain traits.cpp_type.int)
      [traits.type_arg.pack_list [traits.type_arg.plain traits.cpp_type.int]] = some true ∧
    traits.type_arg.plain traits.cpp_type.int
      ∉ [traits.type_arg.pack_list [traits.type_arg.plain traits.cpp_type.int]] ∧
    traits.pack_index_of_v
      (traits.type_arg.pack_list [traits.type_arg.plain traits.cpp_type.int])
      [traits.type_arg.pack_list [traits.type_arg.plain traits.cpp_type.int]] = some (-1) ∧
    [traits.type_arg.pack_list [traits.type_arg.plain traits.cpp_type.int]][0]?
      = some (traits.type_arg.pack_list [traits.type_arg.plain traits.cpp_type.int]) := by
  have h1 : traits.pack_index_of_v (traits.type_arg.plain traits.cpp_type.int)
      [traits.type_arg.pack_list [traits.type_arg.plain traits.cpp_type.int]] = some 0 := by
    unfold traits.pack_index_of_v
    rw [pack_index_of_pack_list, pack_index_of_plain]
    simp [traits.type_arg.is_same]
  refine ⟨fun T Pack => pack_index_of_pack_list T Pack, h1, ?_, ?_, ?_, rfl⟩
  · unfold traits.pack_exits_v
    rw [h1]
    rfl
  · simp
  · unfold traits.pack_index_of_v
    rw [pack_index_of_pack_list, pack_index_of_plain]
    simp [traits.type_arg.is_same]

/-- C34: for every type `T` and every pack `Ts` whose last type is no
`pack_list<...>`, `pack_index_of_v<T, Ts...>` is the zero-based index of the
first occurrence of `T` in `Ts`, and -1 if `T` does not occur in `Ts`; hence
`pack_exits_v<T, Ts...>` is true if and only if `T` occurs in `Ts`. -/
theorem C34_pack_index_of_first_occurrence (T : traits.type_arg) (Ts : List traits.type_arg)
    (t : traits.cpp_type) (hlast : Ts.getLast? = some (traits.type_arg.plain t)) :
    (T ∈ Ts → ∃ i : Nat, traits.pack_index_of_v T Ts = some (i : Int) ∧
      Ts[i]? = some T ∧ ∀ j, j < i → Ts[j]? ≠ some T) ∧
    (T ∉ Ts → traits.pack_index_of_v T Ts = some (-1)) ∧
    (∃ b, traits.pack_exits_v T Ts = some b ∧ (b = true ↔ T ∈ Ts)) := by
  obtain ⟨init, hTs⟩ := List.getLast?_eq_some_iff.mp hlast
  subst hTs
  obtain ⟨h1, h2⟩ := pack_index_of_spec T t init
  refine ⟨h1, h2, ?_⟩
  unfold traits.pack_exits_v
  by_cases hin : T ∈ init ++ [traits.type_arg.plain t]
  · obtain ⟨i, hi, _⟩ := h1 hin
    unfold traits.pack_index_of_v
    rw [hi]
    refine ⟨true, ?_, by simp [hin]⟩
    simp
  · have hi := h2 hin
    unfold traits.pack_index_of_v
    rw [hi]
    refine ⟨false, ?_, by simp [hin]⟩
    simp

theorem C34_pack_index_of_first_occurrence_witness :
    [traits.type_arg.plain traits.cpp_type.double, traits.type_arg.plain traits.cpp_type.int,
        traits.type_arg.plain traits.cpp_type.int].getLast?
      = some (traits.type_arg.plain traits.cpp_type.int) ∧
    traits.pack_index_of_v (traits.type_arg.plain traits.cpp_type.char)
      [traits.type_arg.plain traits.cpp_type.double, traits.type_arg.plain traits.cpp_type.int,
        traits.type_arg.plain traits.cpp_type.int] = some (-1) :=
  ⟨rfl, (C34_pack_index_of_first_occurrence (traits.type_arg.plain traits.cpp_type.char)
    [traits.type_arg.plain traits.cpp_type.double, traits.type_arg.plain traits.cpp_type.int,
      traits.type_arg.plain traits.cpp_type.int] traits.cpp_type.int rfl).2.1 (by simp)⟩

section world_deletion

variable {T : Type}

theorem add_observer_ptr (c : impl.control_block_t) :
    c.add_observer.2.m_ptr = c.m_ptr := by
  unfold impl.control_block_t.add_observer
  split <;> rfl

/-- What one returning handle operation does to the heap: nothing, an
`add_observer` on the control block, or a static `remove_observer` or
`remove_owner` on it; and every handle stays null or bound to the control
block. -/
theorem world_step_heap (cb : Nat) (w w1 : World T) (op : Op)
    (hobs : ∀ o ∈ w.observers, o.m_control_block = none ∨ o.m_control_block = some cb)
    (hown : ∀ ow, w.owner = some ow → ow.m_control_block = some cb)
    (hs : w.step op = Except.ok w1) :
    (∀ o ∈ w1.observers, o.m_control_block = none ∨ o.m_control_block = some cb) ∧
    (∀ ow, w1.owner = some ow → ow.m_control_block = some cb) ∧
    (w1.heap = w.heap ∨
      (∃ c, w.heap.cbs cb = some c ∧ w1.heap = w.heap.store cb c.add_observer.2) ∨
      (∃ i, op = Op.destroy_observer i ∧
        impl.control_block_t.remove_observer (some cb) w.heap = Except.ok w1.heap) ∨
      (op = Op.destroy_owner ∧
        impl.control_block_t.remove_owner (some cb) w.heap = Except.ok w1.heap)) := by
  cases op with
  | get_observer =>
    simp only [World.step] at hs
    cases how : w.owner with
    | none => simp [how] at hs
    | some ow =>
      simp only [how, Except.ok.injEq] at hs
      subst hs
      refine ⟨?_, ?_, Or.inl rfl⟩
      · intro o ho
        simp only [List.mem_append, List.mem_singleton] at ho
        rcases ho with ho | ho
        · exact hobs o ho
        · subst ho
          right
          simpa [observable_ptr.get_observer, observer_ptr.construct] using hown ow how
      · intro ow2 h2
        exact hown ow2 (by simpa [how] using h2)
  | observer_get_observer i =>
    simp only [World.step] at hs
    cases hoi : w.observers[i]? with
    | none => simp [hoi] at hs
    | some o =>
      simp only [hoi, Except.ok.injEq] at hs
      subst hs
      refine ⟨?_, hown, Or.inl rfl⟩
      intro o2 ho2
      simp only [List.mem_append, List.mem_singleton] at ho2
      rcases ho2 with ho2 | ho2
      · exact hobs o2 ho2
      · subst ho2
        simpa [observer_ptr.get_observer, observer_ptr.construct]
          using hobs o (List.getElem?_mem hoi)
  | copy i =>
    simp only [World.step] at hs
    cases hoi : w.observers[i]? with
    | none => simp [hoi] at hs
    | some o =>
      simp only [hoi] at hs
      cases hcp : o.copy w.heap with
      | error e => simp [hcp] at hs
      | ok r =>
        simp only [hcp, Except.ok.injEq] at hs
        subst hs
        obtain ⟨a, c, hoa, hca, hr1, hr2⟩ := copy_ok_spec o w.heap r hcp
        have ha : a = cb := by
          rcases hobs o (List.getElem?_mem hoi) with h | h
          · rw [hoa] at h; cases h
          · rw [hoa] at h; injection h
        subst ha
        refine ⟨?_, hown, Or.inr (Or.inl ⟨c, hca, hr2⟩)⟩
        intro o2 ho2
        simp only [List.mem_append, List.mem_singleton] at ho2
        rcases ho2 with ho2 | ho2
        · exact hobs o2 ho2
        · subst ho2
          right
          rw [hr1]
  | move i =>
    simp only [World.step] at hs
    cases hoi : w.observers[i]? with
    | none => simp [hoi] at hs
    | some o =>
      simp only [hoi, Except.ok.injEq] at hs
      subst hs
      refine ⟨?_, hown, Or.inl rfl⟩
      intro o2 ho2
      simp only [List.mem_append, List.mem_singleton] at ho2
      rcases ho2 with ho2 | ho2
      · rcases List.mem_or_eq_of_mem_set ho2 with h | h
        · exact hobs o2 h
        · subst h
          left
          rfl
      · subst ho2
        simpa [observer_ptr.move] using hobs o (List.getElem?_mem hoi)
  | copy_assign i j =>
    simp only [World.step] at hs
    cases hoi : w.observers[i]? with
    | none => simp [hoi] at hs
    | some self =>
      cases hoj : w.observers[j]? with
      | none => simp [hoi, hoj] at hs
      | some rhs =>
        simp only [hoi, hoj] at hs
        cases hcp : self.copy_assign rhs (decide (i = j)) w.heap with
        | error e => simp [hcp] at hs
        | ok r =>
          simp only [hcp, Except.ok.injEq] at hs
          subst hs
          rcases copy_assign_ok_spec self rhs _ w.heap r hcp with
            ⟨_, hr⟩ | ⟨_, a, c, hoa, hca, hr1, hr2⟩
          · subst hr
            refine ⟨?_, hown, Or.inl rfl⟩
            intro o2 ho2
            rcases List.mem_or_eq_of_mem_set ho2 with h | h
            · exact hobs o2 h
            · subst h
              exact hobs _ (List.getElem?_mem hoi)
          · have ha : a = cb := by
              rcases hobs rhs (List.getElem?_mem hoj) with h | h
              · rw [hoa] at h; cases h
              · rw [hoa] at h; injection h
            subst ha
            refine ⟨?_, hown, Or.inr (Or.inl ⟨c, hca, hr2⟩)⟩
            intro o2 ho2
            rcases List.mem_or_eq_of_mem_set ho2 with h | h
            · exact hobs o2 h
            · subst h
              right
              rw [hr1]
  | move_assign i j =>
    simp only [World.step] at hs
    cases hoi : w.observers[i]? with
    | none => simp [hoi] at hs
    | some self =>
      cases hoj : w.observers[j]? with
      | none => simp [hoi, hoj] at hs
      | some rhs =>
        simp only [hoi, hoj, Except.ok.injEq] at hs
        subst hs
        refine ⟨?_, hown, Or.inl rfl⟩
        intro o2 ho2
        have hself := hobs self (List.getElem?_mem hoi)
        have hrhs := hobs rhs (List.getElem?_mem hoj)
        rcases List.mem_or_eq_of_mem_set ho2 with h | h
        · rcases List.mem_or_eq_of_mem_set h with h2 | h2
          · exact hobs o2 h2
          · subst h2
            unfold observer_ptr.move_assign
            split
            · exact hrhs
            · left; rfl
        · subst h
          unfold observer_ptr.move_assign
          split
          · exact hself
          · exact hrhs
  | destroy_observer i =>
    simp only [World.step] at hs
    cases hoi : w.observers[i]? with
    | none => simp [hoi] at hs
    | some o =>
      simp only [hoi] at hs
      cases hd : o.destroy w.heap with
      | error e => simp [hd] at hs
      | ok h1 =>
        simp only [hd, Except.ok.injEq] at hs
        subst hs
        refine ⟨fun o2 ho2 => hobs o2 (List.mem_of_mem_eraseIdx ho2), hown, ?_⟩
        rcases destroy_ok_spec o w.heap h1 hd with ⟨_, he⟩ | ⟨a, hoa, hrem⟩
        · exact Or.inl he
        · have ha : a = cb := by
            rcases hobs o (List.getElem?_mem hoi) with h | h
            · rw [hoa] at h; cases h
            · rw [hoa] at h; injection h
          subst ha
          exact Or.inr (Or.inr (Or.inl ⟨i, rfl, hrem⟩))
  | destroy_owner =>
    simp only [World.step] at hs
    cases how : w.owner with
    | none => simp [how] at hs
    | some ow =>
      simp only [how] at hs
      cases hd : ow.destroy w.heap with
      | error e => simp [hd] at hs
      | ok h1 =>
        simp only [hd, Except.ok.injEq] at hs
        subst hs
        refine ⟨hobs, ?_, ?_⟩
        · intro ow2 h2
          cases h2
        have hrem : impl.control_block_t.remove_owner (some cb) w.heap = Except.ok h1 := by
          have := hown ow how
          simpa [observable_ptr.destroy, this] using hd
        exact Or.inr (Or.inr (Or.inr ⟨rfl, hrem⟩))

/-- One returning handle operation either deletes nothing and keeps the
resource pointer of the control block, or is a destruction that finds the
resource pointer non-null, deletes that pointer and leaves the pointer null and
the destruction flag set. -/
theorem world_deleted_step (cb : Nat) (w w1 : World T) (op : Op)
    (hobs : ∀ o ∈ w.observers, o.m_control_block = none ∨ o.m_control_block = some cb)
    (hown : ∀ ow, w.owner = some ow → ow.m_control_block = some cb)
    (hs : w.step op = Except.ok w1) :
    (w1.heap.deleted = w.heap.deleted ∧
      ∀ c1, w1.heap.cbs cb = some c1 →
        ∃ c, w.heap.cbs cb = some c ∧ c1.m_ptr = c.m_ptr) ∨
    ((op = Op.destroy_owner ∨ ∃ i, op = Op.destroy_observer i) ∧
      ∃ c q, w.heap.cbs cb = some c ∧ c.m_ptr = some q ∧
        w1.heap.deleted = w.heap.deleted ++ [q] ∧
        ∀ c1, w1.heap.cbs cb = some c1 → c1.m_ptr = none ∧ c1.m_ptr_destruct = true) := by
  obtain ⟨_, _, hheap⟩ := world_step_heap cb w w1 op hobs hown hs
  rcases hheap with he | ⟨c, hc, he⟩ | ⟨i, hop, hrem⟩ | ⟨hop, hrem⟩
  · left
    rw [he]
    exact ⟨rfl, fun c1 hc1 => ⟨c1, hc1, rfl⟩⟩
  · left
    rw [he]
    refine ⟨rfl, fun c1 hc1 => ⟨c, hc, ?_⟩⟩
    simp only [Heap.store, Function.update_same, Option.some.injEq] at hc1
    rw [← hc1]
    exact add_observer_ptr c
  · obtain ⟨c, hc, hcase⟩ := remove_delete_spec cb w.heap w1.heap (Or.inl hrem)
    rcases hcase with ⟨hdel, hptr⟩ | ⟨q, hq, hdel, hptr⟩
    · exact Or.inl ⟨hdel, fun c1 hc1 => ⟨c, hc, hptr c1 hc1⟩⟩
    · exact Or.inr ⟨Or.inr ⟨i, hop⟩, c, q, hc, hq, hdel, hptr⟩
  · obtain ⟨c, hc, hcase⟩ := remove_delete_spec cb w.heap w1.heap (Or.inr hrem)
    rcases hcase with ⟨hdel, hptr⟩ | ⟨q, hq, hdel, hptr⟩
    · exact Or.inl ⟨hdel, fun c1 hc1 => ⟨c, hc, hptr c1 hc1⟩⟩
    · exact Or.inr ⟨Or.inl hop, c, q, hc, hq, hdel, hptr⟩

/-- Over a run of handle operations: at most one pointer is deleted, and once
one has been deleted the resource pointer of the control block is null. -/
theorem world_deleted_run (cb : Nat) (base : List Nat) :
    ∀ (ops : List Op) (w w1 : World T),
      (∀ o ∈ w.observers, o.m_control_block = none ∨ o.m_control_block = some cb) →
      (∀ ow, w.owner = some ow → ow.m_control_block = some cb) →
      (∃ d, w.heap.deleted = base ++ d ∧ d.length ≤ 1 ∧
        (d ≠ [] → ∀ c, w.heap.cbs cb = some c → c.m_ptr = none)) →
      World.run w ops = Except.ok w1 →
      (∀ o ∈ w1.observers, o.m_control_block = none ∨ o.m_control_block = some cb) ∧
      (∀ ow, w1.owner = some ow → ow.m_control_block = some cb) ∧
      (∃ d, w1.heap.deleted = base ++ d ∧ d.length ≤ 1 ∧
        (d ≠ [] → ∀ c, w1.heap.cbs cb = some c → c.m_ptr = none)) := by
  intro ops
  induction ops with
  | nil =>
    intro w w1 hobs hown hdel hrun
    simp [World.run] at hrun
    subst hrun
    exact ⟨hobs, hown, hdel⟩
  | cons op rest ih =>
    intro w w1 hobs hown hdel hrun
    simp only [World.run] at hrun
    cases hst : w.step op with
    | error e => simp [hst] at hrun
    | ok w2 =>
      simp only [hst] at hrun
      obtain ⟨hobs2, hown2, _⟩ := world_step_heap cb w w2 op hobs hown hst
      refine ih w2 w1 hobs2 hown2 ?_ hrun
      obtain ⟨d, hd, hlen, hnull⟩ := hdel
      rcases world_deleted_step cb w w2 op hobs hown hst with
        ⟨hsame, hptr⟩ | ⟨_, c, q, hc, hq, hnew, hafter⟩
      · refine ⟨d, by rw [hsame]; exact hd, hlen, ?_⟩
        intro hne c1 hc1
        obtain ⟨c, hc, e⟩ := hptr c1 hc1
        rw [e]
        exact hnull hne c hc
      · have hdnil : d = [] := by
          by_contra hne
          have := hnull hne c hc
          rw [hq] at this
          cases this
        subst hdnil
        refine ⟨[q], by rw [hnew, hd]; simp, by simp, ?_⟩
        intro _ c1 hc1
        exact (hafter c1 hc1).1

/-- Once the resource pointer of the control block is null, no run of handle
operations deletes anything. -/
theorem world_no_more_deletion (cb : Nat) :
    ∀ (ops : List Op) (w w1 : World T),
      (∀ o ∈ w.observers, o.m_control_block = none ∨ o.m_control_block = some cb) →
      (∀ ow, w.owner = some ow → ow.m_control_block = some cb) →
      (∀ c, w.heap.cbs cb = some c → c.m_ptr = none) →
      World.run w ops = Except.ok w1 → w1.heap.deleted = w.heap.deleted := by
  intro ops
  induction ops with
  | nil =>
    intro w w1 _ _ _ hrun
    simp [World.run] at hrun
    subst hrun
    rfl
  | cons op rest ih =>
    intro w w1 hobs hown hnull hrun
    simp only [World.run] at hrun
    cases hst : w.step op with
    | error e => simp [hst] at hrun
    | ok w2 =>
      simp only [hst] at hrun
      obtain ⟨hobs2, hown2, _⟩ := world_step_heap cb w w2 op hobs hown hst
      rcases world_deleted_step cb w w2 op hobs hown hst with
        ⟨hsame, hptr⟩ | ⟨_, c, q, hc, hq, _, _⟩
      · rw [← hsame]
        refine ih w2 w1 hobs2 hown2 ?_ hrun
        intro c1 hc1
        obtain ⟨c, hc, e⟩ := hptr c1 hc1
        rw [e]
        exact hnull c hc
      · have := hnull c hc
        rw [hq] at this
        cases this

end world_deletion


/-- C11, evaluated on the code: an Owner and the Observer it handed out by
`get_observer`, no Locked Handle outstanding. The Owner's destruction deletes
the resource and, the Observer not being counted, deallocates the control
block; `lock` on the Observer then calls `borrow`, which dereferences the
deallocated control block, instead of returning the empty `expected_t`. So
does `lock` on every handle whose control block has been deallocated. -/
theorem C11_lock_after_owner_destruction :
    (∃ h1 : Heap Nat, scenario.owner.destroy scenario.start = Except.ok h1 ∧
      h1.deleted = [0] ∧ h1.objs 0 = none ∧ h1.cbs 1 = none ∧
      scenario.observer.borrow h1 = Except.error Stuck.undefined_behaviour ∧
      scenario.observer.lock scenario.plus_one h1
        = Except.error Stuck.undefined_behaviour ∧
      scenario.observer.lock_const scenario.plus_one_const h1
        = Except.error Stuck.undefined_behaviour) ∧
    (∀ (a : Nat) (h : Heap Nat) (f : Nat → Nat × Except String Nat)
        (g : Nat → Except String Nat), h.cbs a = none →
      observer_ptr.lock { m_control_block := some a } f h
        = Except.error Stuck.undefined_behaviour ∧
      observer_ptr.lock_const { m_control_block := some a } g h
        = Except.error Stuck.undefined_behaviour ∧
      observable_ptr.lock { m_control_block := some a } f h
        = Except.error Stuck.undefined_behaviour ∧
      observable_ptr.lock_const { m_control_block := some a } g h
        = Except.error Stuck.undefined_behaviour) := by
  refine ⟨⟨_, rfl, ?_, ?_, ?_, ?_, ?_, ?_⟩, ?_⟩
  · rfl
  · rfl
  · rfl
  · rfl
  · rfl
  · rfl
  · intro a h f g hc
    simp [observer_ptr.lock, observer_ptr.lock_const, observable_ptr.lock,
      observable_ptr.lock_const, observer_ptr.borrow, observable_ptr.borrow, hc]

/-- C12, amended: whenever the resource is deleted, `destruction_requested` is
true (whatever `observer_count` is), and a resource once deleted is never
deleted again. `destruct_if_should` hands a pointer to `delete` only when the
flag is set, and the pointer is then null. In every run of the borrow protocol
and in every run of handle operations (Observers handed out, copied, moved,
assigned and destroyed, the Owner destroyed) from a fresh control block, at
most one pointer is ever deleted; a step that deletes found nothing deleted
before and the resource pointer non-null, it is a destruction, and it leaves
the flag set and the pointer null in the control block, which stays allocated
while Observers are registered; and after a deletion no further run of handle
operations deletes anything. -/
theorem C12_resource_deleted_once {T : Type} (value : Option Nat) (cb : Nat)
    (h0 : Heap T) (acts : List Action) (s : System T) (ops : List Op) (w : World T)
    (hrun : System.run cb (System.initial value cb h0) acts = Except.ok s)
    (hworld : World.run (World.initial value cb h0) ops = Except.ok w) :
    (∀ (c : impl.control_block_t) (q : Nat), c.destruct_if_should.2 = some q →
      c.m_ptr_destruct = true ∧ c.m_ptr = some q ∧ c.destruct_if_should.1.m_ptr = none ∧
      c.destruct_if_should.1.destruct_if_should.2 = none) ∧
    ((∃ d, s.heap.deleted = h0.deleted ++ d ∧ d.length ≤ 1) ∧
      (∀ act s1, s.step cb act = Except.ok s1 → s1.heap.deleted ≠ s.heap.deleted →
        (act = Action.remove_observer ∨ act = Action.remove_owner) ∧
        s.heap.deleted = h0.deleted ∧
        ∃ c q, s.heap.cbs cb = some c ∧ c.m_ptr = some q ∧
          s1.heap.deleted = s.heap.deleted ++ [q] ∧
          ∀ c1, s1.heap.cbs cb = some c1 → c1.m_ptr = none ∧ c1.m_ptr_destruct = true)) ∧
    ((∃ d, w.heap.deleted = h0.deleted ++ d ∧ d.length ≤ 1) ∧
      (∀ op w1, w.step op = Except.ok w1 → w1.heap.deleted ≠ w.heap.deleted →
        (op = Op.destroy_owner ∨ ∃ i, op = Op.destroy_observer i) ∧
        w.heap.deleted = h0.deleted ∧
        ∃ c q, w.heap.cbs cb = some c ∧ c.m_ptr = some q ∧
          w1.heap.deleted = w.heap.deleted ++ [q] ∧
          ∀ c1, w1.heap.cbs cb = some c1 → c1.m_ptr = none ∧ c1.m_ptr_destruct = true) ∧
      (w.heap.deleted ≠ h0.deleted →
        ∀ ops2 w2, World.run w ops2 = Except.ok w2 → w2.heap.deleted = w.heap.deleted)) := by
  obtain ⟨hfun, hsys1, hsys2⟩ := system_deleted_once value cb h0 acts s hrun
  have hinit_obs : ∀ o ∈ (World.initial value cb h0).observers,
      o.m_control_block = none ∨ o.m_control_block = some cb := by
    intro o ho
    simp [World.initial] at ho
  have hinit_own : ∀ ow, (World.initial value cb h0).owner = some ow →
      ow.m_control_block = some cb := by
    intro ow how
    simp only [World.initial, Option.some.injEq] at how
    rw [← how]
    rfl
  have hinit_del : ∃ d, (World.initial value cb h0).heap.deleted = h0.deleted ++ d ∧
      d.length ≤ 1 ∧
      (d ≠ [] → ∀ c, (World.initial value cb h0).heap.cbs cb = some c → c.m_ptr = none) :=
    ⟨[], by simp [World.initial, observable_ptr.construct, Heap.store], by simp, by simp⟩
  obtain ⟨hobs, hown, d, hd, hlen, hnull⟩ :=
    world_deleted_run cb h0.deleted ops _ w hinit_obs hinit_own hinit_del hworld
  refine ⟨hfun, ⟨hsys1, hsys2⟩, ⟨d, hd, hlen⟩, ?_, ?_⟩
  · intro op w1 hs hne
    rcases world_deleted_step cb w w1 op hobs hown hs with
      ⟨hsame, _⟩ | ⟨hop, c, q, hc, hq, hnew, hafter⟩
    · exact absurd hsame hne
    · have hdnil : d = [] := by
        by_contra hne2
        have := hnull hne2 c hc
        rw [hq] at this
        cases this
      subst hdnil
      exact ⟨hop, by simpa using hd, c, q, hc, hq, hnew, hafter⟩
  · intro hne ops2 w2 hrun2
    have hdne : d ≠ [] := by
      intro hnil
      subst hnil
      exact hne (by simpa using hd)
    exact world_no_more_deletion cb ops2 w w2 hobs hown (hnull hdne) hrun2

/-- Witness for C12: in the borrow protocol the Owner around 42 is destroyed
after an Observer has borrowed and released; among handles, the Owner is
destroyed while a copy of an Observer is registered, which deletes the pointer
0 and leaves the control block allocated with `observer_count` 1, and nothing
the handles do afterwards deletes anything. -/
theorem C12_resource_deleted_once_witness :
    ∃ (s : System Nat) (w : World Nat),
      System.run 1 (System.initial (some 0) 1 scenario.heap42)
        [Action.borrow false, Action.release 0, Action.remove_owner] = Except.ok s ∧
      World.run (World.initial (some 0) 1 scenario.heap42)
        [Op.get_observer, Op.copy 0, Op.destroy_owner] = Except.ok w ∧
      s.heap.deleted = [0] ∧ w.heap.deleted = [0] ∧
      w.heap.observer_count 1 = some 1 ∧ w.heap.destruction_requested 1 = some true ∧
      (∃ d, w.heap.deleted = scenario.heap42.deleted ++ d ∧ d.length ≤ 1) ∧
      (∀ ops2 w2, World.run w ops2 = Except.ok w2 → w2.heap.deleted = w.heap.deleted) :=
  ⟨_, _, rfl, rfl, rfl, rfl, rfl, rfl,
    (C12_resource_deleted_once (some 0) 1 scenario.heap42
      [Action.borrow false, Action.release 0, Action.remove_owner] _
      [Op.get_observer, Op.copy 0, Op.destroy_owner] _ rfl rfl).2.2.1,
    (C12_resource_deleted_once (some 0) 1 scenario.heap42
      [Action.borrow false, Action.release 0, Action.remove_owner] _
      [Op.get_observer, Op.copy 0, Op.destroy_owner] _ rfl rfl).2.2.2.2 (by decide)⟩

end daw
